import Mathlib

/-!
# gText: text areas, scrolling and glyph rendering on a page-organised display

A shallow embedding of `trunk/glcd/gText.cpp`.  Values of type `uint8_t` are
natural numbers reduced modulo 256 at every assignment that can overflow;
`uint16_t` values are reduced modulo 65536.  Loops whose termination depends on
such arithmetic take a fuel argument and return `none` when it runs out.
-/

namespace GLCD

/-! ## Constants of the headers that are not part of the source file -/

/-- Scroll direction of a text area (`textMode` of `gText.h`). -/
inductive textMode where
  | SCROLL_UP
  | SCROLL_DOWN
  deriving DecidableEq, Repr

/-- Modelled from the spec: the compile-time constants and macros that
`gText.cpp` takes from `glcd_Config.h`, `glcd_Device.h` and `gText.h`, none of
which is in the source tree.  The display dimensions, the two colour codes, the
default scroll direction, the fixed offsets of the font header fields and the
`isFixedWidtFont` test on a font table are parameters of every definition that
uses them. -/
structure Config where
  DISPLAY_WIDTH : Nat
  DISPLAY_HEIGHT : Nat
  BLACK : Nat
  WHITE : Nat
  DEFAULT_SCROLLDIR : textMode
  FONT_FIXED_WIDTH : Nat
  FONT_HEIGHT : Nat
  FONT_FIRST_CHAR : Nat
  FONT_CHAR_COUNT : Nat
  FONT_WIDTH_TABLE : Nat
  isFixedWidtFont : (Nat → Nat) → Bool

/-- The bit-value helper `_BV(bit)` of avr-libc, `1 << bit`. -/
def BV (bit : Nat) : Nat := 1 <<< bit

/-- The low byte of the C expression `~v`; every use in the source is
`b & ~v` or `b &= ~v` with `b` a `uint8_t`, so only the low byte counts. -/
def bnot (v : Nat) : Nat := 255 ^^^ (v % 256)

/-! ## The device -/

/-- One bus transaction of the device, as recorded in its log. -/
inductive DevOp where
  | read (col page : Nat)
  | write (col page data : Nat)
  | fill (x1 y1 x2 y2 color : Nat)
  deriving DecidableEq, Repr

/-- Modelled from the spec: the page-addressed display behind `glcd_Device`
(its implementation is not in the source tree).  `mem col page` is the byte
holding the eight pixels of column `col`, rows `8*page .. 8*page+7`, bit `i`
being row `8*page+i`; `col`, `page` is the device cursor; `log` lists the reads,
writes and fills issued so far, oldest first. -/
structure Device where
  mem : Nat → Nat → Nat
  col : Nat
  page : Nat
  log : List DevOp

/-- Pixel `(c, r)`: bit `r mod 8` of the byte at column `c`, page `r div 8`. -/
def pixel (d : Device) (c r : Nat) : Bool := (d.mem c (r / 8)).testBit (r % 8)

/-- Byte whose bit `i` is `f i` for `i < n`, and zero above. -/
def mkByte (f : Nat → Bool) : Nat → Nat
  | 0 => 0
  | n + 1 => mkByte f n + (if f n then 2 ^ n else 0)

/-- Modelled from the spec: `GotoXY(x, y)` positions the device cursor on
column `x` and the page containing row `y`. -/
def GotoXY (d : Device) (x y : Nat) : Device :=
  { d with col := x, page := y / 8 }

/-- Modelled from the spec: `ReadData()` returns the byte at the device cursor.
In the device model of C1, C2 and C3 it does not move the cursor; the
read-modify-write sequences of the source, a `ReadData` directly followed by
`WriteData`, rely on that. -/
def ReadData (d : Device) : Device × Nat :=
  ({ d with log := d.log ++ [DevOp.read d.col d.page] }, d.mem d.col d.page % 256)

/-- Modelled from the spec: `WriteData(data)` stores the byte at the device
cursor and advances the cursor by one column. -/
def WriteData (d : Device) (data : Nat) : Device :=
  { mem := fun c p => if c = d.col ∧ p = d.page then data % 256 else d.mem c p
    col := d.col + 1
    page := d.page
    log := d.log ++ [DevOp.write d.col d.page (data % 256)] }

/-- Modelled from the spec: `SetPixels(x1, y1, x2, y2, color)` fills the
inclusive rectangle; a pixel is set exactly when `color` is `BLACK`. -/
def SetPixels (K : Config) (d : Device) (x1 y1 x2 y2 color : Nat) : Device :=
  { d with
    mem := fun c p => mkByte (fun i =>
      if x1 ≤ c ∧ c ≤ x2 ∧ y1 ≤ 8 * p + i ∧ 8 * p + i ≤ y2
      then decide (color = K.BLACK) else (d.mem c p).testBit i) 8
    log := d.log ++ [DevOp.fill x1 y1 x2 y2 color] }

/-! ## The text area -/

/-- The rectangle and scroll mode of a text area (`this->tarea`). -/
structure TextArea where
  x1 : Nat
  y1 : Nat
  x2 : Nat
  y2 : Nat
  mode : textMode

/-- State of a `gText` object.  `Font` is the font pointer: `none` is the null
pointer, `some f` a table read as `FontRead(this->Font + off) = f off mod 256`. -/
structure gText where
  tarea : TextArea
  x : Nat
  y : Nat
  Font : Option (Nat → Nat)
  FontColor : Nat
  device : Device

/-- The call `FontRead(this->Font + off)`, a byte. -/
def FontRead (font : Nat → Nat) (off : Nat) : Nat := font off % 256

/-- `gText::DefineArea(x1, y1, x2, y2, mode)`, lines 162-197. -/
def DefineArea (K : Config) (g : gText) (x1 y1 x2 y2 : Nat) (mode : textMode) : Nat × gText :=
  if x1 ≥ x2 ∨ y1 ≥ y2 ∨ x1 ≥ K.DISPLAY_WIDTH ∨ y1 ≥ K.DISPLAY_HEIGHT
      ∨ x2 ≥ K.DISPLAY_WIDTH ∨ y2 ≥ K.DISPLAY_WIDTH then
    (0, { g with
          tarea := { x1 := 0, y1 := 0, x2 := K.DISPLAY_WIDTH - 1, y2 := K.DISPLAY_HEIGHT - 1,
                     mode := K.DEFAULT_SCROLLDIR }
          x := x1, y := y1 })
  else
    (1, { g with
          tarea := { x1 := x1, y1 := y1, x2 := x2, y2 := y2, mode := mode }
          x := x1, y := y1 })

/-! ## Scrolling -/

/-- The copy loop of `ScrollUp`, lines 291-318: `while(sy <= y2)`.  Returns the
device, `dy` and `dbyte` at loop exit. -/
def ScrollUp.copy (K : Config) (col y2 : Nat) :
    Nat → Device → Nat → Nat → Nat → Nat → Option (Device × Nat × Nat)
  | 0, _, _, _, _, _ => none
  | fuel + 1, d, dy, dbyte, sy, sbyte =>
    if sy ≤ y2 then
      let dbyte1 := if sbyte &&& BV (sy &&& 7) ≠ 0 then (dbyte ||| BV (dy &&& 7)) % 256 else dbyte
      let sy1 := (sy + 1) % 256
      let rd := if sy1 &&& 7 = 0 ∧ sy1 < K.DISPLAY_HEIGHT
                then ReadData (GotoXY d col (sy1 &&& bnot 7)) else (d, sbyte)
      let wr := if dy &&& 7 = 7
                then (WriteData (GotoXY rd.1 col (dy &&& bnot 7)) dbyte1, 0) else (rd.1, dbyte1)
      ScrollUp.copy K col y2 fuel wr.1 ((dy + 1) % 256) wr.2 sy1 rd.2
    else some (d, dy, dbyte)

/-- The fill loop of `ScrollUp`, lines 324-342: `for(p = pixels; p; p--)`. -/
def ScrollUp.fill (K : Config) (col color : Nat) : Nat → Device → Nat → Nat → Device × Nat × Nat
  | 0, d, dy, dbyte => (d, dy, dbyte)
  | p + 1, d, dy, dbyte =>
    let dbyte1 := if color = K.BLACK then (dbyte ||| BV (dy &&& 7)) % 256
                  else dbyte &&& bnot (BV (dy &&& 7))
    let wr := if dy &&& 7 = 7
              then (WriteData (GotoXY d col (dy &&& bnot 7)) dbyte1, 0) else (d, dbyte1)
    ScrollUp.fill K col color p wr.1 ((dy + 1) % 256) wr.2

/-- The final flush of `ScrollUp`, lines 349-364. -/
def ScrollUp.flush (d : Device) (col dy dbyte : Nat) : Device :=
  if dy &&& 7 ≠ 0 then
    let dy1 := (dy + 255) % 256
    let rd := ReadData (GotoXY d col (dy1 &&& bnot 7))
    let dy2 := (dy1 + 1) % 256
    let sbyte := rd.2 &&& bnot (BV (dy2 &&& 7) - 1)
    WriteData rd.1 (dbyte ||| sbyte)
  else d

/-- One pass of the body of the column loop of `ScrollUp`, lines 276-364. -/
def ScrollUp.column (K : Config) (fuel : Nat) (d : Device) (col y1 y2 pixels color : Nat) :
    Option Device :=
  let dy := y1
  let rd := ReadData (GotoXY d col (dy &&& bnot 7))
  let dbyte := rd.2 &&& (BV (dy &&& 7) - 1)
  let sy := (dy + pixels) % 256
  let rs := ReadData (GotoXY rd.1 col (sy &&& bnot 7))
  match ScrollUp.copy K col y2 fuel rs.1 dy dbyte sy rs.2 with
  | none => none
  | some (d1, dy1, dbyte1) =>
    let r := ScrollUp.fill K col color pixels d1 dy1 dbyte1
    some (ScrollUp.flush r.1 col r.2.1 r.2.2)

/-- The column loop of `ScrollUp`, line 274: `for(col = x1; col <= x2; col++)`. -/
def ScrollUp.columns (K : Config) (y1 x2 y2 pixels color : Nat) (inner : Nat) :
    Nat → Device → Nat → Option Device
  | 0, _, _ => none
  | fuel + 1, d, col =>
    if col ≤ x2 then
      match ScrollUp.column K inner d col y1 y2 pixels color with
      | none => none
      | some d1 => ScrollUp.columns K y1 x2 y2 pixels color inner fuel d1 ((col + 1) % 256)
    else some d

/-- `gText::ScrollUp(x1, y1, x2, y2, pixels, color)`, lines 252-367. -/
def ScrollUp (K : Config) (fuel : Nat) (d : Device) (x1 y1 x2 y2 pixels color : Nat) :
    Option Device :=
  if y1 + pixels > y2 then
    some (SetPixels K d x1 y1 x2 y2 color)
  else
    ScrollUp.columns K y1 x2 y2 pixels color fuel fuel d x1

/-- The copy loop of `ScrollDown`, lines 411-434: `while(sy >= y1)` with its
`break` when `sy` reaches zero. -/
def ScrollDown.copy (col y1 : Nat) :
    Nat → Device → Nat → Nat → Nat → Nat → Option (Device × Nat × Nat)
  | 0, _, _, _, _, _ => none
  | fuel + 1, d, dy, dbyte, sy, sbyte =>
    if sy ≥ y1 then
      let dbyte1 := if sbyte &&& BV (sy &&& 7) ≠ 0 then (dbyte ||| BV (dy &&& 7)) % 256 else dbyte
      let wr := if dy &&& 7 = 0
                then (WriteData (GotoXY d col (dy &&& bnot 7)) dbyte1, 0) else (d, dbyte1)
      let dy1 := (dy + 255) % 256
      if sy = 0 then some (wr.1, dy1, wr.2)
      else
        let sy1 := (sy + 255) % 256
        let rd := if sy1 &&& 7 = 7
                  then ReadData (GotoXY wr.1 col (sy1 &&& bnot 7)) else (wr.1, sbyte)
        ScrollDown.copy col y1 fuel rd.1 dy1 wr.2 sy1 rd.2
    else some (d, dy, dbyte)

/-- The fill loop of `ScrollDown`, lines 440-458: `for(p = pixels; p; p--)`. -/
def ScrollDown.fill (K : Config) (col color : Nat) : Nat → Device → Nat → Nat → Device × Nat × Nat
  | 0, d, dy, dbyte => (d, dy, dbyte)
  | p + 1, d, dy, dbyte =>
    let dbyte1 := if color = K.BLACK then (dbyte ||| BV (dy &&& 7)) % 256
                  else dbyte &&& bnot (BV (dy &&& 7))
    let wr := if dy &&& 7 = 0
              then (WriteData (GotoXY d col (dy &&& bnot 7)) dbyte1, 0) else (d, dbyte1)
    ScrollDown.fill K col color p wr.1 ((dy + 255) % 256) wr.2

/-- The final flush of `ScrollDown`, lines 460-477 (after `dy++`). -/
def ScrollDown.flush (d : Device) (col dy dbyte : Nat) : Device :=
  if dy &&& 7 ≠ 0 then
    let rd := ReadData (GotoXY d col (dy &&& bnot 7))
    let sbyte := rd.2 &&& (BV (dy &&& 7) - 1)
    WriteData rd.1 (dbyte ||| sbyte)
  else d

/-- One pass of the body of the column loop of `ScrollDown`, lines 398-477. -/
def ScrollDown.column (K : Config) (fuel : Nat) (d : Device) (col y1 y2 pixels color : Nat) :
    Option Device :=
  let dy := y2
  let rd := ReadData (GotoXY d col (dy &&& bnot 7))
  let dbyte := rd.2 &&& bnot (BV ((dy &&& 7) + 1) - 1)
  let sy := (dy + 256 - pixels) % 256
  let rs := ReadData (GotoXY rd.1 col (sy &&& bnot 7))
  match ScrollDown.copy col y1 fuel rs.1 dy dbyte sy rs.2 with
  | none => none
  | some (d1, dy1, dbyte1) =>
    let r := ScrollDown.fill K col color pixels d1 dy1 dbyte1
    some (ScrollDown.flush r.1 col ((r.2.1 + 1) % 256) r.2.2)

/-- The column loop of `ScrollDown`, line 396: `for(col = x1; col <= x2; col++)`. -/
def ScrollDown.columns (K : Config) (y1 x2 y2 pixels color : Nat) (inner : Nat) :
    Nat → Device → Nat → Option Device
  | 0, _, _ => none
  | fuel + 1, d, col =>
    if col ≤ x2 then
      match ScrollDown.column K inner d col y1 y2 pixels color with
      | none => none
      | some d1 => ScrollDown.columns K y1 x2 y2 pixels color inner fuel d1 ((col + 1) % 256)
    else some d

/-- `gText::ScrollDown(x1, y1, x2, y2, pixels, color)`, lines 371-481. -/
def ScrollDown (K : Config) (fuel : Nat) (d : Device) (x1 y1 x2 y2 pixels color : Nat) :
    Option Device :=
  if y1 + pixels > y2 then
    some (SetPixels K d x1 y1 x2 y2 color)
  else
    ScrollDown.columns K y1 x2 y2 pixels color fuel fuel d x1

/-! ## Character output -/

/-- The background colour `this->FontColor == BLACK ? WHITE : BLACK`. -/
def bgColor (K : Config) (fontColor : Nat) : Nat :=
  if fontColor = K.BLACK then K.WHITE else K.BLACK

/-- `gText::SpecialChar(c)`, lines 488-620, with down-scrolling compiled in.
`font` is the table `this->Font` points to; the only caller has checked that the
pointer is not null. -/
def SpecialChar (K : Config) (fuel : Nat) (g : gText) (font : Nat → Nat) (c : Int) :
    Option gText :=
  if c = 10 then
    let height := FontRead font K.FONT_HEIGHT
    let d1 := if g.x < g.tarea.x2
      then SetPixels K g.device g.x g.y g.tarea.x2 ((g.y + height) % 256) (bgColor K g.FontColor)
      else g.device
    match g.tarea.mode with
    | textMode.SCROLL_UP =>
      if g.y + 2 * height ≥ g.tarea.y2 then
        let pixels := (2 * height + g.y - g.tarea.y2 + 1) % 256
        match ScrollUp K fuel d1 g.tarea.x1 g.tarea.y1 g.tarea.x2 g.tarea.y2 pixels
            (bgColor K g.FontColor) with
        | none => none
        | some d2 =>
          some { g with device := d2, x := g.tarea.x1, y := (g.tarea.y2 + 256 - height) % 256 }
      else
        some { g with device := d1, x := g.tarea.x1, y := (g.y + height + 1) % 256 }
    | textMode.SCROLL_DOWN =>
      if g.y > g.tarea.y1 + height then
        some { g with device := d1, x := g.tarea.x1, y := (g.y + 256 - (height + 1)) % 256 }
      else
        let pixels := Int.toNat (((height : Int) + 1 - ((g.tarea.y1 : Int) - (g.y : Int))) % 256)
        match ScrollDown K fuel d1 g.tarea.x1 g.tarea.y1 g.tarea.x2 g.tarea.y2 pixels
            (bgColor K g.FontColor) with
        | none => none
        | some d2 => some { g with device := d2, x := g.tarea.x1, y := g.tarea.y1 }
  else some g

/-- The font byte of the glyph column as fetched at the start of a slice, lines
837-870.  In the branch that reads the font, `p < height`, so the subtraction
`height - (p & ~7)` of the source is not negative. -/
def PutChar.fetch (K : Config) (font : Nat → Nat) (fontColor index page j height p : Nat) : Nat :=
  let fdata :=
    if p ≥ height then 0
    else
      let f := FontRead font (index + page + j)
      if height > 8 ∧ height - (p &&& bnot 7) < 8 then f >>> (8 - (height &&& 7)) else f
  if fontColor = K.WHITE then fdata ^^^ 255 else fdata

/-- The bit painting loop, lines 913-951:
`while((dp <= 7) && (tfp) < pixels)`.  Each pass increments `dp`, so at most
eight passes run; the first argument counts them down.  Inside the loop
`tfp < pixels <= height + 1`, so `height - tfp` of the source is not negative. -/
def PutChar.paint (K : Config) (font : Nat → Nat) (fontColor index page j width height pixels : Nat) :
    Nat → Nat → Nat → Nat → Nat → Nat
  | 0, dbyte, _, _, _ => dbyte
  | n + 1, dbyte, fdata, tfp, dp =>
    if dp ≤ 7 ∧ tfp < pixels then
      let dbyte1 := if fdata &&& BV (tfp &&& 7) ≠ 0 then (dbyte ||| BV dp) % 256
                    else dbyte &&& bnot (BV dp)
      let fdata1 :=
        if tfp &&& 7 = 7 then
          let f := FontRead font (index + page + j + width)
          let f1 := if height > 8 ∧ height - tfp < 8 then f >>> (8 - (height &&& 7)) else f
          if fontColor = K.WHITE then f1 ^^^ 255 else f1
        else fdata
      PutChar.paint K font fontColor index page j width height pixels n dbyte1 fdata1
        ((tfp + 1) % 256) ((dp + 1) % 256)
    else dbyte

/-- The loop over the columns of a glyph slice, lines 818-957:
`for(uint8_t j=0; j<width; j++)`.  The first argument is the number of columns
still to do, `width - j`. -/
def PutChar.cols (K : Config) (font : Nat → Nat) (fontColor index page width height pixels p dy : Nat) :
    Nat → Nat → Device → Device
  | 0, _, d => d
  | n + 1, j, d =>
    let fdata := PutChar.fetch K font fontColor index page j height p
    let d1 :=
      if dy &&& 7 = 0 ∧ p &&& 7 = 0 ∧ pixels - p ≥ 8 then
        WriteData d fdata
      else
        let rd := ReadData d
        WriteData rd.1
          (PutChar.paint K font fontColor index page j width height pixels 8 rd.2 fdata p (dy &&& 7))
    PutChar.cols K font fontColor index page width height pixels p dy n (j + 1) d1

/-- The gap column written after the columns of a slice, lines 980-1007. -/
def PutChar.gap (K : Config) (fontColor pixels p dy : Nat) (d : Device) : Device :=
  if dy &&& 7 ≠ 0 ∨ pixels - p < 8 then
    let rd := ReadData d
    let mask0 := if dy &&& 7 ≠ 0 then BV (dy &&& 7) - 1 else 0
    let mask := if pixels - p < 8 then mask0 ||| bnot (BV (pixels - p) - 1) else mask0
    let dbyte := if fontColor = K.WHITE then rd.2 ||| bnot mask else rd.2 &&& mask
    WriteData rd.1 dbyte
  else
    WriteData d (if fontColor = K.WHITE then 255 else 0)

/-- The slice loop of the new font drawing, lines 806-1015:
`for(p = 0; p < pixels;)`. -/
def PutChar.slices (K : Config) (font : Nat → Nat) (fontColor index width height pixels x y : Nat) :
    Nat → Device → Nat → Option Device
  | 0, _, _ => none
  | fuel + 1, d, p =>
    if p < pixels then
      let dy := (y + p) % 256
      let d1 := GotoXY d x (dy &&& bnot 7)
      let page := (p / 8 * width) % 256
      let d2 := PutChar.cols K font fontColor index page width height pixels p dy width 0 d1
      let d3 := PutChar.gap K fontColor pixels p dy d2
      PutChar.slices K font fontColor index width height pixels x y fuel d3
        ((p + (8 - (dy &&& 7))) % 256)
    else some d

/-- Width of the glyph of the character with index `ci = c - firstChar`, lines
672-706. -/
def PutChar.width (K : Config) (font : Nat → Nat) (ci : Nat) : Nat :=
  if K.isFixedWidtFont font then FontRead font K.FONT_FIXED_WIDTH
  else FontRead font (K.FONT_WIDTH_TABLE + ci)

/-- Offset of the glyph data of the character with index `ci` in the font
table, lines 672-706; `index` is a `uint16_t`. -/
def PutChar.index (K : Config) (font : Nat → Nat) (ci : Nat) : Nat :=
  let height := FontRead font K.FONT_HEIGHT
  let bytes := (height + 7) / 8
  let charCount := FontRead font K.FONT_CHAR_COUNT
  if K.isFixedWidtFont font then
    (ci * bytes * FontRead font K.FONT_FIXED_WIDTH + K.FONT_WIDTH_TABLE) % 65536
  else
    let sum := (List.range ci).foldl
      (fun acc i => (acc + FontRead font (K.FONT_WIDTH_TABLE + i)) % 65536) 0
    (sum * bytes + charCount + K.FONT_WIDTH_TABLE) % 65536

/-- The new font drawing, the cursor advance and the return of `PutChar`, lines
798-1034 (the build without `GLCD_OLD_FONTDRAW`).  It works on the cursor and
device of the state it is given, with the glyph `index`, `width` and font
`height` computed before. -/
def PutChar.draw (K : Config) (fuel : Nat) (g : gText) (font : Nat → Nat)
    (index width height : Nat) : Option (Nat × gText) :=
  let pixels := (height + 1) % 256
  match PutChar.slices K font g.FontColor index width height pixels g.x g.y fuel g.device 0 with
  | none => none
  | some d => some (1, { g with device := d, x := (g.x + width + 1) % 256 })

/-- `gText::PutChar(c)`, lines 643-1035.  `c` is the value of the `char`
argument (between -128 and 127 where `char` is signed, as on the AVR).  The
result is the returned `int` and the new state. -/
def PutChar (K : Config) : Nat → gText → Int → Option (Nat × gText)
  | 0, _, _ => none
  | fuel + 1, g, c =>
    match g.Font with
    | none => some (0, g)
    | some font =>
      if c < 0x20 then
        match SpecialChar K fuel g font c with
        | none => none
        | some g1 => some (1, g1)
      else
        let height := FontRead font K.FONT_HEIGHT
        let firstChar := FontRead font K.FONT_FIRST_CHAR
        let charCount := FontRead font K.FONT_CHAR_COUNT
        if c < (firstChar : Int) ∨ c ≥ (firstChar : Int) + (charCount : Int) then
          some (0, g)
        else
          let ci := Int.toNat (c - (firstChar : Int))
          let width := PutChar.width K font ci
          let index := PutChar.index K font ci
          if g.x + width > g.tarea.x2 then
            match PutChar K fuel g 10 with
            | none => none
            | some r => PutChar.draw K fuel r.2 font index width height
          else PutChar.draw K fuel g font index width height

/-- `gText::CharWidth(c)`, lines 1328-1347; `font` is the table `this->Font`
points to. -/
def CharWidth (K : Config) (font : Nat → Nat) (c : Int) : Nat :=
  if K.isFixedWidtFont font then (FontRead font K.FONT_FIXED_WIDTH + 1) % 256
  else
    let firstChar := FontRead font K.FONT_FIRST_CHAR
    let charCount := FontRead font K.FONT_CHAR_COUNT
    if c ≥ (firstChar : Int) ∧ c < (firstChar : Int) + (charCount : Int) then
      (FontRead font (K.FONT_WIDTH_TABLE + Int.toNat (c - (firstChar : Int))) + 1) % 256
    else 0

/-! ## Specification pictures and loop invariants -/

/-- The picture of column `col` that `ScrollUp` is to produce from the
device `orig`: inside rows `y1..y2` the row `pixels` further down, or the fill
colour once that row is past `y2`; outside those rows the original picture. -/
def upTarget (K : Config) (orig : Device) (col y1 y2 pixels color : Nat) (r : Nat) : Bool :=
  if y1 ≤ r ∧ r ≤ y2 then
    (if r + pixels ≤ y2 then pixel orig col (r + pixels) else decide (color = K.BLACK))
  else pixel orig col r

/-- Invariant of the column pass of `ScrollUp`: rows in pages above the page
of `dy` already show the target picture `T`, the page of `dy` and the pages
below are untouched, and `dbyte` collects the target bits of the current page
above row `dy`. -/
structure UpInv (orig : Device) (col : Nat) (T : Nat → Bool) (d : Device) (dy dbyte : Nat) :
    Prop where
  other : ∀ c r, c ≠ col → pixel d c r = pixel orig c r
  rest : ∀ r, dy / 8 ≤ r / 8 → pixel d col r = pixel orig col r
  done : ∀ r, r / 8 < dy / 8 → pixel d col r = T r
  acc : ∀ i, dbyte.testBit i = (decide (i < dy % 8) && T (8 * (dy / 8) + i))

/-- The picture of column `col` that `ScrollDown` is to produce from the
device `orig`: inside rows `y1..y2` the row `pixels` further up, or the fill
colour once that row is above `y1`; outside those rows the original picture. -/
def downTarget (K : Config) (orig : Device) (col y1 y2 pixels color : Nat) (r : Nat) : Bool :=
  if y1 ≤ r ∧ r ≤ y2 then
    (if y1 + pixels ≤ r then pixel orig col (r - pixels) else decide (color = K.BLACK))
  else pixel orig col r

/-- Invariant of the column pass of `ScrollDown`, in terms of `dn`, one more
than the next row to paint: pages that start at row `dn` or below already show
the target picture `T`, pages that start above row `dn` are untouched, and
`dbyte` collects the target bits of the rows from `dn` on in the page of row
`dn - 1`. -/
structure DownInv (orig : Device) (col : Nat) (T : Nat → Bool) (d : Device) (dn dbyte : Nat) :
    Prop where
  other : ∀ c r, c ≠ col → pixel d c r = pixel orig c r
  rest : ∀ r, 8 * (r / 8) < dn → pixel d col r = pixel orig col r
  done : ∀ r, dn ≤ 8 * (r / 8) → pixel d col r = T r
  acc : ∀ i, dbyte.testBit i = (decide (dn % 8 ≠ 0 ∧ dn % 8 ≤ i ∧ i < 8) && T (8 * (dn / 8) + i))

/-! ## Concrete configuration and states used to evaluate the definitions -/

/-- Example configuration: a 128 by 64 panel with the colour codes and the
font header offsets of the glcd library (`BLACK` is 0xFF, `WHITE` is 0, a font
is fixed-width when its two size bytes are zero). -/
def ks0108 : Config where
  DISPLAY_WIDTH := 128
  DISPLAY_HEIGHT := 64
  BLACK := 255
  WHITE := 0
  DEFAULT_SCROLLDIR := textMode.SCROLL_UP
  FONT_FIXED_WIDTH := 2
  FONT_HEIGHT := 3
  FONT_FIRST_CHAR := 4
  FONT_CHAR_COUNT := 5
  FONT_WIDTH_TABLE := 6
  isFixedWidtFont := fun f => f 0 % 256 == 0 && f 1 % 256 == 0

/-- A display with every pixel clear. -/
def blank : Device := { mem := fun _ _ => 0, col := 0, page := 0, log := [] }

/-- A display with a fixed irregular picture. -/
def speckled : Device :=
  { mem := fun c p => (c * 37 + p * 101 + 5) % 256, col := 0, page := 0, log := [] }

/-- A text area over the whole 128 by 64 display, cursor at `(x, y)`, black
font colour, showing `dev`. -/
def fullArea (font : Option (Nat → Nat)) (x y : Nat) (dev : Device) : gText :=
  { tarea := { x1 := 0, y1 := 0, x2 := 127, y2 := 63, mode := textMode.SCROLL_UP }
    x := x, y := y, Font := font, FontColor := 255, device := dev }

/-- A fixed-width font, one glyph `' '` of width 1 and height 15: two bytes,
the second (rows 8..14, stored shifted up by one bit) with bit 1 set, that is
glyph row 8. -/
def font1x15 : Nat → Nat := fun o => [0, 0, 1, 15, 32, 1, 0x00, 0x02].getD o 0

/-- Header of a fixed-width 5 by 7 font whose 128 characters start at code 0,
so that its range contains the control codes; the glyph data is all zero. -/
def font5x7ctl : Nat → Nat := fun o => [0, 0, 5, 7, 0, 128].getD o 0

/-- Header of a fixed-width font of width 5 and height 250 with the one
character `' '`; the glyph data is all zero. -/
def font5x250 : Nat → Nat := fun o => [0, 0, 5, 250, 32, 1].getD o 0

/-- Header of a fixed-width 5 by 7 font with the 64 characters from `' '` to
`'_'`; the glyph data is all zero. -/
def font5x7 : Nat → Nat := fun o => [0, 0, 5, 7, 32, 64].getD o 0

/-! ## Cursor movement, erasing and strings -/

/-- `gText::CursorToXY(x, y)`, lines 1168-1176: the cursor relative to the
upper left corner of the area. -/
def CursorToXY (g : gText) (x y : Nat) : gText :=
  { g with x := (g.tarea.x1 + x) % 256, y := (g.tarea.y1 + y) % 256 }

/-- `gText::ClearArea()`, lines 70-84. -/
def ClearArea (K : Config) (g : gText) : gText :=
  CursorToXY
    { g with device := SetPixels K g.device g.tarea.x1 g.tarea.y1 g.tarea.x2 g.tarea.y2
                         (bgColor K g.FontColor) }
    0 0

/-- `gText::SelectFont(font, color, callback)`, lines 1270-1275.  The read
callback is the fixed `FontRead` of this development. -/
def SelectFont (g : gText) (font : Nat → Nat) (color : Nat) : gText :=
  { g with Font := some font, FontColor := color }

/-- `gText::DefineArea(x, y, columns, rows, font, mode)`, lines 119-130.  The
call `SelectFont(font)` leaves the colour to its default, which the comment of
`SelectFont` gives as black.  `x2` and `y2` are `uint8_t`: the `- 1` is written
`+ 255` modulo 256. -/
def DefineArea.cells (K : Config) (g : gText) (x y columns rows : Nat) (font : Nat → Nat)
    (mode : textMode) : Nat × gText :=
  let g1 := SelectFont g font K.BLACK
  let x2 := (x + columns * (FontRead font K.FONT_FIXED_WIDTH + 1) + 255) % 256
  let y2 := (y + rows * (FontRead font K.FONT_HEIGHT + 1) + 255) % 256
  DefineArea K g1 x y x2 y2 mode

/-- `gText::CursorTo(column, row)`, lines 1107-1118. -/
def CursorTo (K : Config) (g : gText) (column row : Nat) : gText :=
  match g.Font with
  | none => g
  | some font =>
    { g with
      x := (column * (FontRead font K.FONT_FIXED_WIDTH + 1) + g.tarea.x1) % 256
      y := (row * (FontRead font K.FONT_HEIGHT + 1) + g.tarea.y1) % 256 }

/-- `gText::CursorTo(column)` with a signed `int8_t` column, lines 1141-1153.
The right-hand sides are computed in `int` and stored in the `uint8_t` cursor. -/
def CursorTo.col (K : Config) (g : gText) (column : Int) : gText :=
  match g.Font with
  | none => g
  | some font =>
    if column ≥ 0 then
      { g with x := Int.toNat ((column * ((FontRead font K.FONT_FIXED_WIDTH : Int) + 1)
                                  + (g.tarea.x1 : Int)) % 256) }
    else
      { g with x := Int.toNat (((g.x : Int)
                                  - column * ((FontRead font K.FONT_FIXED_WIDTH : Int) + 1)) % 256) }

/-- The extent of a line erase (`eraseLine_t` of `gText.h`). -/
inductive eraseLine_t where
  | eraseTO_EOL
  | eraseFROM_BOL
  | eraseFULL_LINE
  deriving DecidableEq, Repr

/-- `gText::EraseTextLine(type)`, lines 1197-1222.  `font` is the table
`this->Font` points to. -/
def EraseTextLine (K : Config) (g : gText) (font : Nat → Nat) (type : eraseLine_t) : gText :=
  let x := g.x
  let y := g.y
  let height := FontRead font K.FONT_HEIGHT
  let color := bgColor K g.FontColor
  let d := match type with
    | eraseLine_t.eraseTO_EOL => SetPixels K g.device x y g.tarea.x2 ((y + height) % 256) color
    | eraseLine_t.eraseFROM_BOL => SetPixels K g.device g.tarea.x1 y x ((y + height) % 256) color
    | eraseLine_t.eraseFULL_LINE =>
      SetPixels K g.device g.tarea.x1 y g.tarea.x2 ((y + height) % 256) color
  CursorToXY { g with device := d } x y

/-- `gText::Puts(str)`, lines 1053-1060; the list holds the characters before
the terminating zero. -/
def Puts (K : Config) (fuel : Nat) : gText → List Int → Option gText
  | g, [] => some g
  | g, c :: cs =>
    match PutChar K fuel g c with
    | none => none
    | some r => Puts K fuel r.2 cs

/-! ## Counting device operations in a log -/

/-- Number of `WriteData` operations on the cell `(c, p)` in a log. -/
def writesAt (tr : List DevOp) (c p : Nat) : Nat :=
  tr.countP (fun op => match op with
    | DevOp.write c1 p1 _ => decide (c1 = c ∧ p1 = p)
    | _ => false)

/-- Number of `ReadData` operations on the cell `(c, p)` in a log. -/
def readsAt (tr : List DevOp) (c p : Nat) : Nat :=
  tr.countP (fun op => match op with
    | DevOp.read c1 p1 => decide (c1 = c ∧ p1 = p)
    | _ => false)

/-- Number of `SetPixels` operations in a log. -/
def fillsIn (tr : List DevOp) : Nat :=
  tr.countP (fun op => match op with
    | DevOp.fill _ _ _ _ _ => true
    | _ => false)

/-- The log `tr` writes every cell `(column, page)` of the region `R` exactly
once and reads it at most once, reads and writes no other cell, and holds no
`SetPixels`. -/
structure CellsOnce (tr : List DevOp) (R : Nat → Nat → Prop) : Prop where
  inside : ∀ c p, R c p → writesAt tr c p = 1
  outside : ∀ c p, ¬ R c p → writesAt tr c p = 0
  reads : ∀ c p, readsAt tr c p ≤ writesAt tr c p
  fills : fillsIn tr = 0

/-- No cell is read after it has been written: behind every `WriteData` in the
log there is no `ReadData` of the same cell. -/
def noReadAfterWrite : List DevOp → Bool
  | [] => true
  | DevOp.write c p _ :: rest => decide (readsAt rest c p = 0) && noReadAfterWrite rest
  | DevOp.read _ _ :: rest => noReadAfterWrite rest
  | DevOp.fill _ _ _ _ _ :: rest => noReadAfterWrite rest

/-- The log `tr` writes every cell of the region `Wr` exactly once and no other
cell, reads only cells of the region `Rd`, never reads a cell it has written
before, and holds no `SetPixels`. -/
structure WriteOnce (tr : List DevOp) (Wr Rd : Nat → Nat → Prop) : Prop where
  inside : ∀ c p, Wr c p → writesAt tr c p = 1
  outside : ∀ c p, ¬ Wr c p → writesAt tr c p = 0
  reads : ∀ c p, readsAt tr c p ≠ 0 → Rd c p
  ordered : noReadAfterWrite tr = true
  fills : fillsIn tr = 0

/-! ## More concrete fonts and states -/

/-- A fixed-width 5 by 7 font with the 64 characters from `' '` to `'_'`, every
glyph a solid block: each of the five column bytes has the seven glyph rows set
and the pad bit clear. -/
def font5x7solid : Nat → Nat := fun o => if o < 6 then [0, 0, 5, 7, 32, 64].getD o 0 else 0x7F

/-- Header of a fixed-width font of width 5 and height 128 with the 64
characters from `' '`; the glyph data is all zero. -/
def font5x128 : Nat → Nat := fun o => [0, 0, 5, 128, 32, 64].getD o 0

/-- The configuration `ks0108` with the display enlarged to 255 by 255. -/
def panel255 : Config := { ks0108 with DISPLAY_WIDTH := 255, DISPLAY_HEIGHT := 255 }

/-- The configuration `ks0108` with the display turned upright: 64 columns and
128 rows. -/
def upright : Config := { ks0108 with DISPLAY_WIDTH := 64, DISPLAY_HEIGHT := 128 }

/-- A text area `(x1, y1, x2, y2)` in scroll-up mode with the cursor at
`(x, y)`, black font colour, showing `dev`. -/
def areaAt (x1 y1 x2 y2 : Nat) (font : Option (Nat → Nat)) (x y : Nat) (dev : Device) : gText :=
  { tarea := { x1 := x1, y1 := y1, x2 := x2, y2 := y2, mode := textMode.SCROLL_UP }
    x := x, y := y, Font := font, FontColor := 255, device := dev }

/-- A state in scroll-up mode with the area `(x1, y1, x2, y2)`, the font `f`
selected with colour `fc`, the cursor at `(x, y)` and the device `dev`. -/
def areaState (x1 y1 x2 y2 : Nat) (f : Nat → Nat) (fc x y : Nat) (dev : Device) : gText :=
  { tarea := { x1 := x1, y1 := y1, x2 := x2, y2 := y2, mode := textMode.SCROLL_UP }
    x := x, y := y, Font := some f, FontColor := fc, device := dev }

/-- The device after the erase to the end of the line that opens a newline,
line 503: columns `x..x2`, rows `y..y+height` in the background colour when
`x < x2`. -/
def eolErased (K : Config) (f : Nat → Nat) (fc x y x2 : Nat) (d : Device) : Device :=
  if x < x2 then SetPixels K d x y x2 ((y + FontRead f K.FONT_HEIGHT) % 256) (bgColor K fc) else d

/-- A state in scroll-down mode with the area `(x1, y1, x2, y2)`, the font `f`
selected with colour `fc`, the cursor at `(x, y)` and the device `dev`. -/
def areaDown (x1 y1 x2 y2 : Nat) (f : Nat → Nat) (fc x y : Nat) (dev : Device) : gText :=
  { tarea := { x1 := x1, y1 := y1, x2 := x2, y2 := y2, mode := textMode.SCROLL_DOWN }
    x := x, y := y, Font := some f, FontColor := fc, device := dev }

/-- A display with the single pixel `(c, r)` set. -/
def dotAt (c r : Nat) : Device :=
  { mem := fun c1 p => if c1 = c ∧ p = r / 8 then 2 ^ (r % 8) else 0, col := 0, page := 0, log := [] }

/-- A display with every pixel set. -/
def lit : Device := { mem := fun _ _ => 255, col := 0, page := 0, log := [] }

/-- Header of a fixed-width font of width 3 and height 5 with the one
character `' '`; the glyph data is all zero. -/
def font3x5 : Nat → Nat := fun o => [0, 0, 3, 5, 32, 1].getD o 0

/-- A fixed-width font of width 1 and height 8 with the two characters `' '`
and `'!'`: the one byte of `' '` is zero, the one byte of `'!'` is `b`. -/
def font1x8 (b : Nat) : Nat → Nat := fun o => [0, 0, 1, 8, 32, 2, 0, b].getD o 0

/-! ## Bit and device lemmas -/

theorem BV_eq (n : Nat) : BV n = 2 ^ n := by
  simp [BV, Nat.shiftLeft_eq]

theorem and_seven (x : Nat) : x &&& 7 = x % 8 :=
  Nat.and_pow_two_sub_one_eq_mod x 3

theorem testBit_bnot (v i : Nat) : (bnot v).testBit i = (decide (i < 8) && !v.testBit i) := by
  unfold bnot
  rw [Nat.testBit_xor, show (255 : Nat) = 2 ^ 8 - 1 by norm_num, Nat.testBit_two_pow_sub_one,
    show (256 : Nat) = 2 ^ 8 by norm_num, Nat.testBit_mod_two_pow]
  by_cases h : i < 8 <;> simp [h]

theorem and_bnot_seven (x : Nat) (h : x < 256) : x &&& bnot 7 = 8 * (x / 8) := by
  apply Nat.eq_of_testBit_eq
  intro i
  rw [Nat.testBit_and, testBit_bnot, show (7 : Nat) = 2 ^ 3 - 1 by norm_num,
    Nat.testBit_two_pow_sub_one, show (8 : Nat) = 2 ^ 3 by norm_num,
    Nat.testBit_mul_pow_two]
  rw [← Nat.shiftRight_eq_div_pow, Nat.testBit_shiftRight]
  by_cases h3 : 3 ≤ i
  · have : 3 + (i - 3) = i := by omega
    by_cases h8 : i < 2 ^ 3
    · simp [h3, h8, this]; omega
    · have hx : x.testBit i = false := by
        apply Nat.testBit_lt_two_pow
        calc x < 256 := h
          _ = 2 ^ 8 := by norm_num
          _ ≤ 2 ^ i := Nat.pow_le_pow_right (by norm_num) (by norm_num at h8; omega)
      simp [h3, this, hx]
  · have : i < 3 := by omega
    simp [h3, this]

theorem and_bnot_seven_div (x : Nat) (h : x < 256) : (x &&& bnot 7) / 8 = x / 8 := by
  rw [and_bnot_seven x h]; omega

theorem testBit_mkByte (f : Nat → Bool) (n i : Nat) :
    (mkByte f n).testBit i = (decide (i < n) && f i) := by
  have key : ∀ n, mkByte f n < 2 ^ n ∧ ∀ i, (mkByte f n).testBit i = (decide (i < n) && f i) := by
    intro n
    induction n with
    | zero => simp [mkByte]
    | succ n ih =>
      obtain ⟨hlt, hbit⟩ := ih
      have hp : 2 ^ (n + 1) = 2 ^ n + 2 ^ n := by rw [Nat.pow_succ]; omega
      constructor
      · simp only [mkByte]; split <;> omega
      · intro i
        simp only [mkByte]
        by_cases hf : f n
        · simp only [hf, if_true]
          rw [Nat.add_comm]
          rcases Nat.lt_trichotomy i n with h | h | h
          · rw [Nat.testBit_two_pow_add_gt h, hbit]
            simp [h, Nat.lt_succ_of_lt h]
          · subst h
            rw [Nat.testBit_two_pow_add_eq, Nat.testBit_lt_two_pow hlt]
            simp [hf]
          · have h1 : 2 ^ n + mkByte f n < 2 ^ i := by
              calc 2 ^ n + mkByte f n < 2 ^ (n + 1) := by omega
                _ ≤ 2 ^ i := Nat.pow_le_pow_right (by norm_num) h
            rw [Nat.testBit_lt_two_pow h1]
            have : ¬ i < n + 1 := by omega
            simp [this]
        · simp only [hf, Bool.false_eq_true, if_false, Nat.add_zero, hbit]
          by_cases h : i < n
          · simp [h, Nat.lt_succ_of_lt h]
          · by_cases h2 : i = n
            · subst h2; simp [hf]
            · have : ¬ i < n + 1 := by omega
              simp [h, this]
  exact (key n).2 i

theorem pixel_GotoXY (d : Device) (x y c r : Nat) : pixel (GotoXY d x y) c r = pixel d c r := rfl

theorem pixel_ReadData (d : Device) (c r : Nat) : pixel (ReadData d).1 c r = pixel d c r := rfl

theorem testBit_ReadData (d : Device) (i : Nat) :
    (ReadData d).2.testBit i = (decide (i < 8) && (d.mem d.col d.page).testBit i) := by
  simp only [ReadData]
  rw [show (256 : Nat) = 2 ^ 8 by norm_num, Nat.testBit_mod_two_pow]

theorem pixel_WriteData (d : Device) (b c r : Nat) :
    pixel (WriteData d b) c r
      = if c = d.col ∧ r / 8 = d.page then b.testBit (r % 8) else pixel d c r := by
  simp only [pixel, WriteData]
  split
  · rw [show (256 : Nat) = 2 ^ 8 by norm_num, Nat.testBit_mod_two_pow]
    have : r % 8 < 8 := Nat.mod_lt _ (by norm_num)
    simp [this]
  · rfl

theorem pixel_SetPixels (K : Config) (d : Device) (x1 y1 x2 y2 color c r : Nat) :
    pixel (SetPixels K d x1 y1 x2 y2 color) c r
      = if x1 ≤ c ∧ c ≤ x2 ∧ y1 ≤ r ∧ r ≤ y2 then decide (color = K.BLACK) else pixel d c r := by
  simp only [pixel, SetPixels, testBit_mkByte]
  have h8 : r % 8 < 8 := Nat.mod_lt _ (by norm_num)
  have hr : 8 * (r / 8) + r % 8 = r := Nat.div_add_mod r 8
  simp [h8, hr]


theorem and_BV_ne_zero (b k : Nat) : b &&& BV k ≠ 0 ↔ b.testBit k = true := by
  rw [BV_eq]
  have h : b &&& 2 ^ k = if b.testBit k then 2 ^ k else 0 := by
    apply Nat.eq_of_testBit_eq
    intro i
    rw [Nat.testBit_and, Nat.testBit_two_pow]
    by_cases hb : b.testBit k
    · simp only [hb, if_true, Nat.testBit_two_pow]
      by_cases hk : k = i
      · subst hk; simp [hb]
      · simp [hk]
    · by_cases hk : k = i
      · subst hk; simp [hb]
      · simp [hb, hk]
  rw [h]
  have : (2 : Nat) ^ k ≠ 0 := by positivity
  by_cases hb : b.testBit k <;> simp [hb, this]

theorem testBit_or_BV_mod (b k i : Nat) :
    ((b ||| BV k) % 256).testBit i = (decide (i < 8) && (b.testBit i || decide (i = k))) := by
  rw [show (256 : Nat) = 2 ^ 8 by norm_num, Nat.testBit_mod_two_pow, Nat.testBit_or, BV_eq,
    Nat.testBit_two_pow]
  by_cases h : k = i
  · subst h; simp
  · have : ¬ i = k := fun e => h e.symm
    simp [h, this]

theorem testBit_and_bnot_BV (b k i : Nat) :
    (b &&& bnot (BV k)).testBit i = (b.testBit i && (decide (i < 8) && !decide (i = k))) := by
  rw [Nat.testBit_and, testBit_bnot, BV_eq, Nat.testBit_two_pow]
  by_cases h : k = i
  · subst h; simp
  · have : ¬ i = k := fun e => h e.symm
    simp [h, this]

theorem testBit_BV_sub_one (k i : Nat) : (BV k - 1).testBit i = decide (i < k) := by
  rw [BV_eq, Nat.testBit_two_pow_sub_one]

theorem UpInv.step_up {orig : Device} {col : Nat} {T : Nat → Bool} {d : Device} {dy dbyte : Nat}
    (h : UpInv orig col T d dy dbyte) (hdy : dy < 255)
    (dR : Device) (hR : ∀ c r, pixel dR c r = pixel d c r)
    (dbyte1 : Nat) (hb : ∀ i, dbyte1.testBit i = if i = dy % 8 then T dy else dbyte.testBit i) :
    UpInv orig col T
      (if dy &&& 7 = 7 then (WriteData (GotoXY dR col (dy &&& bnot 7)) dbyte1, 0)
        else (dR, dbyte1)).1
      ((dy + 1) % 256)
      (if dy &&& 7 = 7 then (WriteData (GotoXY dR col (dy &&& bnot 7)) dbyte1, 0)
        else (dR, dbyte1)).2 := by
  have hmod : (dy + 1) % 256 = dy + 1 := Nat.mod_eq_of_lt (by omega)
  rw [hmod, and_seven]
  by_cases h7 : dy % 8 = 7
  · simp only [h7, if_true]
    have hdiv : (dy + 1) / 8 = dy / 8 + 1 := by omega
    have hm : (dy + 1) % 8 = 0 := by omega
    have hpage : (GotoXY dR col (dy &&& bnot 7)).page = dy / 8 := by
      simp only [GotoXY]; exact and_bnot_seven_div dy (by omega)
    have hcol : (GotoXY dR col (dy &&& bnot 7)).col = col := rfl
    constructor
    · intro c r hc
      rw [pixel_WriteData, hcol, if_neg (fun hh => hc hh.1), pixel_GotoXY, hR]
      exact h.other c r hc
    · intro r hr
      rw [pixel_WriteData, hcol, hpage, if_neg (fun hh => by omega), pixel_GotoXY, hR]
      exact h.rest r (by omega)
    · intro r hr
      rw [pixel_WriteData, hcol, hpage]
      by_cases hp : r / 8 = dy / 8
      · rw [if_pos ⟨rfl, hp⟩, hb]
        by_cases h8 : r % 8 = dy % 8
        · rw [if_pos h8]
          have : r = dy := by omega
          rw [this]
        · rw [if_neg h8, h.acc]
          have h1 : r % 8 < dy % 8 := by omega
          have h2 : 8 * (dy / 8) + r % 8 = r := by omega
          simp [h1, h2]
      · rw [if_neg (fun hh => hp hh.2), pixel_GotoXY, hR]
        exact h.done r (by omega)
    · intro i
      simp [hm]
  · simp only [h7, if_false]
    have hdiv : (dy + 1) / 8 = dy / 8 := by omega
    have hm : (dy + 1) % 8 = dy % 8 + 1 := by omega
    constructor
    · intro c r hc
      rw [hR]; exact h.other c r hc
    · intro r hr
      rw [hR]; exact h.rest r (by omega)
    · intro r hr
      rw [hR]; exact h.done r (by omega)
    · intro i
      rw [hb, hdiv, hm]
      by_cases hi : i = dy % 8
      · rw [if_pos hi]
        have h2 : 8 * (dy / 8) + i = dy := by omega
        have h3 : i < dy % 8 + 1 := by omega
        simp [h2, h3]
      · rw [if_neg hi, h.acc]
        by_cases h1 : i < dy % 8
        · have h3 : i < dy % 8 + 1 := by omega
          simp [h1, h3]
        · have h3 : ¬ i < dy % 8 + 1 := by omega
          simp [h1, h3]


theorem UpInv.acc_lt_up {orig : Device} {col : Nat} {T : Nat → Bool} {d : Device} {dy dbyte : Nat}
    (h : UpInv orig col T d dy dbyte) (i : Nat) (hi : dbyte.testBit i = true) : i < dy % 8 := by
  rw [h.acc] at hi
  simp at hi
  exact hi.1

theorem row_split (r : Nat) : 8 * (r / 8) + r % 8 = r := Nat.div_add_mod r 8

theorem ScrollUp_copy_spec (K : Config) (orig : Device) (col y1 y2 N : Nat) (T : Nat → Bool)
    (hT : ∀ r, y1 ≤ r → r + N ≤ y2 → T r = pixel orig col (r + N))
    (hy2 : y2 < 255) (hH : y2 < K.DISPLAY_HEIGHT) :
    ∀ (fuel : Nat) (d : Device) (dy dbyte sy sbyte : Nat),
      UpInv orig col T d dy dbyte → sy = dy + N → y1 ≤ dy → sy ≤ y2 + 1 →
      (sy ≤ y2 → ∀ i, i < 8 → sbyte.testBit i = pixel orig col (8 * (sy / 8) + i)) →
      y2 + 1 - sy < fuel →
      ∃ d1 dbyte1, ScrollUp.copy K col y2 fuel d dy dbyte sy sbyte = some (d1, y2 + 1 - N, dbyte1)
        ∧ UpInv orig col T d1 (y2 + 1 - N) dbyte1 := by
  intro fuel
  induction fuel with
  | zero => intro d dy dbyte sy sbyte _ _ _ _ _ hf; omega
  | succ fuel ih =>
    intro d dy dbyte sy sbyte hinv hsy hdy hle hs hf
    rw [ScrollUp.copy]
    by_cases hc : sy ≤ y2
    · rw [if_pos hc]
      have hsy1 : (sy + 1) % 256 = sy + 1 := Nat.mod_eq_of_lt (by omega)
      simp only [hsy1]
      -- the bit painted at row dy
      have hTdy : T dy = sbyte.testBit (sy % 8) := by
        rw [hT dy hdy (by omega), hs hc (sy % 8) (Nat.mod_lt _ (by norm_num)), row_split, hsy]
      have hb : ∀ i, (if sbyte &&& BV (sy &&& 7) ≠ 0 then (dbyte ||| BV (dy &&& 7)) % 256
          else dbyte).testBit i = if i = dy % 8 then T dy else dbyte.testBit i := by
        intro i
        rw [and_seven, and_seven]
        by_cases hbit : sbyte.testBit (sy % 8) = true
        · rw [if_pos ((and_BV_ne_zero _ _).2 hbit), testBit_or_BV_mod, hTdy, hbit]
          by_cases hi : i = dy % 8
          · have h8 : dy % 8 < 8 := by omega
            simp [hi, h8]
          · rw [if_neg hi]
            by_cases hd : dbyte.testBit i = true
            · have := hinv.acc_lt_up i hd
              have : i < 8 := by omega
              simp [hd, this]
            · simp [hd, hi]
        · rw [if_neg (fun hh => hbit ((and_BV_ne_zero _ _).1 hh)), hTdy]
          by_cases hi : i = dy % 8
          · rw [if_pos hi, hi, hinv.acc]
            simp [hbit]
          · rw [if_neg hi]
      -- the source byte after the optional page read
      have hR : ∀ c r, pixel (if (sy + 1) &&& 7 = 0 ∧ sy + 1 < K.DISPLAY_HEIGHT
          then ReadData (GotoXY d col ((sy + 1) &&& bnot 7)) else (d, sbyte)).1 c r = pixel d c r := by
        intro c r; split <;> rfl
      have hS : sy + 1 ≤ y2 → ∀ i, i < 8 →
          (if (sy + 1) &&& 7 = 0 ∧ sy + 1 < K.DISPLAY_HEIGHT
            then ReadData (GotoXY d col ((sy + 1) &&& bnot 7)) else (d, sbyte)).2.testBit i
          = pixel orig col (8 * ((sy + 1) / 8) + i) := by
        intro hle1 i hi
        rw [and_seven]
        by_cases h0 : (sy + 1) % 8 = 0
        · rw [if_pos ⟨h0, by omega⟩, testBit_ReadData]
          have hpage : (GotoXY d col ((sy + 1) &&& bnot 7)).page = (sy + 1) / 8 := by
            simp only [GotoXY]; exact and_bnot_seven_div _ (by omega)
          have hcol : (GotoXY d col ((sy + 1) &&& bnot 7)).col = col := rfl
          rw [hcol, hpage]
          have hrest := hinv.rest (8 * ((sy + 1) / 8) + i) (by omega)
          rw [← hrest]
          simp only [pixel, GotoXY]
          have e1 : (8 * ((sy + 1) / 8) + i) / 8 = (sy + 1) / 8 := by omega
          have e2 : (8 * ((sy + 1) / 8) + i) % 8 = i := by omega
          rw [e1, e2]
          simp [hi]
        · rw [if_neg (fun hh => h0 hh.1)]
          have e1 : (sy + 1) / 8 = sy / 8 := by omega
          rw [e1]
          exact hs hc i hi
      have hstep := hinv.step_up (by omega)
        (if (sy + 1) &&& 7 = 0 ∧ sy + 1 < K.DISPLAY_HEIGHT
          then ReadData (GotoXY d col ((sy + 1) &&& bnot 7)) else (d, sbyte)).1 hR _ hb
      have hdy1 : (dy + 1) % 256 = dy + 1 := Nat.mod_eq_of_lt (by omega)
      rw [hdy1] at hstep
      rw [hdy1]
      exact ih _ _ _ _ _ hstep (by omega) (by omega) (by omega) hS (by omega)
    · rw [if_neg hc]
      have : dy = y2 + 1 - N := by omega
      subst this
      exact ⟨d, dbyte, rfl, hinv⟩


theorem ScrollUp_fill_spec (K : Config) (orig : Device) (col lo y2 color : Nat) (T : Nat → Bool)
    (hT : ∀ r, lo ≤ r → r ≤ y2 → T r = decide (color = K.BLACK)) (hy2 : y2 < 255) :
    ∀ (p : Nat) (d : Device) (dy dbyte : Nat),
      UpInv orig col T d dy dbyte → lo ≤ dy → dy + p = y2 + 1 →
      (ScrollUp.fill K col color p d dy dbyte).2.1 = y2 + 1
        ∧ UpInv orig col T (ScrollUp.fill K col color p d dy dbyte).1 (y2 + 1)
            (ScrollUp.fill K col color p d dy dbyte).2.2 := by
  intro p
  induction p with
  | zero =>
    intro d dy dbyte hinv _ hp
    have : dy = y2 + 1 := by omega
    subst this
    exact ⟨rfl, hinv⟩
  | succ p ih =>
    intro d dy dbyte hinv hlo hp
    rw [ScrollUp.fill]
    have hb : ∀ i, (if color = K.BLACK then (dbyte ||| BV (dy &&& 7)) % 256
        else dbyte &&& bnot (BV (dy &&& 7))).testBit i
        = if i = dy % 8 then T dy else dbyte.testBit i := by
      intro i
      rw [and_seven, hT dy hlo (by omega)]
      by_cases hcol : color = K.BLACK
      · rw [if_pos hcol, testBit_or_BV_mod]
        by_cases hi : i = dy % 8
        · have h8 : dy % 8 < 8 := by omega
          simp [hi, h8, hcol]
        · rw [if_neg hi]
          by_cases hd : dbyte.testBit i = true
          · have := hinv.acc_lt_up i hd
            have : i < 8 := by omega
            simp [hd, this]
          · simp [hd, hi]
      · rw [if_neg hcol, testBit_and_bnot_BV]
        by_cases hi : i = dy % 8
        · simp [hi, hcol]
        · rw [if_neg hi]
          by_cases hd : dbyte.testBit i = true
          · have := hinv.acc_lt_up i hd
            have : i < 8 := by omega
            simp [hd, this, hi]
          · simp [hd]
    have hstep := hinv.step_up (by omega) d (fun _ _ => rfl) _ hb
    have hdy1 : (dy + 1) % 256 = dy + 1 := Nat.mod_eq_of_lt (by omega)
    rw [hdy1] at hstep
    simp only [hdy1]
    exact ih _ _ _ hstep (by omega) (by omega)

theorem ScrollUp_flush_spec (orig : Device) (col : Nat) (T : Nat → Bool) (d : Device)
    (dy dbyte : Nat) (hinv : UpInv orig col T d dy dbyte)
    (hT : ∀ r, dy ≤ r → T r = pixel orig col r) (hdy : dy < 256) :
    (∀ r, pixel (ScrollUp.flush d col dy dbyte) col r = T r)
      ∧ ∀ c r, c ≠ col → pixel (ScrollUp.flush d col dy dbyte) c r = pixel orig c r := by
  unfold ScrollUp.flush
  rw [and_seven]
  by_cases h0 : dy % 8 = 0
  · simp only [h0, ne_eq, not_true_eq_false, if_false]
    refine ⟨fun r => ?_, hinv.other⟩
    by_cases hr : r / 8 < dy / 8
    · exact hinv.done r hr
    · rw [hinv.rest r (by omega), hT r (by omega)]
  · simp only [ne_eq, h0, not_false_eq_true, if_true]
    have hm1 : (dy + 255) % 256 = dy - 1 := by omega
    have hm2 : (dy - 1 + 1) % 256 = dy := by omega
    simp only [hm1, hm2, and_seven]
    have hpage : (ReadData (GotoXY d col ((dy - 1) &&& bnot 7))).1.page = dy / 8 := by
      simp only [ReadData, GotoXY]
      rw [and_bnot_seven_div _ (by omega)]; omega
    have hcol : (ReadData (GotoXY d col ((dy - 1) &&& bnot 7))).1.col = col := rfl
    have hpage2 : (GotoXY d col ((dy - 1) &&& bnot 7)).page = dy / 8 := hpage
    have hcol2 : (GotoXY d col ((dy - 1) &&& bnot 7)).col = col := rfl
    constructor
    · intro r
      rw [pixel_WriteData, hcol, hpage]
      by_cases hp : r / 8 = dy / 8
      · rw [if_pos ⟨rfl, hp⟩, Nat.testBit_or, Nat.testBit_and, testBit_bnot, testBit_BV_sub_one,
          testBit_ReadData, hcol2, hpage2, hinv.acc]
        have h8 : r % 8 < 8 := Nat.mod_lt _ (by norm_num)
        have hsplit : 8 * (dy / 8) + r % 8 = r := by omega
        by_cases hlt : r % 8 < dy % 8
        · simp [hlt, hsplit]
        · have hge : dy ≤ r := by omega
          rw [hT r hge, ← hinv.rest r (by omega)]
          simp only [pixel, GotoXY, hp]
          simp [hlt, h8]
      · rw [if_neg (fun hh => hp hh.2), pixel_ReadData, pixel_GotoXY]
        by_cases hr : r / 8 < dy / 8
        · exact hinv.done r hr
        · rw [hinv.rest r (by omega), hT r (by omega)]
    · intro c r hc
      rw [pixel_WriteData, hcol, if_neg (fun hh => hc hh.1), pixel_ReadData, pixel_GotoXY]
      exact hinv.other c r hc


theorem ScrollUp_column_spec (K : Config) (d : Device) (col y1 y2 N color fuel : Nat)
    (h1 : y1 + N ≤ y2) (hy2 : y2 < 255) (hH : y2 < K.DISPLAY_HEIGHT) (hf : y2 + 1 < fuel) :
    ∃ d1, ScrollUp.column K fuel d col y1 y2 N color = some d1
      ∧ (∀ r, pixel d1 col r = upTarget K d col y1 y2 N color r)
      ∧ ∀ c r, c ≠ col → pixel d1 c r = pixel d c r := by
  unfold ScrollUp.column
  simp only []
  have hm : (y1 + N) % 256 = y1 + N := Nat.mod_eq_of_lt (by omega)
  rw [hm]
  have hpage1 : (GotoXY d col (y1 &&& bnot 7)).page = y1 / 8 := by
    simp only [GotoXY]; exact and_bnot_seven_div _ (by omega)
  have hinv0 : UpInv d col (upTarget K d col y1 y2 N color)
      (ReadData (GotoXY (ReadData (GotoXY d col (y1 &&& bnot 7))).1 col ((y1 + N) &&& bnot 7))).1
      y1 ((ReadData (GotoXY d col (y1 &&& bnot 7))).2 &&& (BV (y1 &&& 7) - 1)) := by
    constructor
    · intro c r _; rfl
    · intro r _; rfl
    · intro r hr
      have : ¬ (y1 ≤ r ∧ r ≤ y2) := by omega
      simp only [upTarget, if_neg this]; rfl
    · intro i
      rw [Nat.testBit_and, testBit_BV_sub_one, testBit_ReadData, hpage1, and_seven]
      by_cases hi : i < y1 % 8
      · have hn : ¬ (y1 ≤ 8 * (y1 / 8) + i ∧ 8 * (y1 / 8) + i ≤ y2) := by omega
        have h8 : i < 8 := by omega
        have e1 : (8 * (y1 / 8) + i) / 8 = y1 / 8 := by omega
        have e2 : (8 * (y1 / 8) + i) % 8 = i := by omega
        simp only [upTarget, if_neg hn, pixel, e1, e2]
        simp [hi, h8, GotoXY]
      · simp [hi]
  have hsrc : y1 + N ≤ y2 → ∀ i, i < 8 →
      (ReadData (GotoXY (ReadData (GotoXY d col (y1 &&& bnot 7))).1 col
        ((y1 + N) &&& bnot 7))).2.testBit i = pixel d col (8 * ((y1 + N) / 8) + i) := by
    intro _ i hi
    rw [testBit_ReadData]
    have hpage : (GotoXY (ReadData (GotoXY d col (y1 &&& bnot 7))).1 col
        ((y1 + N) &&& bnot 7)).page = (y1 + N) / 8 := by
      simp only [GotoXY]; exact and_bnot_seven_div _ (by omega)
    rw [hpage]
    have e1 : (8 * ((y1 + N) / 8) + i) / 8 = (y1 + N) / 8 := by omega
    have e2 : (8 * ((y1 + N) / 8) + i) % 8 = i := by omega
    simp only [pixel, e1, e2]
    simp [hi, GotoXY, ReadData]
  have hTcopy : ∀ r, y1 ≤ r → r + N ≤ y2 → upTarget K d col y1 y2 N color r = pixel d col (r + N) := by
    intro r hr hr2
    simp only [upTarget, if_pos (show y1 ≤ r ∧ r ≤ y2 by omega), if_pos hr2]
  obtain ⟨d1, dbyte1, hcopy, hinv1⟩ := ScrollUp_copy_spec K d col y1 y2 N _ hTcopy hy2 hH fuel _ _ _ _ _
    hinv0 rfl (Nat.le_refl _) (by omega) hsrc (by omega)
  rw [hcopy]
  simp only []
  have hTfill : ∀ r, y2 + 1 - N ≤ r → r ≤ y2 →
      upTarget K d col y1 y2 N color r = decide (color = K.BLACK) := by
    intro r hr hr2
    simp only [upTarget, if_pos (show y1 ≤ r ∧ r ≤ y2 by omega),
      if_neg (show ¬ r + N ≤ y2 by omega)]
  obtain ⟨hdy, hinv2⟩ := ScrollUp_fill_spec K d col (y2 + 1 - N) y2 color _ hTfill hy2 N d1
    (y2 + 1 - N) dbyte1 hinv1 (Nat.le_refl _) (by omega)
  rw [hdy] at *
  have hTrest : ∀ r, y2 + 1 ≤ r → upTarget K d col y1 y2 N color r = pixel d col r := by
    intro r hr
    simp only [upTarget, if_neg (show ¬ (y1 ≤ r ∧ r ≤ y2) by omega)]
  obtain ⟨ha, hb⟩ := ScrollUp_flush_spec d col _ _ (y2 + 1) _ hinv2 hTrest (by omega)
  exact ⟨_, rfl, ha, hb⟩

theorem ScrollUp_columns_spec (K : Config) (y1 x2 y2 N color inner : Nat)
    (h1 : y1 + N ≤ y2) (hy2 : y2 < 255) (hH : y2 < K.DISPLAY_HEIGHT) (hf : y2 + 1 < inner)
    (hx2 : x2 < 255) :
    ∀ (fuel : Nat) (d : Device) (col : Nat), col ≤ x2 + 1 → x2 + 1 - col < fuel →
      ∃ d1, ScrollUp.columns K y1 x2 y2 N color inner fuel d col = some d1
        ∧ ∀ c r, pixel d1 c r
            = if col ≤ c ∧ c ≤ x2 then upTarget K d c y1 y2 N color r else pixel d c r := by
  intro fuel
  induction fuel with
  | zero => intro d col _ hf; omega
  | succ fuel ih =>
    intro d col hcol hfuel
    rw [ScrollUp.columns]
    by_cases hc : col ≤ x2
    · rw [if_pos hc]
      obtain ⟨d1, hd1, hin, hout⟩ := ScrollUp_column_spec K d col y1 y2 N color inner h1 hy2 hH hf
      rw [hd1]
      simp only []
      have hm : (col + 1) % 256 = col + 1 := Nat.mod_eq_of_lt (by omega)
      rw [hm]
      obtain ⟨d2, hd2, hpix⟩ := ih d1 (col + 1) (by omega) (by omega)
      refine ⟨d2, hd2, fun c r => ?_⟩
      rw [hpix]
      by_cases hc1 : col + 1 ≤ c ∧ c ≤ x2
      · have hne : c ≠ col := by omega
        rw [if_pos hc1, if_pos (show col ≤ c ∧ c ≤ x2 by omega)]
        simp only [upTarget, hout c _ hne]
      · rw [if_neg hc1]
        by_cases hcc : c = col
        · subst hcc
          rw [if_pos (show c ≤ c ∧ c ≤ x2 by omega), hin]
        · rw [if_neg (show ¬ (col ≤ c ∧ c ≤ x2) by omega), hout c r hcc]
    · rw [if_neg hc]
      refine ⟨d, rfl, fun c r => ?_⟩
      rw [if_neg (show ¬ (col ≤ c ∧ c ≤ x2) by omega)]

theorem ScrollUp_spec (K : Config) (d : Device) (x1 y1 x2 y2 N color fuel : Nat)
    (hx : x1 ≤ x2) (hy2 : y2 < 255) (hH : y2 < K.DISPLAY_HEIGHT) (hx2 : x2 < 255)
    (hf : 256 < fuel) :
    ∃ d1, ScrollUp K fuel d x1 y1 x2 y2 N color = some d1
      ∧ ∀ c r, pixel d1 c r
          = if x1 ≤ c ∧ c ≤ x2 then upTarget K d c y1 y2 N color r else pixel d c r := by
  unfold ScrollUp
  by_cases hN : y1 + N > y2
  · rw [if_pos hN]
    refine ⟨_, rfl, fun c r => ?_⟩
    rw [pixel_SetPixels]
    by_cases hc : x1 ≤ c ∧ c ≤ x2
    · rw [if_pos hc]
      by_cases hr : y1 ≤ r ∧ r ≤ y2
      · rw [if_pos ⟨hc.1, hc.2, hr.1, hr.2⟩]
        simp only [upTarget, if_pos hr, if_neg (show ¬ r + N ≤ y2 by omega)]
      · rw [if_neg (fun hh => hr ⟨hh.2.2.1, hh.2.2.2⟩)]
        simp only [upTarget, if_neg hr]
    · rw [if_neg hc, if_neg (fun hh => hc ⟨hh.1, hh.2.1⟩)]
  · rw [if_neg hN]
    exact ScrollUp_columns_spec K y1 x2 y2 N color fuel (by omega) hy2 hH (by omega) hx2 fuel d x1
      (by omega) (by omega)

theorem DownInv.congr {orig : Device} {col : Nat} {T : Nat → Bool} {d d1 : Device} {dn dbyte : Nat}
    (h : DownInv orig col T d dn dbyte) (hd : ∀ c r, pixel d1 c r = pixel d c r) :
    DownInv orig col T d1 dn dbyte :=
  ⟨fun c r hc => by rw [hd]; exact h.other c r hc, fun r hr => by rw [hd]; exact h.rest r hr,
   fun r hr => by rw [hd]; exact h.done r hr, h.acc⟩

theorem DownInv.acc_lt_down {orig : Device} {col : Nat} {T : Nat → Bool} {d : Device} {dn dbyte : Nat}
    (h : DownInv orig col T d dn dbyte) (i : Nat) (hi : dbyte.testBit i = true) :
    dn % 8 ≠ 0 ∧ dn % 8 ≤ i ∧ i < 8 := by
  rw [h.acc] at hi
  simp at hi
  exact ⟨hi.1.1, hi.1.2.1, hi.1.2.2⟩

theorem DownInv.step_down {orig : Device} {col : Nat} {T : Nat → Bool} {d : Device} {dn dbyte : Nat}
    (h : DownInv orig col T d dn dbyte) (hdn : 1 ≤ dn) (hdn2 : dn ≤ 256)
    (dbyte1 : Nat)
    (hb : ∀ i, dbyte1.testBit i = if i = (dn - 1) % 8 then T (dn - 1) else dbyte.testBit i) :
    DownInv orig col T
      (if (dn - 1) &&& 7 = 0 then (WriteData (GotoXY d col ((dn - 1) &&& bnot 7)) dbyte1, 0)
        else (d, dbyte1)).1
      (dn - 1)
      (if (dn - 1) &&& 7 = 0 then (WriteData (GotoXY d col ((dn - 1) &&& bnot 7)) dbyte1, 0)
        else (d, dbyte1)).2 := by
  rw [and_seven]
  by_cases h0 : (dn - 1) % 8 = 0
  · simp only [h0, if_true]
    have hpage : (GotoXY d col ((dn - 1) &&& bnot 7)).page = (dn - 1) / 8 := by
      simp only [GotoXY]; exact and_bnot_seven_div _ (by omega)
    have hcol : (GotoXY d col ((dn - 1) &&& bnot 7)).col = col := rfl
    constructor
    · intro c r hc
      rw [pixel_WriteData, hcol, if_neg (fun hh => hc hh.1), pixel_GotoXY]
      exact h.other c r hc
    · intro r hr
      rw [pixel_WriteData, hcol, hpage, if_neg (fun hh => by omega), pixel_GotoXY]
      exact h.rest r (by omega)
    · intro r hr
      rw [pixel_WriteData, hcol, hpage]
      by_cases hp : r / 8 = (dn - 1) / 8
      · rw [if_pos ⟨rfl, hp⟩, hb, h0]
        by_cases h8 : r % 8 = 0
        · rw [if_pos h8]
          have : r = dn - 1 := by omega
          rw [this]
        · rw [if_neg h8, h.acc]
          have h1 : dn % 8 ≠ 0 ∧ dn % 8 ≤ r % 8 ∧ r % 8 < 8 := by omega
          have h2 : 8 * (dn / 8) + r % 8 = r := by omega
          simp [h1, h2]
      · rw [if_neg (fun hh => hp hh.2), pixel_GotoXY]
        exact h.done r (by omega)
    · intro i
      have : (dn - 1) % 8 = 0 := h0
      simp [this]
  · simp only [h0, if_false]
    constructor
    · exact h.other
    · intro r hr
      exact h.rest r (by omega)
    · intro r hr
      exact h.done r (by omega)
    · intro i
      rw [hb]
      by_cases hi : i = (dn - 1) % 8
      · rw [if_pos hi]
        have h2 : 8 * ((dn - 1) / 8) + i = dn - 1 := by omega
        have h3 : (dn - 1) % 8 ≠ 0 ∧ (dn - 1) % 8 ≤ i ∧ i < 8 := by omega
        simp [h2, h3]
      · rw [if_neg hi, h.acc]
        by_cases h1 : dn % 8 ≠ 0 ∧ dn % 8 ≤ i ∧ i < 8
        · have h3 : (dn - 1) % 8 ≠ 0 ∧ (dn - 1) % 8 ≤ i ∧ i < 8 := by omega
          have h4 : (dn - 1) / 8 = dn / 8 := by omega
          simp [h1, h3, h4]
        · have h3 : ¬ ((dn - 1) % 8 ≠ 0 ∧ (dn - 1) % 8 ≤ i ∧ i < 8) := by omega
          simp [h1, h3]

theorem ScrollDown_copy_spec (orig : Device) (col y1 y2 N : Nat) (T : Nat → Bool)
    (hT : ∀ r, y1 + N ≤ r → r ≤ y2 → T r = pixel orig col (r - N))
    (hy2 : y2 < 256) :
    ∀ (fuel : Nat) (d : Device) (dy dbyte sy sbyte : Nat),
      DownInv orig col T d (dy + 1) dbyte → dy = sy + N → y1 ≤ sy + 1 → dy ≤ y2 →
      (y1 ≤ sy → ∀ i, i < 8 → sbyte.testBit i = pixel orig col (8 * (sy / 8) + i)) →
      sy + 1 - y1 < fuel →
      ∃ d1 dbyte1, ScrollDown.copy col y1 fuel d dy dbyte sy sbyte
          = some (d1, (y1 + N + 255) % 256, dbyte1)
        ∧ DownInv orig col T d1 (y1 + N) dbyte1 := by
  intro fuel
  induction fuel with
  | zero => intro d dy dbyte sy sbyte _ _ _ _ _ hf; omega
  | succ fuel ih =>
    intro d dy dbyte sy sbyte hinv hdy hsy hle hs hf
    rw [ScrollDown.copy]
    by_cases hc : sy ≥ y1
    · rw [if_pos hc]
      have hTdy : T dy = sbyte.testBit (sy % 8) := by
        rw [hT dy (by omega) hle, hs hc (sy % 8) (Nat.mod_lt _ (by norm_num)), row_split]
        congr 1; omega
      have hb : ∀ i, (if sbyte &&& BV (sy &&& 7) ≠ 0 then (dbyte ||| BV (dy &&& 7)) % 256
          else dbyte).testBit i = if i = (dy + 1 - 1) % 8 then T (dy + 1 - 1) else dbyte.testBit i := by
        intro i
        rw [and_seven, and_seven, Nat.add_sub_cancel]
        by_cases hbit : sbyte.testBit (sy % 8) = true
        · rw [if_pos ((and_BV_ne_zero _ _).2 hbit), testBit_or_BV_mod, hTdy, hbit]
          by_cases hi : i = dy % 8
          · have h8 : dy % 8 < 8 := by omega
            simp [hi, h8]
          · rw [if_neg hi]
            by_cases hd : dbyte.testBit i = true
            · have := hinv.acc_lt_down i hd
              simp [hd, this.2.2]
            · simp [hd, hi]
        · rw [if_neg (fun hh => hbit ((and_BV_ne_zero _ _).1 hh)), hTdy]
          by_cases hi : i = dy % 8
          · rw [if_pos hi, hi]
            have hz : dbyte.testBit (dy % 8) = false := by
              by_contra hh
              have := hinv.acc_lt_down (dy % 8) (by simpa using hh)
              omega
            rw [hz]; simpa using hbit
          · rw [if_neg hi]
      have hstep := hinv.step_down (by omega) (by omega) _ hb
      simp only [Nat.add_sub_cancel] at hstep
      by_cases h0 : sy = 0
      · rw [if_pos h0]
        have e1 : (y1 + N + 255) % 256 = (dy + 255) % 256 := by
          have : y1 = 0 := by omega
          subst this; subst h0; simp [hdy]
        have e2 : y1 + N = dy := by omega
        rw [e1, e2]
        exact ⟨_, _, rfl, hstep⟩
      · rw [if_neg h0]
        have hsy1 : (sy + 255) % 256 = sy - 1 := by omega
        have hdy1 : (dy + 255) % 256 = dy - 1 := by omega
        simp only [hsy1, hdy1]
        generalize (if dy &&& 7 = 0
              then (WriteData (GotoXY d col (dy &&& bnot 7))
                (if sbyte &&& BV (sy &&& 7) ≠ 0 then (dbyte ||| BV (dy &&& 7)) % 256 else dbyte), 0)
              else (d, if sbyte &&& BV (sy &&& 7) ≠ 0 then (dbyte ||| BV (dy &&& 7)) % 256
                else dbyte)) = wr at hstep ⊢
        have hR : ∀ c r, pixel (if (sy - 1) &&& 7 = 7
            then ReadData (GotoXY wr.1 col ((sy - 1) &&& bnot 7)) else (wr.1, sbyte)).1 c r
            = pixel wr.1 c r := by
          intro c r; split <;> rfl
        have hinv2 : DownInv orig col T (if (sy - 1) &&& 7 = 7
            then ReadData (GotoXY wr.1 col ((sy - 1) &&& bnot 7)) else (wr.1, sbyte)).1
            (dy - 1 + 1) wr.2 := by
          have e : dy - 1 + 1 = dy := by omega
          rw [e]; exact hstep.congr hR
        have hS : y1 ≤ sy - 1 → ∀ i, i < 8 →
            (if (sy - 1) &&& 7 = 7
              then ReadData (GotoXY wr.1 col ((sy - 1) &&& bnot 7)) else (wr.1, sbyte)).2.testBit i
            = pixel orig col (8 * ((sy - 1) / 8) + i) := by
          intro hle1 i hi
          rw [and_seven]
          by_cases h7 : (sy - 1) % 8 = 7
          · rw [if_pos h7, testBit_ReadData]
            have hrest := hstep.rest (8 * ((sy - 1) / 8) + i) (by omega)
            rw [← hrest]
            have e1 : (8 * ((sy - 1) / 8) + i) / 8 = (sy - 1) / 8 := by omega
            have e2 : (8 * ((sy - 1) / 8) + i) % 8 = i := by omega
            have e3 : ((sy - 1) &&& bnot 7) / 8 = (sy - 1) / 8 := and_bnot_seven_div _ (by omega)
            simp only [pixel, GotoXY, e1, e2, e3]
            simp [hi]
          · rw [if_neg h7]
            have e1 : (sy - 1) / 8 = sy / 8 := by omega
            rw [e1]
            exact hs hc i hi
        exact ih _ _ _ _ _ hinv2 (by omega) (by omega) (by omega) hS (by omega)
    · rw [if_neg hc]
      have e1 : (y1 + N + 255) % 256 = dy := by omega
      have e2 : y1 + N = dy + 1 := by omega
      rw [e1, e2]
      exact ⟨d, dbyte, rfl, hinv⟩


theorem ScrollDown_fill_spec (K : Config) (orig : Device) (col lo hi color : Nat) (T : Nat → Bool)
    (hT : ∀ r, lo ≤ r → r < hi → T r = decide (color = K.BLACK)) (hhi : hi ≤ 256) :
    ∀ (p : Nat) (d : Device) (dn dbyte : Nat),
      DownInv orig col T d dn dbyte → dn = lo + p → dn ≤ hi →
      (ScrollDown.fill K col color p d ((dn + 255) % 256) dbyte).2.1 = (lo + 255) % 256
        ∧ DownInv orig col T (ScrollDown.fill K col color p d ((dn + 255) % 256) dbyte).1 lo
            (ScrollDown.fill K col color p d ((dn + 255) % 256) dbyte).2.2 := by
  intro p
  induction p with
  | zero =>
    intro d dn dbyte hinv hp _
    have : dn = lo := by omega
    subst this
    exact ⟨rfl, hinv⟩
  | succ p ih =>
    intro d dn dbyte hinv hp hle
    rw [ScrollDown.fill]
    have hdy : (dn + 255) % 256 = dn - 1 := by omega
    simp only [hdy]
    have hb : ∀ i, (if color = K.BLACK then (dbyte ||| BV ((dn - 1) &&& 7)) % 256
        else dbyte &&& bnot (BV ((dn - 1) &&& 7))).testBit i
        = if i = (dn - 1) % 8 then T (dn - 1) else dbyte.testBit i := by
      intro i
      rw [and_seven, hT (dn - 1) (by omega) (by omega)]
      by_cases hcol : color = K.BLACK
      · rw [if_pos hcol, testBit_or_BV_mod]
        by_cases hi : i = (dn - 1) % 8
        · have h8 : (dn - 1) % 8 < 8 := by omega
          simp [hi, h8, hcol]
        · rw [if_neg hi]
          by_cases hd : dbyte.testBit i = true
          · have := hinv.acc_lt_down i hd
            simp [hd, this.2.2]
          · simp [hd, hi]
      · rw [if_neg hcol, testBit_and_bnot_BV]
        by_cases hi : i = (dn - 1) % 8
        · simp [hi, hcol]
        · rw [if_neg hi]
          by_cases hd : dbyte.testBit i = true
          · have := hinv.acc_lt_down i hd
            simp [hd, this.2.2, hi]
          · simp [hd]
    have hstep := hinv.step_down (by omega) (by omega) _ hb
    exact ih _ _ _ hstep (by omega) (by omega)

theorem ScrollDown_flush_spec (orig : Device) (col : Nat) (T : Nat → Bool) (d : Device)
    (lo dbyte : Nat) (hinv : DownInv orig col T d lo dbyte)
    (hT : ∀ r, r < lo → T r = pixel orig col r) (hlo : lo < 256) :
    (∀ r, pixel (ScrollDown.flush d col lo dbyte) col r = T r)
      ∧ ∀ c r, c ≠ col → pixel (ScrollDown.flush d col lo dbyte) c r = pixel orig c r := by
  unfold ScrollDown.flush
  rw [and_seven]
  by_cases h0 : lo % 8 = 0
  · simp only [h0, ne_eq, not_true_eq_false, if_false]
    refine ⟨fun r => ?_, hinv.other⟩
    by_cases hr : lo ≤ 8 * (r / 8)
    · exact hinv.done r hr
    · rw [hinv.rest r (by omega), hT r (by omega)]
  · simp only [ne_eq, h0, not_false_eq_true, if_true]
    have hpage : (ReadData (GotoXY d col (lo &&& bnot 7))).1.page = lo / 8 := by
      simp only [ReadData, GotoXY]
      exact and_bnot_seven_div _ hlo
    have hcol : (ReadData (GotoXY d col (lo &&& bnot 7))).1.col = col := rfl
    have hpage2 : (GotoXY d col (lo &&& bnot 7)).page = lo / 8 := hpage
    have hcol2 : (GotoXY d col (lo &&& bnot 7)).col = col := rfl
    constructor
    · intro r
      rw [pixel_WriteData, hcol, hpage]
      by_cases hp : r / 8 = lo / 8
      · rw [if_pos ⟨rfl, hp⟩, Nat.testBit_or, Nat.testBit_and, testBit_BV_sub_one,
          testBit_ReadData, hcol2, hpage2, hinv.acc]
        have h8 : r % 8 < 8 := Nat.mod_lt _ (by norm_num)
        have hsplit : 8 * (lo / 8) + r % 8 = r := by omega
        by_cases hlt : r % 8 < lo % 8
        · have hlt2 : r < lo := by omega
          rw [hT r hlt2, ← hinv.rest r (by omega)]
          have hn : ¬ (lo % 8 ≠ 0 ∧ lo % 8 ≤ r % 8 ∧ r % 8 < 8) := by omega
          simp only [pixel, GotoXY, hp]
          simp [hlt, h8, hn]
        · have hy : lo % 8 ≠ 0 ∧ lo % 8 ≤ r % 8 ∧ r % 8 < 8 := by omega
          simp [hlt, hsplit, hy]
      · rw [if_neg (fun hh => hp hh.2), pixel_ReadData, pixel_GotoXY]
        by_cases hr : lo ≤ 8 * (r / 8)
        · exact hinv.done r hr
        · rw [hinv.rest r (by omega), hT r (by omega)]
    · intro c r hc
      rw [pixel_WriteData, hcol, if_neg (fun hh => hc hh.1), pixel_ReadData, pixel_GotoXY]
      exact hinv.other c r hc

theorem ScrollDown_column_spec (K : Config) (d : Device) (col y1 y2 N color fuel : Nat)
    (h1 : y1 + N ≤ y2) (hy2 : y2 < 256) (hf : y2 + 1 < fuel) :
    ∃ d1, ScrollDown.column K fuel d col y1 y2 N color = some d1
      ∧ (∀ r, pixel d1 col r = downTarget K d col y1 y2 N color r)
      ∧ ∀ c r, c ≠ col → pixel d1 c r = pixel d c r := by
  unfold ScrollDown.column
  simp only []
  have hm : (y2 + 256 - N) % 256 = y2 - N := by omega
  rw [hm]
  have hpage1 : (GotoXY d col (y2 &&& bnot 7)).page = y2 / 8 := by
    simp only [GotoXY]; exact and_bnot_seven_div _ hy2
  have hinv0 : DownInv d col (downTarget K d col y1 y2 N color)
      (ReadData (GotoXY (ReadData (GotoXY d col (y2 &&& bnot 7))).1 col ((y2 - N) &&& bnot 7))).1
      (y2 + 1) ((ReadData (GotoXY d col (y2 &&& bnot 7))).2 &&& bnot (BV ((y2 &&& 7) + 1) - 1)) := by
    constructor
    · intro c r _; rfl
    · intro r _; rfl
    · intro r hr
      have : ¬ (y1 ≤ r ∧ r ≤ y2) := by omega
      simp only [downTarget, if_neg this]; rfl
    · intro i
      rw [Nat.testBit_and, testBit_bnot, testBit_BV_sub_one, testBit_ReadData, hpage1, and_seven]
      by_cases hi : (y2 + 1) % 8 ≠ 0 ∧ (y2 + 1) % 8 ≤ i ∧ i < 8
      · have hn : ¬ (y1 ≤ 8 * ((y2 + 1) / 8) + i ∧ 8 * ((y2 + 1) / 8) + i ≤ y2) := by omega
        have e1 : (8 * ((y2 + 1) / 8) + i) / 8 = y2 / 8 := by omega
        have e2 : (8 * ((y2 + 1) / 8) + i) % 8 = i := by omega
        have e3 : ¬ i < y2 % 8 + 1 := by omega
        simp only [downTarget, if_neg hn, pixel, e1, e2]
        simp [hi, e3, GotoXY]
      · have e3 : i < 8 → i < y2 % 8 + 1 := by omega
        rw [decide_eq_false hi]
        by_cases h8 : i < 8
        · simp [e3 h8, h8]
        · simp [h8]
  have hsrc : y1 ≤ y2 - N → ∀ i, i < 8 →
      (ReadData (GotoXY (ReadData (GotoXY d col (y2 &&& bnot 7))).1 col
        ((y2 - N) &&& bnot 7))).2.testBit i = pixel d col (8 * ((y2 - N) / 8) + i) := by
    intro _ i hi
    rw [testBit_ReadData]
    have hpage : (GotoXY (ReadData (GotoXY d col (y2 &&& bnot 7))).1 col
        ((y2 - N) &&& bnot 7)).page = (y2 - N) / 8 := by
      simp only [GotoXY]; exact and_bnot_seven_div _ (by omega)
    rw [hpage]
    have e1 : (8 * ((y2 - N) / 8) + i) / 8 = (y2 - N) / 8 := by omega
    have e2 : (8 * ((y2 - N) / 8) + i) % 8 = i := by omega
    simp only [pixel, e1, e2]
    simp [hi, GotoXY, ReadData]
  have hTcopy : ∀ r, y1 + N ≤ r → r ≤ y2 →
      downTarget K d col y1 y2 N color r = pixel d col (r - N) := by
    intro r hr hr2
    simp only [downTarget, if_pos (show y1 ≤ r ∧ r ≤ y2 by omega), if_pos hr]
  obtain ⟨d1, dbyte1, hcopy, hinv1⟩ := ScrollDown_copy_spec d col y1 y2 N _ hTcopy hy2 fuel _ y2 _
    (y2 - N) _ hinv0 (by omega) (by omega) (Nat.le_refl _) hsrc (by omega)
  rw [hcopy]
  simp only []
  have hTfill : ∀ r, y1 ≤ r → r < y1 + N →
      downTarget K d col y1 y2 N color r = decide (color = K.BLACK) := by
    intro r hr hr2
    simp only [downTarget, if_pos (show y1 ≤ r ∧ r ≤ y2 by omega),
      if_neg (show ¬ y1 + N ≤ r by omega)]
  obtain ⟨hdy, hinv2⟩ := ScrollDown_fill_spec K d col y1 (y1 + N) color _ hTfill (by omega) N d1
    (y1 + N) dbyte1 hinv1 rfl (Nat.le_refl _)
  rw [hdy]
  have hlo : ((y1 + 255) % 256 + 1) % 256 = y1 := by omega
  rw [hlo]
  have hTrest : ∀ r, r < y1 → downTarget K d col y1 y2 N color r = pixel d col r := by
    intro r hr
    simp only [downTarget, if_neg (show ¬ (y1 ≤ r ∧ r ≤ y2) by omega)]
  obtain ⟨ha, hb⟩ := ScrollDown_flush_spec d col _ _ y1 _ hinv2 hTrest (by omega)
  exact ⟨_, rfl, ha, hb⟩

theorem ScrollDown_columns_spec (K : Config) (y1 x2 y2 N color inner : Nat)
    (h1 : y1 + N ≤ y2) (hy2 : y2 < 256) (hf : y2 + 1 < inner) (hx2 : x2 < 255) :
    ∀ (fuel : Nat) (d : Device) (col : Nat), col ≤ x2 + 1 → x2 + 1 - col < fuel →
      ∃ d1, ScrollDown.columns K y1 x2 y2 N color inner fuel d col = some d1
        ∧ ∀ c r, pixel d1 c r
            = if col ≤ c ∧ c ≤ x2 then downTarget K d c y1 y2 N color r else pixel d c r := by
  intro fuel
  induction fuel with
  | zero => intro d col _ hf; omega
  | succ fuel ih =>
    intro d col hcol hfuel
    rw [ScrollDown.columns]
    by_cases hc : col ≤ x2
    · rw [if_pos hc]
      obtain ⟨d1, hd1, hin, hout⟩ := ScrollDown_column_spec K d col y1 y2 N color inner h1 hy2 hf
      rw [hd1]
      simp only []
      have hm : (col + 1) % 256 = col + 1 := Nat.mod_eq_of_lt (by omega)
      rw [hm]
      obtain ⟨d2, hd2, hpix⟩ := ih d1 (col + 1) (by omega) (by omega)
      refine ⟨d2, hd2, fun c r => ?_⟩
      rw [hpix]
      by_cases hc1 : col + 1 ≤ c ∧ c ≤ x2
      · have hne : c ≠ col := by omega
        rw [if_pos hc1, if_pos (show col ≤ c ∧ c ≤ x2 by omega)]
        simp only [downTarget, hout c _ hne]
      · rw [if_neg hc1]
        by_cases hcc : c = col
        · subst hcc
          rw [if_pos (show c ≤ c ∧ c ≤ x2 by omega), hin]
        · rw [if_neg (show ¬ (col ≤ c ∧ c ≤ x2) by omega), hout c r hcc]
    · rw [if_neg hc]
      refine ⟨d, rfl, fun c r => ?_⟩
      rw [if_neg (show ¬ (col ≤ c ∧ c ≤ x2) by omega)]

theorem ScrollDown_spec (K : Config) (d : Device) (x1 y1 x2 y2 N color fuel : Nat)
    (hx : x1 ≤ x2) (hy2 : y2 < 256) (hx2 : x2 < 255) (hf : 256 < fuel) :
    ∃ d1, ScrollDown K fuel d x1 y1 x2 y2 N color = some d1
      ∧ ∀ c r, pixel d1 c r
          = if x1 ≤ c ∧ c ≤ x2 then downTarget K d c y1 y2 N color r else pixel d c r := by
  unfold ScrollDown
  by_cases hN : y1 + N > y2
  · rw [if_pos hN]
    refine ⟨_, rfl, fun c r => ?_⟩
    rw [pixel_SetPixels]
    by_cases hc : x1 ≤ c ∧ c ≤ x2
    · rw [if_pos hc]
      by_cases hr : y1 ≤ r ∧ r ≤ y2
      · rw [if_pos ⟨hc.1, hc.2, hr.1, hr.2⟩]
        simp only [downTarget, if_pos hr, if_neg (show ¬ y1 + N ≤ r by omega)]
      · rw [if_neg (fun hh => hr ⟨hh.2.2.1, hh.2.2.2⟩)]
        simp only [downTarget, if_neg hr]
    · rw [if_neg hc, if_neg (fun hh => hc ⟨hh.1, hh.2.1⟩)]
  · rw [if_neg hN]
    exact ScrollDown_columns_spec K y1 x2 y2 N color fuel (by omega) hy2 (by omega) hx2 fuel d x1
      (by omega) (by omega)

/-! ## Scrolling: the claims -/

/-- C1. `ScrollUp` shifts exactly.  On a display of at most 255 columns and
rows, for every rectangle with `x1 <= x2 < DISPLAY_WIDTH` and
`y2 < DISPLAY_HEIGHT`, every pixel count `N`, fill colour and memory content,
`ScrollUp` returns (given fuel above 256) and afterwards every pixel `(c, r)`
of the rectangle equals the original pixel `(c, r + N)` when `r + N <= y2` and
is the fill colour, set exactly when `color` is `BLACK`, when `r + N > y2`. -/
theorem ScrollUp_shifts (K : Config) (d : Device) (x1 y1 x2 y2 N color fuel : Nat)
    (hW : K.DISPLAY_WIDTH ≤ 255) (hH : K.DISPLAY_HEIGHT ≤ 255)
    (hx : x1 ≤ x2) (hx2 : x2 < K.DISPLAY_WIDTH) (hy2 : y2 < K.DISPLAY_HEIGHT)
    (hf : 256 < fuel) :
    ∃ d1, ScrollUp K fuel d x1 y1 x2 y2 N color = some d1 ∧
      ∀ c r, x1 ≤ c → c ≤ x2 → y1 ≤ r → r ≤ y2 →
        pixel d1 c r = if r + N ≤ y2 then pixel d c (r + N) else decide (color = K.BLACK) := by
  obtain ⟨d1, h1, h2⟩ := ScrollUp_spec K d x1 y1 x2 y2 N color fuel hx (by omega) hy2 (by omega) hf
  refine ⟨d1, h1, fun c r hc1 hc2 hr1 hr2 => ?_⟩
  rw [h2, if_pos ⟨hc1, hc2⟩]
  simp only [upTarget, if_pos (And.intro hr1 hr2)]

/-- The shift theorem of `ScrollUp` applied to a rectangle of the speckled
display. -/
theorem ScrollUp_shifts_witness :
    ks0108.DISPLAY_WIDTH ≤ 255 ∧ ks0108.DISPLAY_HEIGHT ≤ 255 ∧ 2 ≤ 4 ∧ 4 < ks0108.DISPLAY_WIDTH
      ∧ 20 < ks0108.DISPLAY_HEIGHT ∧ 256 < 300 ∧
      ∃ d1, ScrollUp ks0108 300 speckled 2 3 4 20 5 0 = some d1 ∧
        ∀ c r, 2 ≤ c → c ≤ 4 → 3 ≤ r → r ≤ 20 →
          pixel d1 c r
            = if r + 5 ≤ 20 then pixel speckled c (r + 5) else decide (0 = ks0108.BLACK) :=
  ⟨by decide, by decide, by decide, by decide, by decide, by decide,
    ScrollUp_shifts ks0108 speckled 2 3 4 20 5 0 300 (by decide) (by decide) (by decide)
      (by decide) (by decide) (by decide)⟩

/-- C2. `ScrollDown` shifts exactly.  On a display of at most 255 columns and
rows, for every rectangle with `x1 <= x2 < DISPLAY_WIDTH` and
`y2 < DISPLAY_HEIGHT`, every pixel count `N`, fill colour and memory content,
`ScrollDown` returns (given fuel above 256) and afterwards every pixel `(c, r)`
of the rectangle equals the original pixel `(c, r - N)` when `r - N >= y1` and
is the fill colour, set exactly when `color` is `BLACK`, when `r - N < y1`. -/
theorem ScrollDown_shifts (K : Config) (d : Device) (x1 y1 x2 y2 N color fuel : Nat)
    (hW : K.DISPLAY_WIDTH ≤ 255) (hH : K.DISPLAY_HEIGHT ≤ 255)
    (hx : x1 ≤ x2) (hx2 : x2 < K.DISPLAY_WIDTH) (hy2 : y2 < K.DISPLAY_HEIGHT)
    (hf : 256 < fuel) :
    ∃ d1, ScrollDown K fuel d x1 y1 x2 y2 N color = some d1 ∧
      ∀ c r, x1 ≤ c → c ≤ x2 → y1 ≤ r → r ≤ y2 →
        pixel d1 c r = if y1 + N ≤ r then pixel d c (r - N) else decide (color = K.BLACK) := by
  obtain ⟨d1, h1, h2⟩ := ScrollDown_spec K d x1 y1 x2 y2 N color fuel hx (by omega) (by omega) hf
  refine ⟨d1, h1, fun c r hc1 hc2 hr1 hr2 => ?_⟩
  rw [h2, if_pos ⟨hc1, hc2⟩]
  simp only [downTarget, if_pos (And.intro hr1 hr2)]

/-- The shift theorem of `ScrollDown` applied to a rectangle of the speckled
display. -/
theorem ScrollDown_shifts_witness :
    ks0108.DISPLAY_WIDTH ≤ 255 ∧ ks0108.DISPLAY_HEIGHT ≤ 255 ∧ 2 ≤ 4 ∧ 4 < ks0108.DISPLAY_WIDTH
      ∧ 20 < ks0108.DISPLAY_HEIGHT ∧ 256 < 300 ∧
      ∃ d1, ScrollDown ks0108 300 speckled 2 3 4 20 5 255 = some d1 ∧
        ∀ c r, 2 ≤ c → c ≤ 4 → 3 ≤ r → r ≤ 20 →
          pixel d1 c r
            = if 3 + 5 ≤ r then pixel speckled c (r - 5) else decide (255 = ks0108.BLACK) :=
  ⟨by decide, by decide, by decide, by decide, by decide, by decide,
    ScrollDown_shifts ks0108 speckled 2 3 4 20 5 255 300 (by decide) (by decide) (by decide)
      (by decide) (by decide) (by decide)⟩

/-- C3. Scrolling never disturbs pixels outside the rectangle.  On a display
of at most 255 columns and rows, for every rectangle with
`x1 <= x2 < DISPLAY_WIDTH` and `y2 < DISPLAY_HEIGHT`, every pixel count, fill
colour and memory content, both `ScrollUp` and `ScrollDown` return and leave
every pixel `(c, r)` with `c` outside `x1..x2` or `r` outside `y1..y2` at its
original value; that includes the rows above `y1` and below `y2` in the pages
shared with the scrolled rows. -/
theorem Scroll_frame (K : Config) (d : Device) (x1 y1 x2 y2 N color fuel : Nat)
    (hW : K.DISPLAY_WIDTH ≤ 255) (hH : K.DISPLAY_HEIGHT ≤ 255)
    (hx : x1 ≤ x2) (hx2 : x2 < K.DISPLAY_WIDTH) (hy2 : y2 < K.DISPLAY_HEIGHT)
    (hf : 256 < fuel) :
    (∃ d1, ScrollUp K fuel d x1 y1 x2 y2 N color = some d1 ∧
      ∀ c r, (c < x1 ∨ x2 < c ∨ r < y1 ∨ y2 < r) → pixel d1 c r = pixel d c r)
    ∧ (∃ d1, ScrollDown K fuel d x1 y1 x2 y2 N color = some d1 ∧
      ∀ c r, (c < x1 ∨ x2 < c ∨ r < y1 ∨ y2 < r) → pixel d1 c r = pixel d c r) := by
  constructor
  · obtain ⟨d1, h1, h2⟩ := ScrollUp_spec K d x1 y1 x2 y2 N color fuel hx (by omega) hy2 (by omega) hf
    refine ⟨d1, h1, fun c r hout => ?_⟩
    rw [h2]
    by_cases hc : x1 ≤ c ∧ c ≤ x2
    · rw [if_pos hc]
      simp only [upTarget, if_neg (show ¬ (y1 ≤ r ∧ r ≤ y2) by omega)]
    · rw [if_neg hc]
  · obtain ⟨d1, h1, h2⟩ := ScrollDown_spec K d x1 y1 x2 y2 N color fuel hx (by omega) (by omega) hf
    refine ⟨d1, h1, fun c r hout => ?_⟩
    rw [h2]
    by_cases hc : x1 ≤ c ∧ c ≤ x2
    · rw [if_pos hc]
      simp only [downTarget, if_neg (show ¬ (y1 ≤ r ∧ r ≤ y2) by omega)]
    · rw [if_neg hc]

/-- The frame theorem applied to a rectangle of the speckled display. -/
theorem Scroll_frame_witness :
    ks0108.DISPLAY_WIDTH ≤ 255 ∧ ks0108.DISPLAY_HEIGHT ≤ 255 ∧ 2 ≤ 4 ∧ 4 < ks0108.DISPLAY_WIDTH
      ∧ 20 < ks0108.DISPLAY_HEIGHT ∧ 256 < 300 ∧
      (∃ d1, ScrollUp ks0108 300 speckled 2 3 4 20 5 0 = some d1 ∧
        ∀ c r, (c < 2 ∨ 4 < c ∨ r < 3 ∨ 20 < r) → pixel d1 c r = pixel speckled c r)
      ∧ (∃ d1, ScrollDown ks0108 300 speckled 2 3 4 20 5 0 = some d1 ∧
        ∀ c r, (c < 2 ∨ 4 < c ∨ r < 3 ∨ 20 < r) → pixel d1 c r = pixel speckled c r) :=
  ⟨by decide, by decide, by decide, by decide, by decide, by decide,
    Scroll_frame ks0108 speckled 2 3 4 20 5 0 300 (by decide) (by decide) (by decide)
      (by decide) (by decide) (by decide)⟩

/-! ## Area definition: the claims -/

/-- C5, evaluated at a failing input.  On a display of 64 columns and 128 rows
the rectangle `(0, 0, 10, 100)` is valid: `x1 < x2 < DISPLAY_WIDTH` and
`y1 < y2 < DISPLAY_HEIGHT`.  Yet `DefineArea` returns failure and resets the
area to the full display `(0, 0, 63, 127)` with the default mode: the last test
of line 171 compares `y2` with `DISPLAY_WIDTH`, and `100 >= 64`. -/
theorem DefineArea_rejects_valid_on_tall_display :
    0 < 10 ∧ 10 < upright.DISPLAY_WIDTH ∧ 0 < 100 ∧ 100 < upright.DISPLAY_HEIGHT
      ∧ (DefineArea upright (fullArea none 5 5 blank) 0 0 10 100 textMode.SCROLL_DOWN).1 = 0
      ∧ ((DefineArea upright (fullArea none 5 5 blank) 0 0 10 100 textMode.SCROLL_DOWN).2.tarea.x1,
          (DefineArea upright (fullArea none 5 5 blank) 0 0 10 100 textMode.SCROLL_DOWN).2.tarea.y1,
          (DefineArea upright (fullArea none 5 5 blank) 0 0 10 100 textMode.SCROLL_DOWN).2.tarea.x2,
          (DefineArea upright (fullArea none 5 5 blank) 0 0 10 100 textMode.SCROLL_DOWN).2.tarea.y2,
          (DefineArea upright (fullArea none 5 5 blank) 0 0 10 100 textMode.SCROLL_DOWN).2.tarea.mode)
        = (0, 0, 63, 127, textMode.SCROLL_UP) := by
  decide

/-- Where the display is at least as wide as it is tall, the test of line 171
cannot reject a valid rectangle: for every rectangle with
`x1 < x2 < DISPLAY_WIDTH` and `y1 < y2 < DISPLAY_HEIGHT` and every mode,
`DefineArea` returns success, stores exactly `(x1, y1, x2, y2)` and the mode as
the area, sets the cursor to `(x1, y1)` and changes nothing else. -/
theorem DefineArea_valid (K : Config) (g : gText) (x1 y1 x2 y2 : Nat) (mode : textMode)
    (hHW : K.DISPLAY_HEIGHT ≤ K.DISPLAY_WIDTH)
    (hx : x1 < x2) (hx2 : x2 < K.DISPLAY_WIDTH) (hy : y1 < y2) (hy2 : y2 < K.DISPLAY_HEIGHT) :
    DefineArea K g x1 y1 x2 y2 mode
      = (1, { g with tarea := { x1 := x1, y1 := y1, x2 := x2, y2 := y2, mode := mode }
                     x := x1, y := y1 }) := by
  unfold DefineArea
  rw [if_neg (by omega)]

/-- The success theorem of `DefineArea` applied to the rectangle
`(10, 8, 100, 40)` of the 128 by 64 display. -/
theorem DefineArea_valid_witness :
    ks0108.DISPLAY_HEIGHT ≤ ks0108.DISPLAY_WIDTH ∧ 10 < 100 ∧ 100 < ks0108.DISPLAY_WIDTH
      ∧ 8 < 40 ∧ 40 < ks0108.DISPLAY_HEIGHT ∧
      DefineArea ks0108 (fullArea none 0 0 blank) 10 8 100 40 textMode.SCROLL_DOWN
        = (1, { fullArea none 0 0 blank with
                tarea := { x1 := 10, y1 := 8, x2 := 100, y2 := 40, mode := textMode.SCROLL_DOWN }
                x := 10, y := 8 }) :=
  ⟨by decide, by decide, by decide, by decide, by decide,
    DefineArea_valid ks0108 (fullArea none 0 0 blank) 10 8 100 40 textMode.SCROLL_DOWN
      (by decide) (by decide) (by decide) (by decide) (by decide)⟩

/-- C6, evaluated at a failing input.  On the 128 by 64 display the rectangle
`(0, 0, 10, 100)` violates `y2 < DISPLAY_HEIGHT`, yet `DefineArea` returns
success and stores it: the last test of line 171 compares `y2` with
`DISPLAY_WIDTH`. -/
theorem DefineArea_accepts_y2_below_width :
    ¬ (100 < ks0108.DISPLAY_HEIGHT)
      ∧ (DefineArea ks0108 (fullArea none 0 0 blank) 0 0 10 100 textMode.SCROLL_UP).1 = 1
      ∧ (DefineArea ks0108 (fullArea none 0 0 blank) 0 0 10 100 textMode.SCROLL_UP).2.tarea.y2
          = 100 := by
  decide

/-- C7. Whenever `DefineArea` returns failure, the cursor is the caller's
`(x1, y1)` unchanged, not the origin of the full-display area it has reset to. -/
theorem DefineArea_failure_cursor (K : Config) (g : gText) (x1 y1 x2 y2 : Nat) (mode : textMode)
    (hfail : (DefineArea K g x1 y1 x2 y2 mode).1 = 0) :
    (DefineArea K g x1 y1 x2 y2 mode).2.x = x1 ∧ (DefineArea K g x1 y1 x2 y2 mode).2.y = y1
      ∧ (DefineArea K g x1 y1 x2 y2 mode).2.tarea.x1 = 0
      ∧ (DefineArea K g x1 y1 x2 y2 mode).2.tarea.y1 = 0 := by
  unfold DefineArea at hfail ⊢
  split
  · exact ⟨rfl, rfl, rfl, rfl⟩
  · rename_i h
    rw [if_neg h] at hfail
    exact absurd hfail (by simp)

/-- The failure theorem of `DefineArea` applied to a rectangle whose corner
`(200, 100)` is outside the 128 by 64 display: the cursor ends up there. -/
theorem DefineArea_failure_cursor_witness :
    (DefineArea ks0108 (fullArea none 0 0 blank) 200 100 210 110 textMode.SCROLL_UP).1 = 0
      ∧ (DefineArea ks0108 (fullArea none 0 0 blank) 200 100 210 110 textMode.SCROLL_UP).2.x = 200
      ∧ (DefineArea ks0108 (fullArea none 0 0 blank) 200 100 210 110 textMode.SCROLL_UP).2.y = 100
      ∧ (DefineArea ks0108 (fullArea none 0 0 blank) 200 100 210 110 textMode.SCROLL_UP).2.tarea.x1
          = 0
      ∧ (DefineArea ks0108 (fullArea none 0 0 blank) 200 100 210 110 textMode.SCROLL_UP).2.tarea.y1
          = 0 :=
  ⟨by decide,
    DefineArea_failure_cursor ks0108 (fullArea none 0 0 blank) 200 100 210 110 textMode.SCROLL_UP
      (by decide)⟩

/-- C4, evaluated at a failing input.  The glyph of `font1x15` has exactly
glyph row 8 set.  Drawn with the cursor at row 0 the pixel of glyph row 8 is
set, as the claim says; drawn with the cursor at row 3 the pixel of glyph row 8
(display row 11) is clear and that of glyph row 9 (display row 12) is set: the
second font byte, fetched inside the bit loop, was not shifted. -/
theorem PutChar_bitmap_depends_on_alignment :
    (PutChar ks0108 300 (fullArea (some font1x15) 0 0 blank) 32).map
        (fun r => (r.1, pixel r.2.device 0 (0 + 8), pixel r.2.device 0 (0 + 9)))
      = some (1, true, false)
    ∧ (PutChar ks0108 300 (fullArea (some font1x15) 0 3 blank) 32).map
        (fun r => (r.1, pixel r.2.device 0 (3 + 8), pixel r.2.device 0 (3 + 9)))
      = some (1, false, true) := by
  decide

/-! ## Character output: lemmas -/

theorem PutChar.slices_returns (K : Config) (font : Nat → Nat)
    (fontColor index width height pixels x y : Nat) (hp : pixels ≤ 248) :
    ∀ (fuel : Nat) (d : Device) (p : Nat), pixels - p < fuel →
      ∃ d1, PutChar.slices K font fontColor index width height pixels x y fuel d p = some d1 := by
  intro fuel
  induction fuel with
  | zero => intro d p hf; omega
  | succ fuel ih =>
    intro d p hf
    rw [PutChar.slices]
    by_cases hc : p < pixels
    · rw [if_pos hc]
      simp only [and_seven]
      have h8 : (y + p) % 256 % 8 < 8 := Nat.mod_lt _ (by norm_num)
      have hm : (p + (8 - (y + p) % 256 % 8)) % 256 = p + (8 - (y + p) % 256 % 8) :=
        Nat.mod_eq_of_lt (by omega)
      rw [hm]
      exact ih _ _ (by omega)
    · rw [if_neg hc]
      exact ⟨d, rfl⟩

theorem PutChar.draw_returns (K : Config) (fuel : Nat) (g : gText) (font : Nat → Nat)
    (index width height : Nat) (hh : height ≤ 247) (hf : 248 < fuel) :
    ∃ d1, PutChar.draw K fuel g font index width height
      = some (1, { g with device := d1, x := (g.x + width + 1) % 256 }) := by
  unfold PutChar.draw
  have hp : (height + 1) % 256 ≤ 248 := by omega
  obtain ⟨d1, h1⟩ := PutChar.slices_returns K font g.FontColor index width height
    ((height + 1) % 256) g.x g.y hp fuel g.device 0 (by omega)
  simp only [h1]
  exact ⟨d1, rfl⟩

theorem ScrollUp_copy_returns (K : Config) (col y2 : Nat) (hy2 : y2 < 255) :
    ∀ (fuel : Nat) (d : Device) (dy dbyte sy sbyte : Nat), y2 + 1 - sy < fuel →
      ∃ r, ScrollUp.copy K col y2 fuel d dy dbyte sy sbyte = some r := by
  intro fuel
  induction fuel with
  | zero => intro d dy dbyte sy sbyte hf; omega
  | succ fuel ih =>
    intro d dy dbyte sy sbyte hf
    rw [ScrollUp.copy]
    by_cases hc : sy ≤ y2
    · rw [if_pos hc]
      have hsy1 : (sy + 1) % 256 = sy + 1 := Nat.mod_eq_of_lt (by omega)
      simp only [hsy1]
      exact ih _ _ _ _ _ (by omega)
    · rw [if_neg hc]
      exact ⟨_, rfl⟩

theorem ScrollUp_columns_returns (K : Config) (y1 x2 y2 pixels color inner : Nat)
    (hx2 : x2 < 255) (hy2 : y2 < 255) (hf : 256 < inner) :
    ∀ (fuel : Nat) (d : Device) (col : Nat), x2 + 1 - col < fuel →
      ∃ d1, ScrollUp.columns K y1 x2 y2 pixels color inner fuel d col = some d1 := by
  intro fuel
  induction fuel with
  | zero => intro d col hfuel; omega
  | succ fuel ih =>
    intro d col hfuel
    rw [ScrollUp.columns]
    by_cases hc : col ≤ x2
    · rw [if_pos hc]
      unfold ScrollUp.column
      simp only []
      obtain ⟨r, hr⟩ := ScrollUp_copy_returns K col y2 hy2 inner
        (ReadData (GotoXY (ReadData (GotoXY d col (y1 &&& bnot 7))).1 col
          ((y1 + pixels) % 256 &&& bnot 7))).1
        y1 ((ReadData (GotoXY d col (y1 &&& bnot 7))).2 &&& (BV (y1 &&& 7) - 1))
        ((y1 + pixels) % 256)
        (ReadData (GotoXY (ReadData (GotoXY d col (y1 &&& bnot 7))).1 col
          ((y1 + pixels) % 256 &&& bnot 7))).2 (by omega)
      rw [hr]
      simp only []
      have hm : (col + 1) % 256 = col + 1 := Nat.mod_eq_of_lt (by omega)
      rw [hm]
      exact ih _ _ (by omega)
    · rw [if_neg hc]
      exact ⟨d, rfl⟩

theorem ScrollUp_returns (K : Config) (d : Device) (x1 y1 x2 y2 pixels color fuel : Nat)
    (hx2 : x2 < 255) (hy2 : y2 < 255) (hf : 256 < fuel) :
    ∃ d1, ScrollUp K fuel d x1 y1 x2 y2 pixels color = some d1 := by
  unfold ScrollUp
  split
  · exact ⟨_, rfl⟩
  · exact ScrollUp_columns_returns K y1 x2 y2 pixels color fuel hx2 hy2 hf fuel d x1 (by omega)

theorem ScrollDown_copy_returns (col y1 : Nat) :
    ∀ (fuel : Nat) (d : Device) (dy dbyte sy sbyte : Nat), sy < 256 → sy + 1 < fuel →
      ∃ r, ScrollDown.copy col y1 fuel d dy dbyte sy sbyte = some r := by
  intro fuel
  induction fuel with
  | zero => intro d dy dbyte sy sbyte _ hf; omega
  | succ fuel ih =>
    intro d dy dbyte sy sbyte hsy hf
    rw [ScrollDown.copy]
    by_cases hc : sy ≥ y1
    · rw [if_pos hc]
      by_cases h0 : sy = 0
      · simp only [h0, if_true]
        exact ⟨_, rfl⟩
      · simp only [h0, if_false]
        have hsy1 : (sy + 255) % 256 = sy - 1 := by omega
        simp only [hsy1]
        exact ih _ _ _ _ _ (by omega) (by omega)
    · rw [if_neg hc]
      exact ⟨_, rfl⟩

theorem ScrollDown_columns_returns (K : Config) (y1 x2 y2 pixels color inner : Nat)
    (hx2 : x2 < 255) (hf : 257 < inner) :
    ∀ (fuel : Nat) (d : Device) (col : Nat), x2 + 1 - col < fuel →
      ∃ d1, ScrollDown.columns K y1 x2 y2 pixels color inner fuel d col = some d1 := by
  intro fuel
  induction fuel with
  | zero => intro d col hfuel; omega
  | succ fuel ih =>
    intro d col hfuel
    rw [ScrollDown.columns]
    by_cases hc : col ≤ x2
    · rw [if_pos hc]
      unfold ScrollDown.column
      simp only []
      have hlt : (y2 + 256 - pixels) % 256 < 256 := Nat.mod_lt _ (by norm_num)
      obtain ⟨r, hr⟩ := ScrollDown_copy_returns col y1 inner
        (ReadData (GotoXY (ReadData (GotoXY d col (y2 &&& bnot 7))).1 col
          ((y2 + 256 - pixels) % 256 &&& bnot 7))).1
        y2 ((ReadData (GotoXY d col (y2 &&& bnot 7))).2 &&& bnot (BV ((y2 &&& 7) + 1) - 1))
        ((y2 + 256 - pixels) % 256)
        (ReadData (GotoXY (ReadData (GotoXY d col (y2 &&& bnot 7))).1 col
          ((y2 + 256 - pixels) % 256 &&& bnot 7))).2 hlt (by omega)
      rw [hr]
      simp only []
      have hm : (col + 1) % 256 = col + 1 := Nat.mod_eq_of_lt (by omega)
      rw [hm]
      exact ih _ _ (by omega)
    · rw [if_neg hc]
      exact ⟨d, rfl⟩

theorem ScrollDown_returns (K : Config) (d : Device) (x1 y1 x2 y2 pixels color fuel : Nat)
    (hx2 : x2 < 255) (hf : 257 < fuel) :
    ∃ d1, ScrollDown K fuel d x1 y1 x2 y2 pixels color = some d1 := by
  unfold ScrollDown
  split
  · exact ⟨_, rfl⟩
  · exact ScrollDown_columns_returns K y1 x2 y2 pixels color fuel hx2 hf fuel d x1 (by omega)

theorem SpecialChar_returns (K : Config) (fuel : Nat) (g : gText) (font : Nat → Nat) (c : Int)
    (hax2 : g.tarea.x2 < 255) (hay2 : g.tarea.y2 < 255) (hf : 257 < fuel) :
    ∃ g1, SpecialChar K fuel g font c = some g1 := by
  unfold SpecialChar
  by_cases hc : c = 10
  · rw [if_pos hc]
    simp only []
    cases hmode : g.tarea.mode with
    | SCROLL_UP =>
      simp only []
      split
      · obtain ⟨d1, h1⟩ := ScrollUp_returns K
          (if g.x < g.tarea.x2 then SetPixels K g.device g.x g.y g.tarea.x2
            ((g.y + FontRead font K.FONT_HEIGHT) % 256) (bgColor K g.FontColor) else g.device)
          g.tarea.x1 g.tarea.y1 g.tarea.x2 g.tarea.y2
          ((2 * FontRead font K.FONT_HEIGHT + g.y - g.tarea.y2 + 1) % 256)
          (bgColor K g.FontColor) fuel hax2 hay2 (by omega)
        rw [h1]
        exact ⟨_, rfl⟩
      · exact ⟨_, rfl⟩
    | SCROLL_DOWN =>
      simp only []
      split
      · exact ⟨_, rfl⟩
      · obtain ⟨d1, h1⟩ := ScrollDown_returns K
          (if g.x < g.tarea.x2 then SetPixels K g.device g.x g.y g.tarea.x2
            ((g.y + FontRead font K.FONT_HEIGHT) % 256) (bgColor K g.FontColor) else g.device)
          g.tarea.x1 g.tarea.y1 g.tarea.x2 g.tarea.y2
          (Int.toNat (((FontRead font K.FONT_HEIGHT : Int) + 1
            - ((g.tarea.y1 : Int) - (g.y : Int))) % 256))
          (bgColor K g.FontColor) fuel hax2 hf
        rw [h1]
        exact ⟨_, rfl⟩
  · rw [if_neg hc]
    exact ⟨g, rfl⟩

theorem SpecialChar_newline_x (K : Config) (fuel : Nat) (g g1 : gText) (font : Nat → Nat)
    (h : SpecialChar K fuel g font 10 = some g1) : g1.x = g.tarea.x1 := by
  unfold SpecialChar at h
  rw [if_pos rfl] at h
  simp only [] at h
  split at h
  · split at h
    · split at h
      · exact absurd h (by simp)
      · injection h with h; rw [← h]
    · injection h with h; rw [← h]
  · split at h
    · injection h with h; rw [← h]
    · split at h
      · exact absurd h (by simp)
      · injection h with h; rw [← h]

theorem PutChar_control (K : Config) (fuel : Nat) (g : gText) (font : Nat → Nat) (c : Int)
    (hF : g.Font = some font) (hc : c < 0x20) :
    PutChar K (fuel + 1) g c = (SpecialChar K fuel g font c).map (fun g1 => (1, g1)) := by
  rw [PutChar]
  simp only [hF]
  rw [if_pos hc]
  cases SpecialChar K fuel g font c <;> rfl

theorem PutChar_drawable (K : Config) (fuel : Nat) (g : gText) (font : Nat → Nat) (c : Int)
    (hF : g.Font = some font) (h20 : 0x20 ≤ c)
    (hlo : (FontRead font K.FONT_FIRST_CHAR : Int) ≤ c)
    (hhi : c < (FontRead font K.FONT_FIRST_CHAR : Int) + (FontRead font K.FONT_CHAR_COUNT : Int)) :
    PutChar K (fuel + 1) g c
      = if g.x + PutChar.width K font (Int.toNat (c - (FontRead font K.FONT_FIRST_CHAR : Int)))
            > g.tarea.x2 then
          (PutChar K fuel g 10).bind (fun r =>
            PutChar.draw K fuel r.2 font
              (PutChar.index K font (Int.toNat (c - (FontRead font K.FONT_FIRST_CHAR : Int))))
              (PutChar.width K font (Int.toNat (c - (FontRead font K.FONT_FIRST_CHAR : Int))))
              (FontRead font K.FONT_HEIGHT))
        else
          PutChar.draw K fuel g font
            (PutChar.index K font (Int.toNat (c - (FontRead font K.FONT_FIRST_CHAR : Int))))
            (PutChar.width K font (Int.toNat (c - (FontRead font K.FONT_FIRST_CHAR : Int))))
            (FontRead font K.FONT_HEIGHT) := by
  rw [PutChar]
  simp only [hF]
  rw [if_neg (by omega), if_neg (by omega)]
  split
  · cases PutChar K fuel g 10 <;> rfl
  · rfl

theorem PutChar.slices_tall_diverges (K : Config) (font : Nat → Nat)
    (fontColor index width x : Nat) :
    ∀ (fuel : Nat) (d : Device) (p : Nat), p % 8 = 0 → p < 256 →
      PutChar.slices K font fontColor index width 250 251 x 0 fuel d p = none := by
  intro fuel
  induction fuel with
  | zero => intro d p _ _; rfl
  | succ fuel ih =>
    intro d p h8 hp
    rw [PutChar.slices, if_pos (by omega)]
    simp only [and_seven]
    exact ih _ _ (by omega) (Nat.mod_lt _ (by norm_num))

theorem PutChar_tall_font_diverges (fuel : Nat) :
    PutChar ks0108 fuel (fullArea (some font5x250) 0 0 blank) 32 = none := by
  cases fuel with
  | zero => rfl
  | succ fuel =>
    rw [PutChar_drawable ks0108 fuel _ font5x250 32 rfl (by decide) (by decide) (by decide)]
    have hw : PutChar.width ks0108 font5x250
        (Int.toNat (32 - (FontRead font5x250 ks0108.FONT_FIRST_CHAR : Int))) = 5 := by decide
    have hh : FontRead font5x250 ks0108.FONT_HEIGHT = 250 := by decide
    rw [hw, hh, if_neg (by decide)]
    unfold PutChar.draw
    have := PutChar.slices_tall_diverges ks0108 font5x250
      (fullArea (some font5x250) 0 0 blank).FontColor
      (PutChar.index ks0108 font5x250
        (Int.toNat (32 - (FontRead font5x250 ks0108.FONT_FIRST_CHAR : Int)))) 5
      (fullArea (some font5x250) 0 0 blank).x fuel (fullArea (some font5x250) 0 0 blank).device 0
      (by decide) (by decide)
    simp only [show (250 + 1) % 256 = 251 by decide]
    rw [show (fullArea (some font5x250) 0 0 blank).y = 0 from rfl, this]

/-! ## Character output: the claims -/

/-- C8, the claim as stated refuted.  A font is selected and `' '` is in its
range, so `PutChar(' ')` is on neither failure path, yet it does not return 1:
with the font height 250 the slice counter `p` runs 0, 8, .., 248 and wraps
to 0 without reaching `pixels = 251`, so the call never returns, whatever the
fuel. -/
theorem PutChar_no_return_tall_font :
    (fullArea (some font5x250) 0 0 blank).Font = some font5x250
      ∧ (FontRead font5x250 ks0108.FONT_FIRST_CHAR : Int) ≤ 32
      ∧ (32 : Int) < (FontRead font5x250 ks0108.FONT_FIRST_CHAR : Int)
          + (FontRead font5x250 ks0108.FONT_CHAR_COUNT : Int)
      ∧ ∀ fuel, PutChar ks0108 fuel (fullArea (some font5x250) 0 0 blank) 32 = none :=
  ⟨rfl, by decide, by decide, PutChar_tall_font_diverges⟩

/-- C8, amended.  For a text area whose right column and bottom row are below
255 (as in every area inside a display of at most 255 columns and rows) and a
selected font of height at most 247, `PutChar(c)` returns (given fuel above
259); it returns 0 exactly when no font is selected, or `c >= 0x20` and `c`
lies outside `[firstChar, firstChar + charCount)`; in that case the whole state
is unchanged: cursor, area, device memory, and no device operation is logged;
in every other case it returns 1. -/
theorem PutChar_failure_paths (K : Config) (g : gText) (c : Int) (fuel : Nat)
    (hax2 : g.tarea.x2 < 255) (hay2 : g.tarea.y2 < 255)
    (hfont : ∀ f, g.Font = some f → FontRead f K.FONT_HEIGHT ≤ 247)
    (hf : 259 < fuel) :
    ∃ ret g1, PutChar K fuel g c = some (ret, g1)
      ∧ (ret = 0 ↔ (g.Font = none ∨ ∃ f, g.Font = some f ∧ 0x20 ≤ c
            ∧ (c < (FontRead f K.FONT_FIRST_CHAR : Int)
                ∨ (FontRead f K.FONT_FIRST_CHAR : Int) + (FontRead f K.FONT_CHAR_COUNT : Int) ≤ c)))
      ∧ (ret = 0 → g1 = g)
      ∧ (ret ≠ 0 → ret = 1) := by
  obtain ⟨n, rfl⟩ : ∃ n, fuel = n + 1 := ⟨fuel - 1, by omega⟩
  cases hF : g.Font with
  | none =>
    refine ⟨0, g, ?_, ?_, fun _ => rfl, fun h => absurd rfl h⟩
    · rw [PutChar]; simp only [hF]
    · simp
  | some f =>
    have hh := hfont f hF
    by_cases hc : c < 0x20
    · obtain ⟨g1, h1⟩ := SpecialChar_returns K n g f c hax2 hay2 (by omega)
      refine ⟨1, g1, ?_, ?_, fun h => absurd h (by decide), fun _ => rfl⟩
      · rw [PutChar_control K n g f c hF hc, h1]; rfl
      · constructor
        · intro h; exact absurd h (by decide)
        · rintro (h | ⟨f1, _, h20, _⟩)
          · exact absurd h (by simp)
          · omega
    · by_cases hr : c < (FontRead f K.FONT_FIRST_CHAR : Int)
          ∨ c ≥ (FontRead f K.FONT_FIRST_CHAR : Int) + (FontRead f K.FONT_CHAR_COUNT : Int)
      · refine ⟨0, g, ?_, ?_, fun _ => rfl, fun h => absurd rfl h⟩
        · rw [PutChar]; simp only [hF]
          rw [if_neg hc, if_pos hr]
        · constructor
          · intro _
            exact Or.inr ⟨f, rfl, by omega, hr⟩
          · intro _; rfl
      · have hiff : (1 = 0 ↔ (some f = none ∨ ∃ f1, some f = some f1 ∧ (0x20 : Int) ≤ c
            ∧ (c < (FontRead f1 K.FONT_FIRST_CHAR : Int)
                ∨ (FontRead f1 K.FONT_FIRST_CHAR : Int)
                    + (FontRead f1 K.FONT_CHAR_COUNT : Int) ≤ c))) := by
          constructor
          · intro h0; exact absurd h0 (by decide)
          · rintro (h0 | ⟨f1, hf1, _, hout⟩)
            · exact absurd h0 (by simp)
            · have : f = f1 := Option.some.inj hf1
              subst this
              exact absurd hout hr
        rw [PutChar_drawable K n g f c hF (by omega) (by omega) (by omega)]
        split
        · obtain ⟨m, rfl⟩ : ∃ m, n = m + 1 := ⟨n - 1, by omega⟩
          obtain ⟨g1, h1⟩ := SpecialChar_returns K m g f 10 hax2 hay2 (by omega)
          rw [PutChar_control K m g f 10 hF (by decide), h1]
          obtain ⟨d1, h2⟩ := PutChar.draw_returns K (m + 1) g1 f
            (PutChar.index K f (Int.toNat (c - (FontRead f K.FONT_FIRST_CHAR : Int))))
            (PutChar.width K f (Int.toNat (c - (FontRead f K.FONT_FIRST_CHAR : Int))))
            (FontRead f K.FONT_HEIGHT) hh (by omega)
          exact ⟨1, _, by simpa using h2, hiff, fun h => absurd h (by decide), fun _ => rfl⟩
        · obtain ⟨d1, h2⟩ := PutChar.draw_returns K n g f
            (PutChar.index K f (Int.toNat (c - (FontRead f K.FONT_FIRST_CHAR : Int))))
            (PutChar.width K f (Int.toNat (c - (FontRead f K.FONT_FIRST_CHAR : Int))))
            (FontRead f K.FONT_HEIGHT) hh (by omega)
          exact ⟨1, _, h2, hiff, fun h => absurd h (by decide), fun _ => rfl⟩


/-- The result theorem of `PutChar` applied to the 5 by 7 font and the
character `'a'`, which is outside the font's range. -/
theorem PutChar_failure_paths_witness :
    (fullArea (some font5x7) 0 0 blank).tarea.x2 < 255
      ∧ (fullArea (some font5x7) 0 0 blank).tarea.y2 < 255
      ∧ (∀ f, (fullArea (some font5x7) 0 0 blank).Font = some f →
          FontRead f ks0108.FONT_HEIGHT ≤ 247)
      ∧ 259 < 300
      ∧ ∃ ret g1, PutChar ks0108 300 (fullArea (some font5x7) 0 0 blank) 97 = some (ret, g1)
        ∧ (ret = 0 ↔ ((fullArea (some font5x7) 0 0 blank).Font = none
            ∨ ∃ f, (fullArea (some font5x7) 0 0 blank).Font = some f ∧ 0x20 ≤ (97 : Int)
              ∧ ((97 : Int) < (FontRead f ks0108.FONT_FIRST_CHAR : Int)
                  ∨ (FontRead f ks0108.FONT_FIRST_CHAR : Int)
                      + (FontRead f ks0108.FONT_CHAR_COUNT : Int) ≤ 97)))
        ∧ (ret = 0 → g1 = fullArea (some font5x7) 0 0 blank)
        ∧ (ret ≠ 0 → ret = 1) :=
  have hfont : ∀ f, (fullArea (some font5x7) 0 0 blank).Font = some f →
      FontRead f ks0108.FONT_HEIGHT ≤ 247 := by
    intro f h
    have : font5x7 = f := Option.some.inj h
    subst this
    decide
  ⟨by decide, by decide, hfont, by decide,
    PutChar_failure_paths ks0108 (fullArea (some font5x7) 0 0 blank) 97 300 (by decide)
      (by decide) hfont (by decide)⟩

/-- C9. Wrap boundary.  For a selected font and a drawable character (`c` at
least 0x20 and in the font's range) of glyph width `w`, `PutChar(c)` is: when
`x + w > areaX2`, one run of the newline logic `SpecialChar('\n')` followed by
the drawing of the glyph in the state the newline left; when `x + w <= areaX2`,
the drawing alone in the given state.  So `x + w = areaX2 + 1` wraps and
`x + w = areaX2` does not.  The nested call `PutChar('\n')` is that one run of
`SpecialChar` and nothing else: it returns 1 without drawing or calling
`PutChar` again.  Where the call returns (area ending below column and row
255, font height at most 247, fuel above 258), the cursor x ends at
`areaX1 + w + 1` after a wrap and at `x + w + 1` without one, modulo 256. -/
theorem PutChar_wrap_boundary (K : Config) (g : gText) (f : Nat → Nat) (c : Int) (fuel : Nat)
    (hF : g.Font = some f) (h20 : 0x20 ≤ c)
    (hlo : (FontRead f K.FONT_FIRST_CHAR : Int) ≤ c)
    (hhi : c < (FontRead f K.FONT_FIRST_CHAR : Int) + (FontRead f K.FONT_CHAR_COUNT : Int)) :
    PutChar K (fuel + 2) g c
        = (if g.x + PutChar.width K f (Int.toNat (c - (FontRead f K.FONT_FIRST_CHAR : Int)))
              > g.tarea.x2 then
            (SpecialChar K fuel g f 10).bind (fun g1 =>
              PutChar.draw K (fuel + 1) g1 f
                (PutChar.index K f (Int.toNat (c - (FontRead f K.FONT_FIRST_CHAR : Int))))
                (PutChar.width K f (Int.toNat (c - (FontRead f K.FONT_FIRST_CHAR : Int))))
                (FontRead f K.FONT_HEIGHT))
          else
            PutChar.draw K (fuel + 1) g f
              (PutChar.index K f (Int.toNat (c - (FontRead f K.FONT_FIRST_CHAR : Int))))
              (PutChar.width K f (Int.toNat (c - (FontRead f K.FONT_FIRST_CHAR : Int))))
              (FontRead f K.FONT_HEIGHT))
      ∧ PutChar K (fuel + 1) g 10 = (SpecialChar K fuel g f 10).map (fun g1 => (1, g1))
      ∧ (g.tarea.x2 < 255 → g.tarea.y2 < 255 → FontRead f K.FONT_HEIGHT ≤ 247 → 258 < fuel →
          ∃ g1, PutChar K (fuel + 2) g c = some (1, g1)
            ∧ g1.x = ((if g.x + PutChar.width K f
                              (Int.toNat (c - (FontRead f K.FONT_FIRST_CHAR : Int)))
                            > g.tarea.x2 then g.tarea.x1 else g.x)
                        + PutChar.width K f (Int.toNat (c - (FontRead f K.FONT_FIRST_CHAR : Int)))
                        + 1) % 256) := by
  have hnl := PutChar_control K fuel g f 10 hF (by decide)
  have heq : PutChar K (fuel + 2) g c
        = (if g.x + PutChar.width K f (Int.toNat (c - (FontRead f K.FONT_FIRST_CHAR : Int)))
              > g.tarea.x2 then
            (SpecialChar K fuel g f 10).bind (fun g1 =>
              PutChar.draw K (fuel + 1) g1 f
                (PutChar.index K f (Int.toNat (c - (FontRead f K.FONT_FIRST_CHAR : Int))))
                (PutChar.width K f (Int.toNat (c - (FontRead f K.FONT_FIRST_CHAR : Int))))
                (FontRead f K.FONT_HEIGHT))
          else
            PutChar.draw K (fuel + 1) g f
              (PutChar.index K f (Int.toNat (c - (FontRead f K.FONT_FIRST_CHAR : Int))))
              (PutChar.width K f (Int.toNat (c - (FontRead f K.FONT_FIRST_CHAR : Int))))
              (FontRead f K.FONT_HEIGHT)) := by
    rw [PutChar_drawable K (fuel + 1) g f c hF h20 hlo hhi, hnl]
    split
    · cases SpecialChar K fuel g f 10 <;> rfl
    · rfl
  refine ⟨heq, hnl, fun hax2 hay2 hh hf => ?_⟩
  rw [heq]
  by_cases hw : g.x + PutChar.width K f (Int.toNat (c - (FontRead f K.FONT_FIRST_CHAR : Int)))
      > g.tarea.x2
  · rw [if_pos hw, if_pos hw]
    obtain ⟨g0, h0⟩ := SpecialChar_returns K fuel g f 10 hax2 hay2 (by omega)
    obtain ⟨d1, h1⟩ := PutChar.draw_returns K (fuel + 1) g0 f
      (PutChar.index K f (Int.toNat (c - (FontRead f K.FONT_FIRST_CHAR : Int))))
      (PutChar.width K f (Int.toNat (c - (FontRead f K.FONT_FIRST_CHAR : Int))))
      (FontRead f K.FONT_HEIGHT) hh (by omega)
    rw [h0]
    refine ⟨_, h1, ?_⟩
    simp only [SpecialChar_newline_x K fuel g g0 f h0]
  · rw [if_neg hw, if_neg hw]
    obtain ⟨d1, h1⟩ := PutChar.draw_returns K (fuel + 1) g f
      (PutChar.index K f (Int.toNat (c - (FontRead f K.FONT_FIRST_CHAR : Int))))
      (PutChar.width K f (Int.toNat (c - (FontRead f K.FONT_FIRST_CHAR : Int))))
      (FontRead f K.FONT_HEIGHT) hh (by omega)
    exact ⟨_, h1, rfl⟩

/-- The wrap theorem applied to `'A'` with the cursor at column 123 of the
full-display area, where `x + w = areaX2 + 1`. -/
theorem PutChar_wrap_boundary_witness :
    (fullArea (some font5x7) 123 0 blank).Font = some font5x7 ∧ (0x20 : Int) ≤ 65
      ∧ (FontRead font5x7 ks0108.FONT_FIRST_CHAR : Int) ≤ 65
      ∧ (65 : Int) < (FontRead font5x7 ks0108.FONT_FIRST_CHAR : Int)
          + (FontRead font5x7 ks0108.FONT_CHAR_COUNT : Int)
      ∧ (fullArea (some font5x7) 123 0 blank).x
          + PutChar.width ks0108 font5x7
              (Int.toNat (65 - (FontRead font5x7 ks0108.FONT_FIRST_CHAR : Int)))
          = (fullArea (some font5x7) 123 0 blank).tarea.x2 + 1
      ∧ ∃ g1, PutChar ks0108 (300 + 2) (fullArea (some font5x7) 123 0 blank) 65 = some (1, g1)
          ∧ g1.x = ((if (fullArea (some font5x7) 123 0 blank).x
                          + PutChar.width ks0108 font5x7
                              (Int.toNat (65 - (FontRead font5x7 ks0108.FONT_FIRST_CHAR : Int)))
                          > (fullArea (some font5x7) 123 0 blank).tarea.x2
                        then (fullArea (some font5x7) 123 0 blank).tarea.x1
                        else (fullArea (some font5x7) 123 0 blank).x)
                      + PutChar.width ks0108 font5x7
                          (Int.toNat (65 - (FontRead font5x7 ks0108.FONT_FIRST_CHAR : Int)))
                      + 1) % 256 :=
  ⟨rfl, by decide, by decide, by decide, by decide,
    (PutChar_wrap_boundary ks0108 (fullArea (some font5x7) 123 0 blank) font5x7 65 300 rfl
      (by decide) (by decide) (by decide)).2.2 (by decide) (by decide) (by decide) (by decide)⟩

/-- C10, the claim as stated refuted, at two inputs.  First, the range of
`font5x7ctl` contains the newline code 10 and the glyph would fit
(`0 + 5 <= 127`), yet `PutChar(10)` takes the control character path: it
returns 1 with the cursor at `(0, 8)`, not at `(0 + 5 + 1, 0)`.  Second, `' '`
is in the range of `font5x250` and fits, yet `PutChar(' ')` never returns. -/
theorem PutChar_control_code_in_range :
    ((FontRead font5x7ctl ks0108.FONT_FIRST_CHAR : Int) ≤ 10
      ∧ (10 : Int) < (FontRead font5x7ctl ks0108.FONT_FIRST_CHAR : Int)
          + (FontRead font5x7ctl ks0108.FONT_CHAR_COUNT : Int)
      ∧ (fullArea (some font5x7ctl) 0 0 blank).x
          + PutChar.width ks0108 font5x7ctl
              (Int.toNat (10 - (FontRead font5x7ctl ks0108.FONT_FIRST_CHAR : Int)))
          ≤ (fullArea (some font5x7ctl) 0 0 blank).tarea.x2
      ∧ (PutChar ks0108 300 (fullArea (some font5x7ctl) 0 0 blank) 10).map
          (fun r => (r.1, r.2.x, r.2.y)) = some (1, 0, 8))
    ∧ ((FontRead font5x250 ks0108.FONT_FIRST_CHAR : Int) ≤ 32
      ∧ (32 : Int) < (FontRead font5x250 ks0108.FONT_FIRST_CHAR : Int)
          + (FontRead font5x250 ks0108.FONT_CHAR_COUNT : Int)
      ∧ (fullArea (some font5x250) 0 0 blank).x
          + PutChar.width ks0108 font5x250
              (Int.toNat (32 - (FontRead font5x250 ks0108.FONT_FIRST_CHAR : Int)))
          ≤ (fullArea (some font5x250) 0 0 blank).tarea.x2
      ∧ ∀ fuel, (PutChar ks0108 fuel (fullArea (some font5x250) 0 0 blank) 32).isSome = false) :=
  ⟨⟨by decide, by decide, by decide, by decide⟩,
    ⟨by decide, by decide, by decide, fun fuel => by rw [PutChar_tall_font_diverges]; rfl⟩⟩

/-- C10, amended.  For a selected font of height at most 247 and a character
`c >= 0x20` in the font's range with `x + width(c) <= areaX2` (no wrap),
`PutChar(c)` returns 1 (given fuel above 249), leaves the cursor y unchanged
and sets the cursor x to `x + width(c) + 1` modulo 256, where `width(c)` is the
fixed width of a fixed-width font and the entry of `c` in the width table of a
variable-width font; the advance `width(c) + 1` modulo 256 is `CharWidth(c)`. -/
theorem PutChar_cursor_advance (K : Config) (g : gText) (f : Nat → Nat) (c : Int) (fuel : Nat)
    (hF : g.Font = some f) (h20 : 0x20 ≤ c)
    (hlo : (FontRead f K.FONT_FIRST_CHAR : Int) ≤ c)
    (hhi : c < (FontRead f K.FONT_FIRST_CHAR : Int) + (FontRead f K.FONT_CHAR_COUNT : Int))
    (hfit : g.x + PutChar.width K f (Int.toNat (c - (FontRead f K.FONT_FIRST_CHAR : Int)))
      ≤ g.tarea.x2)
    (hh : FontRead f K.FONT_HEIGHT ≤ 247) (hf : 249 < fuel) :
    ∃ g1, PutChar K fuel g c = some (1, g1)
      ∧ g1.y = g.y
      ∧ g1.x = (g.x + PutChar.width K f (Int.toNat (c - (FontRead f K.FONT_FIRST_CHAR : Int)))
                  + 1) % 256
      ∧ PutChar.width K f (Int.toNat (c - (FontRead f K.FONT_FIRST_CHAR : Int)))
          = (if K.isFixedWidtFont f then FontRead f K.FONT_FIXED_WIDTH
             else FontRead f (K.FONT_WIDTH_TABLE
                    + Int.toNat (c - (FontRead f K.FONT_FIRST_CHAR : Int))))
      ∧ CharWidth K f c
          = (PutChar.width K f (Int.toNat (c - (FontRead f K.FONT_FIRST_CHAR : Int))) + 1) % 256
      ∧ g1.x = (g.x + CharWidth K f c) % 256 := by
  obtain ⟨n, rfl⟩ : ∃ n, fuel = n + 1 := ⟨fuel - 1, by omega⟩
  have hcw : CharWidth K f c
      = (PutChar.width K f (Int.toNat (c - (FontRead f K.FONT_FIRST_CHAR : Int))) + 1) % 256 := by
    unfold CharWidth PutChar.width
    by_cases hfx : K.isFixedWidtFont f = true
    · simp only [hfx, if_true]
    · simp only [hfx, Bool.false_eq_true, if_false]
      rw [if_pos ⟨by omega, hhi⟩]
  obtain ⟨d1, h2⟩ := PutChar.draw_returns K n g f
    (PutChar.index K f (Int.toNat (c - (FontRead f K.FONT_FIRST_CHAR : Int))))
    (PutChar.width K f (Int.toNat (c - (FontRead f K.FONT_FIRST_CHAR : Int))))
    (FontRead f K.FONT_HEIGHT) hh (by omega)
  refine ⟨{ g with
      device := d1
      x := (g.x + PutChar.width K f (Int.toNat (c - (FontRead f K.FONT_FIRST_CHAR : Int))) + 1)
            % 256 }, ?_, rfl, rfl, rfl, hcw, ?_⟩
  · rw [PutChar_drawable K n g f c hF h20 hlo hhi, if_neg (by omega)]
    exact h2
  · rw [hcw]
    show (g.x + _ + 1) % 256 = _
    omega

/-- The cursor advance theorem applied to `'A'` in the 5 by 7 font with the
cursor at `(40, 16)`. -/
theorem PutChar_cursor_advance_witness :
    (fullArea (some font5x7) 40 16 blank).Font = some font5x7 ∧ (0x20 : Int) ≤ 65
      ∧ (FontRead font5x7 ks0108.FONT_FIRST_CHAR : Int) ≤ 65
      ∧ (65 : Int) < (FontRead font5x7 ks0108.FONT_FIRST_CHAR : Int)
          + (FontRead font5x7 ks0108.FONT_CHAR_COUNT : Int)
      ∧ (fullArea (some font5x7) 40 16 blank).x
          + PutChar.width ks0108 font5x7
              (Int.toNat (65 - (FontRead font5x7 ks0108.FONT_FIRST_CHAR : Int)))
          ≤ (fullArea (some font5x7) 40 16 blank).tarea.x2
      ∧ FontRead font5x7 ks0108.FONT_HEIGHT ≤ 247 ∧ 249 < 300
      ∧ ∃ g1, PutChar ks0108 300 (fullArea (some font5x7) 40 16 blank) 65 = some (1, g1)
        ∧ g1.y = (fullArea (some font5x7) 40 16 blank).y
        ∧ g1.x = ((fullArea (some font5x7) 40 16 blank).x
                    + PutChar.width ks0108 font5x7
                        (Int.toNat (65 - (FontRead font5x7 ks0108.FONT_FIRST_CHAR : Int)))
                    + 1) % 256
        ∧ PutChar.width ks0108 font5x7
              (Int.toNat (65 - (FontRead font5x7 ks0108.FONT_FIRST_CHAR : Int)))
            = (if ks0108.isFixedWidtFont font5x7 then FontRead font5x7 ks0108.FONT_FIXED_WIDTH
               else FontRead font5x7 (ks0108.FONT_WIDTH_TABLE
                      + Int.toNat (65 - (FontRead font5x7 ks0108.FONT_FIRST_CHAR : Int))))
        ∧ CharWidth ks0108 font5x7 65
            = (PutChar.width ks0108 font5x7
                (Int.toNat (65 - (FontRead font5x7 ks0108.FONT_FIRST_CHAR : Int))) + 1) % 256
        ∧ g1.x = ((fullArea (some font5x7) 40 16 blank).x + CharWidth ks0108 font5x7 65) % 256 :=
  ⟨rfl, by decide, by decide, by decide, by decide, by decide, by decide,
    PutChar_cursor_advance ks0108 (fullArea (some font5x7) 40 16 blank) font5x7 65 300 rfl
      (by decide) (by decide) (by decide) (by decide) (by decide) (by decide)⟩

/-! ## Scroll round trip, cursor movement, metrics and clearing: the claims -/

/-- C11. Scroll round trip.  On a display of at most 255 columns and rows, for
every rectangle with `x1 <= x2 < DISPLAY_WIDTH` and `y2 < DISPLAY_HEIGHT`, every
`N`, fill colour and memory content: `ScrollUp` by `N` followed by `ScrollDown`
by `N` leaves the rows from `y1 + N` of the rectangle at their original content
and the rows above them in the fill colour; `ScrollDown` followed by `ScrollUp`
leaves the rows up to `y2 - N` at their original content and the rows below
them in the fill colour; every pixel outside the rectangle is as before. -/
theorem Scroll_round_trip (K : Config) (d : Device) (x1 y1 x2 y2 N color fuel : Nat)
    (hW : K.DISPLAY_WIDTH ≤ 255) (hH : K.DISPLAY_HEIGHT ≤ 255)
    (hx : x1 ≤ x2) (hx2 : x2 < K.DISPLAY_WIDTH) (hy2 : y2 < K.DISPLAY_HEIGHT)
    (hf : 256 < fuel) :
    (∃ d1 d2, ScrollUp K fuel d x1 y1 x2 y2 N color = some d1
      ∧ ScrollDown K fuel d1 x1 y1 x2 y2 N color = some d2
      ∧ ∀ c r, pixel d2 c r
          = if x1 ≤ c ∧ c ≤ x2 ∧ y1 ≤ r ∧ r ≤ y2 then
              (if y1 + N ≤ r then pixel d c r else decide (color = K.BLACK))
            else pixel d c r)
    ∧ (∃ d1 d2, ScrollDown K fuel d x1 y1 x2 y2 N color = some d1
      ∧ ScrollUp K fuel d1 x1 y1 x2 y2 N color = some d2
      ∧ ∀ c r, pixel d2 c r
          = if x1 ≤ c ∧ c ≤ x2 ∧ y1 ≤ r ∧ r ≤ y2 then
              (if r + N ≤ y2 then pixel d c r else decide (color = K.BLACK))
            else pixel d c r) := by
  constructor
  · obtain ⟨d1, h1, p1⟩ := ScrollUp_spec K d x1 y1 x2 y2 N color fuel hx (by omega) hy2
      (by omega) hf
    obtain ⟨d2, h2, p2⟩ := ScrollDown_spec K d1 x1 y1 x2 y2 N color fuel hx (by omega)
      (by omega) hf
    refine ⟨d1, d2, h1, h2, fun c r => ?_⟩
    rw [p2]
    by_cases hc : x1 ≤ c ∧ c ≤ x2
    · rw [if_pos hc]
      by_cases hr : y1 ≤ r ∧ r ≤ y2
      · rw [if_pos ⟨hc.1, hc.2, hr.1, hr.2⟩]
        simp only [downTarget, if_pos hr]
        by_cases hN : y1 + N ≤ r
        · rw [if_pos hN, if_pos hN, p1, if_pos hc]
          simp only [upTarget, if_pos (show y1 ≤ r - N ∧ r - N ≤ y2 by omega),
            if_pos (show r - N + N ≤ y2 by omega)]
          rw [show r - N + N = r by omega]
        · rw [if_neg hN, if_neg hN]
      · rw [if_neg (fun hh => hr ⟨hh.2.2.1, hh.2.2.2⟩)]
        simp only [downTarget, if_neg hr]
        rw [p1, if_pos hc]
        simp only [upTarget, if_neg hr]
    · rw [if_neg hc, if_neg (fun hh => hc ⟨hh.1, hh.2.1⟩), p1, if_neg hc]
  · obtain ⟨d1, h1, p1⟩ := ScrollDown_spec K d x1 y1 x2 y2 N color fuel hx (by omega)
      (by omega) hf
    obtain ⟨d2, h2, p2⟩ := ScrollUp_spec K d1 x1 y1 x2 y2 N color fuel hx (by omega) hy2
      (by omega) hf
    refine ⟨d1, d2, h1, h2, fun c r => ?_⟩
    rw [p2]
    by_cases hc : x1 ≤ c ∧ c ≤ x2
    · rw [if_pos hc]
      by_cases hr : y1 ≤ r ∧ r ≤ y2
      · rw [if_pos ⟨hc.1, hc.2, hr.1, hr.2⟩]
        simp only [upTarget, if_pos hr]
        by_cases hN : r + N ≤ y2
        · rw [if_pos hN, if_pos hN, p1, if_pos hc]
          simp only [downTarget, if_pos (show y1 ≤ r + N ∧ r + N ≤ y2 by omega),
            if_pos (show y1 + N ≤ r + N by omega)]
          rw [show r + N - N = r by omega]
        · rw [if_neg hN, if_neg hN]
      · rw [if_neg (fun hh => hr ⟨hh.2.2.1, hh.2.2.2⟩)]
        simp only [upTarget, if_neg hr]
        rw [p1, if_pos hc]
        simp only [downTarget, if_neg hr]
    · rw [if_neg hc, if_neg (fun hh => hc ⟨hh.1, hh.2.1⟩), p1, if_neg hc]

/-- The round trip theorem applied to a rectangle of the speckled display. -/
theorem Scroll_round_trip_witness :
    ks0108.DISPLAY_WIDTH ≤ 255 ∧ ks0108.DISPLAY_HEIGHT ≤ 255 ∧ 2 ≤ 4 ∧ 4 < ks0108.DISPLAY_WIDTH
      ∧ 20 < ks0108.DISPLAY_HEIGHT ∧ 256 < 300 ∧
      (∃ d1 d2, ScrollUp ks0108 300 speckled 2 3 4 20 5 0 = some d1
        ∧ ScrollDown ks0108 300 d1 2 3 4 20 5 0 = some d2
        ∧ ∀ c r, pixel d2 c r
            = if 2 ≤ c ∧ c ≤ 4 ∧ 3 ≤ r ∧ r ≤ 20 then
                (if 3 + 5 ≤ r then pixel speckled c r else decide (0 = ks0108.BLACK))
              else pixel speckled c r)
      ∧ (∃ d1 d2, ScrollDown ks0108 300 speckled 2 3 4 20 5 0 = some d1
        ∧ ScrollUp ks0108 300 d1 2 3 4 20 5 0 = some d2
        ∧ ∀ c r, pixel d2 c r
            = if 2 ≤ c ∧ c ≤ 4 ∧ 3 ≤ r ∧ r ≤ 20 then
                (if r + 5 ≤ 20 then pixel speckled c r else decide (0 = ks0108.BLACK))
              else pixel speckled c r) :=
  ⟨by decide, by decide, by decide, by decide, by decide, by decide,
    Scroll_round_trip ks0108 speckled 2 3 4 20 5 0 300 (by decide) (by decide) (by decide)
      (by decide) (by decide) (by decide)⟩

/-- C14, evaluated at a failing input.  In the area `(10, 8, 100, 40)` with
the cursor at its corner `(10, 8)`, `EraseTextLine` of any type leaves the
cursor at `(20, 16)`: line 1221 restores the saved absolute position through
`CursorToXY`, which adds the area origin to it. -/
theorem EraseTextLine_moves_cursor :
    ((EraseTextLine ks0108 (areaAt 10 8 100 40 (some font5x7) 10 8 blank) font5x7
        eraseLine_t.eraseTO_EOL).x,
      (EraseTextLine ks0108 (areaAt 10 8 100 40 (some font5x7) 10 8 blank) font5x7
        eraseLine_t.eraseTO_EOL).y) = (20, 16)
    ∧ ((EraseTextLine ks0108 (areaAt 10 8 100 40 (some font5x7) 10 8 blank) font5x7
        eraseLine_t.eraseFROM_BOL).x,
      (EraseTextLine ks0108 (areaAt 10 8 100 40 (some font5x7) 10 8 blank) font5x7
        eraseLine_t.eraseFROM_BOL).y) = (20, 16)
    ∧ ((EraseTextLine ks0108 (areaAt 10 8 100 40 (some font5x7) 10 8 blank) font5x7
        eraseLine_t.eraseFULL_LINE).x,
      (EraseTextLine ks0108 (areaAt 10 8 100 40 (some font5x7) 10 8 blank) font5x7
        eraseLine_t.eraseFULL_LINE).y) = (20, 16) := by
  decide

/-- C15, evaluated at a failing input.  With the 5 by 7 font selected and the
cursor at column 50, `CursorTo(-1)` puts the cursor at column 56, one cell
forward, not at column 44: line 1152 subtracts the negative product.  The row is
unchanged, and for a column that is not negative the result is
`areaX1 + column * (fixedWidth + 1)` as claimed. -/
theorem CursorTo_negative_moves_forward :
    (CursorTo.col ks0108 (areaAt 0 0 127 63 (some font5x7) 50 16 blank) (-1)).x = 56
    ∧ (CursorTo.col ks0108 (areaAt 0 0 127 63 (some font5x7) 50 16 blank) (-1)).y = 16
    ∧ (CursorTo.col ks0108 (areaAt 4 0 127 63 (some font5x7) 50 16 blank) 3).x = 4 + 3 * (5 + 1) := by
  decide

/-- C16. `CharWidth(c)`: for a fixed-width font it is `fixedWidth + 1` for
every `c`; for a variable-width font it is the width table entry of `c` plus 1
when `firstChar <= c < firstChar + charCount` and 0 otherwise; the sums are
taken modulo 256. -/
theorem CharWidth_spec (K : Config) (font : Nat → Nat) (c : Int) :
    (K.isFixedWidtFont font = true →
      CharWidth K font c = (FontRead font K.FONT_FIXED_WIDTH + 1) % 256)
    ∧ (K.isFixedWidtFont font = false →
        (FontRead font K.FONT_FIRST_CHAR : Int) ≤ c →
        c < (FontRead font K.FONT_FIRST_CHAR : Int) + (FontRead font K.FONT_CHAR_COUNT : Int) →
        CharWidth K font c
          = (FontRead font (K.FONT_WIDTH_TABLE
              + Int.toNat (c - (FontRead font K.FONT_FIRST_CHAR : Int))) + 1) % 256)
    ∧ (K.isFixedWidtFont font = false →
        (c < (FontRead font K.FONT_FIRST_CHAR : Int)
          ∨ (FontRead font K.FONT_FIRST_CHAR : Int) + (FontRead font K.FONT_CHAR_COUNT : Int) ≤ c) →
        CharWidth K font c = 0) := by
  refine ⟨fun h => ?_, fun h hlo hhi => ?_, fun h hout => ?_⟩
  · simp [CharWidth, h]
  · unfold CharWidth
    simp only [h, Bool.false_eq_true, if_false]
    rw [if_pos ⟨hlo, hhi⟩]
  · unfold CharWidth
    simp only [h, Bool.false_eq_true, if_false]
    rw [if_neg (by omega)]

theorem mkByte_congr (f g : Nat → Bool) (n : Nat) (h : ∀ i, i < n → f i = g i) :
    mkByte f n = mkByte g n := by
  induction n with
  | zero => rfl
  | succ n ih =>
    simp only [mkByte]
    rw [ih (fun i hi => h i (Nat.lt_succ_of_lt hi)), h n (Nat.lt_succ_self n)]

/-- Two fills of the same rectangle with the same colour store the same bytes
as one. -/
theorem SetPixels_twice_mem (K : Config) (d : Device) (x1 y1 x2 y2 color : Nat) :
    (SetPixels K (SetPixels K d x1 y1 x2 y2 color) x1 y1 x2 y2 color).mem
      = (SetPixels K d x1 y1 x2 y2 color).mem := by
  funext c p
  simp only [SetPixels]
  apply mkByte_congr
  intro i hi
  rw [testBit_mkByte]
  by_cases h : x1 ≤ c ∧ c ≤ x2 ∧ y1 ≤ 8 * p + i ∧ 8 * p + i ≤ y2
  · simp [h]
  · simp [h, hi]

/-- C18. `ClearArea` is idempotent.  For every area (its corner coordinates
being `uint8_t` values), font colour, cursor and memory content, calling
`ClearArea()` twice yields the same device memory and the same cursor as
calling it once; after it every pixel of the area rectangle has the
background colour `FontColor == BLACK ? WHITE : BLACK` (set exactly when that
colour is `BLACK`; with `BLACK` and `WHITE` distinct, set exactly when the font
colour is not `BLACK`), every pixel outside is unchanged and the cursor is at
`(areaX1, areaY1)`. -/
theorem ClearArea_idempotent (K : Config) (g : gText)
    (hx1 : g.tarea.x1 < 256) (hy1 : g.tarea.y1 < 256) :
    (ClearArea K (ClearArea K g)).device.mem = (ClearArea K g).device.mem
      ∧ (ClearArea K (ClearArea K g)).x = (ClearArea K g).x
      ∧ (ClearArea K (ClearArea K g)).y = (ClearArea K g).y
      ∧ (∀ c r, g.tarea.x1 ≤ c → c ≤ g.tarea.x2 → g.tarea.y1 ≤ r → r ≤ g.tarea.y2 →
          pixel (ClearArea K g).device c r = decide (bgColor K g.FontColor = K.BLACK)
          ∧ (K.BLACK ≠ K.WHITE →
              pixel (ClearArea K g).device c r = decide (g.FontColor ≠ K.BLACK)))
      ∧ (∀ c r, (c < g.tarea.x1 ∨ g.tarea.x2 < c ∨ r < g.tarea.y1 ∨ g.tarea.y2 < r) →
          pixel (ClearArea K g).device c r = pixel g.device c r)
      ∧ (ClearArea K g).x = g.tarea.x1 ∧ (ClearArea K g).y = g.tarea.y1 := by
  have hx : (g.tarea.x1 + 0) % 256 = g.tarea.x1 := by omega
  have hy : (g.tarea.y1 + 0) % 256 = g.tarea.y1 := by omega
  refine ⟨?_, ?_, ?_, ?_, ?_, hx, hy⟩
  · exact SetPixels_twice_mem K g.device g.tarea.x1 g.tarea.y1 g.tarea.x2 g.tarea.y2
      (bgColor K g.FontColor)
  · rfl
  · rfl
  · intro c r h1 h2 h3 h4
    have hp : pixel (ClearArea K g).device c r = decide (bgColor K g.FontColor = K.BLACK) := by
      show pixel (SetPixels K g.device g.tarea.x1 g.tarea.y1 g.tarea.x2 g.tarea.y2
        (bgColor K g.FontColor)) c r = _
      rw [pixel_SetPixels, if_pos ⟨h1, h2, h3, h4⟩]
    refine ⟨hp, fun hbw => ?_⟩
    rw [hp]
    unfold bgColor
    by_cases hfc : g.FontColor = K.BLACK
    · have hwb : ¬ K.WHITE = K.BLACK := fun e => hbw e.symm
      simp [hfc, hwb]
    · simp [hfc]
  · intro c r hout
    show pixel (SetPixels K g.device g.tarea.x1 g.tarea.y1 g.tarea.x2 g.tarea.y2
      (bgColor K g.FontColor)) c r = _
    rw [pixel_SetPixels, if_neg (by omega)]

/-- The idempotence theorem applied to the area `(10, 8, 100, 40)` of the
speckled display. -/
theorem ClearArea_idempotent_witness :
    (areaAt 10 8 100 40 none 30 20 speckled).tarea.x1 < 256
      ∧ (areaAt 10 8 100 40 none 30 20 speckled).tarea.y1 < 256
      ∧ (ClearArea ks0108 (ClearArea ks0108 (areaAt 10 8 100 40 none 30 20 speckled))).device.mem
          = (ClearArea ks0108 (areaAt 10 8 100 40 none 30 20 speckled)).device.mem
      ∧ (ClearArea ks0108 (areaAt 10 8 100 40 none 30 20 speckled)).x = 10
      ∧ (ClearArea ks0108 (areaAt 10 8 100 40 none 30 20 speckled)).y = 8 :=
  have h := ClearArea_idempotent ks0108 (areaAt 10 8 100 40 none 30 20 speckled)
    (by decide) (by decide)
  ⟨by decide, by decide, h.1, h.2.2.2.2.2.1, h.2.2.2.2.2.2⟩

/-! ## Newline in scroll-up mode -/

/-- `SpecialChar('\\n')` in scroll-up mode, lines 503-577, in one piece: the
erase to the end of the line, then the scroll and the cursor on the last line
when `y + 2h >= areaY2`, the cursor one line down otherwise. -/
theorem SpecialChar_newline_up (K : Config) (fuel : Nat) (g : gText) (f : Nat → Nat)
    (hmode : g.tarea.mode = textMode.SCROLL_UP) :
    SpecialChar K fuel g f 10
      = if g.y + 2 * FontRead f K.FONT_HEIGHT ≥ g.tarea.y2 then
          (ScrollUp K fuel
            (if g.x < g.tarea.x2 then SetPixels K g.device g.x g.y g.tarea.x2
              ((g.y + FontRead f K.FONT_HEIGHT) % 256) (bgColor K g.FontColor) else g.device)
            g.tarea.x1 g.tarea.y1 g.tarea.x2 g.tarea.y2
            ((2 * FontRead f K.FONT_HEIGHT + g.y - g.tarea.y2 + 1) % 256)
            (bgColor K g.FontColor)).map
            (fun d2 => { g with device := d2, x := g.tarea.x1,
                                y := (g.tarea.y2 + 256 - FontRead f K.FONT_HEIGHT) % 256 })
        else
          some { g with
            device := (if g.x < g.tarea.x2 then SetPixels K g.device g.x g.y g.tarea.x2
              ((g.y + FontRead f K.FONT_HEIGHT) % 256) (bgColor K g.FontColor) else g.device)
            x := g.tarea.x1, y := (g.y + FontRead f K.FONT_HEIGHT + 1) % 256 } := by
  unfold SpecialChar
  rw [if_pos rfl]
  simp only [hmode]
  split
  · cases ScrollUp K fuel
      (if g.x < g.tarea.x2 then SetPixels K g.device g.x g.y g.tarea.x2
        ((g.y + FontRead f K.FONT_HEIGHT) % 256) (bgColor K g.FontColor) else g.device)
      g.tarea.x1 g.tarea.y1 g.tarea.x2 g.tarea.y2
      ((2 * FontRead f K.FONT_HEIGHT + g.y - g.tarea.y2 + 1) % 256)
      (bgColor K g.FontColor) <;> rfl
  · rfl

/-- `ScrollUp_spec` with the rectangle test in one piece. -/
theorem ScrollUp_area (K : Config) (d : Device) (x1 y1 x2 y2 N color fuel : Nat)
    (hx : x1 ≤ x2) (hy2 : y2 < 255) (hH : y2 < K.DISPLAY_HEIGHT) (hx2 : x2 < 255)
    (hf : 256 < fuel) :
    ∃ d1, ScrollUp K fuel d x1 y1 x2 y2 N color = some d1
      ∧ ∀ c r, pixel d1 c r
          = if x1 ≤ c ∧ c ≤ x2 ∧ y1 ≤ r ∧ r ≤ y2 then
              (if r + N ≤ y2 then pixel d c (r + N) else decide (color = K.BLACK))
            else pixel d c r := by
  obtain ⟨d1, h1, h2⟩ := ScrollUp_spec K d x1 y1 x2 y2 N color fuel hx hy2 hH hx2 hf
  refine ⟨d1, h1, fun c r => ?_⟩
  rw [h2]
  by_cases hc : x1 ≤ c ∧ c ≤ x2
  · rw [if_pos hc]
    by_cases hr : y1 ≤ r ∧ r ≤ y2
    · rw [if_pos ⟨hc.1, hc.2, hr.1, hr.2⟩]
      simp only [upTarget, if_pos hr]
    · rw [if_neg (fun hh => hr ⟨hh.2.2.1, hh.2.2.2⟩)]
      simp only [upTarget, if_neg hr]
  · rw [if_neg hc, if_neg (fun hh => hc ⟨hh.1, hh.2.1⟩)]

/-- C20, the claim as stated refuted.  Font height 128, area `(0, 0, 3, 63)` of
the 128 by 64 display, cursor at `(0, 62)` inside it: `y + 2h >= areaY2` and
`N = y + 2h + 1 - areaY2 = 256`, which is at least the area height, so a scroll
by `N` would leave the whole area in the background colour (clear).  The code
stores `N` in a `uint8_t`, scrolls by 0 and leaves pixel `(0, 0)` set; the
cursor row `areaY2 - h` wraps to 191. -/
theorem SpecialChar_scroll_count_wraps :
    (areaAt 0 0 3 63 (some font5x128) 0 62 speckled).tarea.mode = textMode.SCROLL_UP
      ∧ FontRead font5x128 ks0108.FONT_HEIGHT = 128
      ∧ 62 + 2 * 128 ≥ 63 ∧ 62 + 2 * 128 + 1 - 63 = 256
      ∧ decide (bgColor ks0108 (areaAt 0 0 3 63 (some font5x128) 0 62 speckled).FontColor
          = ks0108.BLACK) = false
      ∧ (SpecialChar ks0108 300 (areaAt 0 0 3 63 (some font5x128) 0 62 speckled) font5x128 10).map
          (fun g => (g.x, g.y, pixel g.device 0 0)) = some (0, 191, true) := by
  decide

/-- C20, amended.  Newline in scroll-up mode, for an area inside a display of
at most 255 columns and rows, a font height `h <= areaY2` and a cursor row with
`y + 2h + 1 - areaY2 <= 255`.  First the rest of the current line (columns
`x..areaX2`, rows `y..y+h`) is erased to the background colour when
`x < areaX2`.  Then, if `y + 2h >= areaY2`, `ScrollUp` is called on the whole
area with exactly `N = y + 2h + 1 - areaY2` pixels and the background colour
as fill: every pixel of the area becomes the pixel `N` rows below it, or the
background colour where that row is past `areaY2`, and pixels outside are
untouched; the cursor becomes `(areaX1, areaY2 - h)`, which is
`(areaX1, y + h + 1 - N)`.  Otherwise no scroll is performed and the cursor
becomes `(areaX1, y + h + 1)`. -/
theorem SpecialChar_scroll_up (K : Config) (g : gText) (f : Nat → Nat) (fuel : Nat)
    (hmode : g.tarea.mode = textMode.SCROLL_UP)
    (hW : K.DISPLAY_WIDTH ≤ 255) (hH : K.DISPLAY_HEIGHT ≤ 255)
    (hax : g.tarea.x1 ≤ g.tarea.x2) (hax2 : g.tarea.x2 < K.DISPLAY_WIDTH)
    (hay2 : g.tarea.y2 < K.DISPLAY_HEIGHT)
    (hh : FontRead f K.FONT_HEIGHT ≤ g.tarea.y2)
    (hN : g.y + 2 * FontRead f K.FONT_HEIGHT + 1 - g.tarea.y2 ≤ 255)
    (hf : 256 < fuel) :
    (g.y + 2 * FontRead f K.FONT_HEIGHT ≥ g.tarea.y2 →
      ∃ d2, ScrollUp K fuel
            (if g.x < g.tarea.x2 then SetPixels K g.device g.x g.y g.tarea.x2
              ((g.y + FontRead f K.FONT_HEIGHT) % 256) (bgColor K g.FontColor) else g.device)
            g.tarea.x1 g.tarea.y1 g.tarea.x2 g.tarea.y2
            (g.y + 2 * FontRead f K.FONT_HEIGHT + 1 - g.tarea.y2) (bgColor K g.FontColor)
          = some d2
        ∧ SpecialChar K fuel g f 10
          = some { g with device := d2, x := g.tarea.x1,
                          y := g.tarea.y2 - FontRead f K.FONT_HEIGHT }
        ∧ g.tarea.y2 - FontRead f K.FONT_HEIGHT
          = g.y + FontRead f K.FONT_HEIGHT + 1
              - (g.y + 2 * FontRead f K.FONT_HEIGHT + 1 - g.tarea.y2)
        ∧ ∀ c r, pixel d2 c r
          = if g.tarea.x1 ≤ c ∧ c ≤ g.tarea.x2 ∧ g.tarea.y1 ≤ r ∧ r ≤ g.tarea.y2 then
              (if r + (g.y + 2 * FontRead f K.FONT_HEIGHT + 1 - g.tarea.y2) ≤ g.tarea.y2 then
                pixel (if g.x < g.tarea.x2 then SetPixels K g.device g.x g.y g.tarea.x2
                    ((g.y + FontRead f K.FONT_HEIGHT) % 256) (bgColor K g.FontColor)
                  else g.device) c (r + (g.y + 2 * FontRead f K.FONT_HEIGHT + 1 - g.tarea.y2))
              else decide (bgColor K g.FontColor = K.BLACK))
            else
              pixel (if g.x < g.tarea.x2 then SetPixels K g.device g.x g.y g.tarea.x2
                  ((g.y + FontRead f K.FONT_HEIGHT) % 256) (bgColor K g.FontColor)
                else g.device) c r)
    ∧ (g.y + 2 * FontRead f K.FONT_HEIGHT < g.tarea.y2 →
        SpecialChar K fuel g f 10
          = some { g with
              device := (if g.x < g.tarea.x2 then SetPixels K g.device g.x g.y g.tarea.x2
                ((g.y + FontRead f K.FONT_HEIGHT) % 256) (bgColor K g.FontColor) else g.device)
              x := g.tarea.x1, y := g.y + FontRead f K.FONT_HEIGHT + 1 }) := by
  constructor
  · intro hs
    have hpix : (2 * FontRead f K.FONT_HEIGHT + g.y - g.tarea.y2 + 1) % 256
        = g.y + 2 * FontRead f K.FONT_HEIGHT + 1 - g.tarea.y2 := by omega
    have hy : (g.tarea.y2 + 256 - FontRead f K.FONT_HEIGHT) % 256
        = g.tarea.y2 - FontRead f K.FONT_HEIGHT := by omega
    obtain ⟨d2, h1, h2⟩ := ScrollUp_area K
      (if g.x < g.tarea.x2 then SetPixels K g.device g.x g.y g.tarea.x2
        ((g.y + FontRead f K.FONT_HEIGHT) % 256) (bgColor K g.FontColor) else g.device)
      g.tarea.x1 g.tarea.y1 g.tarea.x2 g.tarea.y2
      (g.y + 2 * FontRead f K.FONT_HEIGHT + 1 - g.tarea.y2) (bgColor K g.FontColor) fuel
      hax (by omega) hay2 (by omega) hf
    refine ⟨d2, h1, ?_, by omega, h2⟩
    rw [SpecialChar_newline_up K fuel g f hmode, if_pos hs, hpix, hy, h1]
    rfl
  · intro hs
    have hy : (g.y + FontRead f K.FONT_HEIGHT + 1) % 256 = g.y + FontRead f K.FONT_HEIGHT + 1 := by
      omega
    rw [SpecialChar_newline_up K fuel g f hmode, if_neg (by omega), hy]

/-- The scroll-up newline theorem applied to the 5 by 7 font in the area
`(0, 0, 20, 13)` of the speckled display with the cursor at `(18, 6)`: the
area is scrolled by 8 pixels and the cursor becomes `(0, 6)`. -/
theorem SpecialChar_scroll_up_witness :
    (areaAt 0 0 20 13 (some font5x7) 18 6 speckled).tarea.mode = textMode.SCROLL_UP
      ∧ ks0108.DISPLAY_WIDTH ≤ 255 ∧ ks0108.DISPLAY_HEIGHT ≤ 255
      ∧ (areaAt 0 0 20 13 (some font5x7) 18 6 speckled).tarea.x1
          ≤ (areaAt 0 0 20 13 (some font5x7) 18 6 speckled).tarea.x2
      ∧ (areaAt 0 0 20 13 (some font5x7) 18 6 speckled).tarea.x2 < ks0108.DISPLAY_WIDTH
      ∧ (areaAt 0 0 20 13 (some font5x7) 18 6 speckled).tarea.y2 < ks0108.DISPLAY_HEIGHT
      ∧ FontRead font5x7 ks0108.FONT_HEIGHT ≤ 13
      ∧ 6 + 2 * FontRead font5x7 ks0108.FONT_HEIGHT + 1 - 13 ≤ 255
      ∧ 256 < 300
      ∧ 6 + 2 * FontRead font5x7 ks0108.FONT_HEIGHT ≥ 13
      ∧ 6 + 2 * FontRead font5x7 ks0108.FONT_HEIGHT + 1 - 13 = 8
      ∧ ∃ d2, SpecialChar ks0108 300 (areaAt 0 0 20 13 (some font5x7) 18 6 speckled) font5x7 10
          = some { areaAt 0 0 20 13 (some font5x7) 18 6 speckled with
                    device := d2, x := 0, y := 6 } :=
  ⟨rfl, by decide, by decide, by decide, by decide, by decide, by decide, by decide, by decide,
    by decide, by decide,
    ((SpecialChar_scroll_up ks0108 (areaAt 0 0 20 13 (some font5x7) 18 6 speckled) font5x7 300
      rfl (by decide) (by decide) (by decide) (by decide) (by decide) (by decide) (by decide)
      (by decide)).1 (by decide)).elim fun d2 h => ⟨d2, h.2.1⟩⟩

/-! ## Printing runs of characters -/

theorem PutChar.width_fixed (K : Config) (f : Nat → Nat) (ci : Nat)
    (hfx : K.isFixedWidtFont f = true) :
    PutChar.width K f ci = FontRead f K.FONT_FIXED_WIDTH := by
  simp [PutChar.width, hfx]

/-- A drawable character that fits on the line: the drawing alone, which
returns and advances the cursor x. -/
theorem PutChar_nowrap_step (K : Config) (g : gText) (f : Nat → Nat) (c : Int) (n : Nat)
    (hF : g.Font = some f) (h20 : 0x20 ≤ c)
    (hlo : (FontRead f K.FONT_FIRST_CHAR : Int) ≤ c)
    (hhi : c < (FontRead f K.FONT_FIRST_CHAR : Int) + (FontRead f K.FONT_CHAR_COUNT : Int))
    (hfit : g.x + PutChar.width K f (Int.toNat (c - (FontRead f K.FONT_FIRST_CHAR : Int)))
      ≤ g.tarea.x2)
    (hh : FontRead f K.FONT_HEIGHT ≤ 247) (hf : 248 < n) :
    PutChar K (n + 1) g c
        = PutChar.draw K n g f
            (PutChar.index K f (Int.toNat (c - (FontRead f K.FONT_FIRST_CHAR : Int))))
            (PutChar.width K f (Int.toNat (c - (FontRead f K.FONT_FIRST_CHAR : Int))))
            (FontRead f K.FONT_HEIGHT)
      ∧ ∃ d1, PutChar K (n + 1) g c
        = some (1, { g with
            device := d1
            x := (g.x + PutChar.width K f (Int.toNat (c - (FontRead f K.FONT_FIRST_CHAR : Int)))
                  + 1) % 256 }) := by
  have heq := PutChar_drawable K n g f c hF h20 hlo hhi
  rw [if_neg (by omega)] at heq
  refine ⟨heq, ?_⟩
  obtain ⟨d1, h1⟩ := PutChar.draw_returns K n g f
    (PutChar.index K f (Int.toNat (c - (FontRead f K.FONT_FIRST_CHAR : Int))))
    (PutChar.width K f (Int.toNat (c - (FontRead f K.FONT_FIRST_CHAR : Int))))
    (FontRead f K.FONT_HEIGHT) hh hf
  exact ⟨d1, by rw [heq, h1]⟩

/-- A drawable character that does not fit on the line: one newline, then the
drawing in the state the newline left. -/
theorem PutChar_wrap_step (K : Config) (g g1 : gText) (f : Nat → Nat) (c : Int) (n : Nat)
    (hF : g.Font = some f) (h20 : 0x20 ≤ c)
    (hlo : (FontRead f K.FONT_FIRST_CHAR : Int) ≤ c)
    (hhi : c < (FontRead f K.FONT_FIRST_CHAR : Int) + (FontRead f K.FONT_CHAR_COUNT : Int))
    (hwrap : g.x + PutChar.width K f (Int.toNat (c - (FontRead f K.FONT_FIRST_CHAR : Int)))
      > g.tarea.x2)
    (hnl : SpecialChar K n g f 10 = some g1)
    (hh : FontRead f K.FONT_HEIGHT ≤ 247) (hf : 247 < n) :
    PutChar K (n + 2) g c
        = PutChar.draw K (n + 1) g1 f
            (PutChar.index K f (Int.toNat (c - (FontRead f K.FONT_FIRST_CHAR : Int))))
            (PutChar.width K f (Int.toNat (c - (FontRead f K.FONT_FIRST_CHAR : Int))))
            (FontRead f K.FONT_HEIGHT)
      ∧ ∃ d1, PutChar K (n + 2) g c
        = some (1, { g1 with
            device := d1
            x := (g1.x + PutChar.width K f (Int.toNat (c - (FontRead f K.FONT_FIRST_CHAR : Int)))
                  + 1) % 256 }) := by
  have heq := PutChar_drawable K (n + 1) g f c hF h20 hlo hhi
  rw [if_pos hwrap, PutChar_control K n g f 10 hF (by decide), hnl] at heq
  have heq2 : PutChar K (n + 2) g c
      = PutChar.draw K (n + 1) g1 f
          (PutChar.index K f (Int.toNat (c - (FontRead f K.FONT_FIRST_CHAR : Int))))
          (PutChar.width K f (Int.toNat (c - (FontRead f K.FONT_FIRST_CHAR : Int))))
          (FontRead f K.FONT_HEIGHT) := heq
  refine ⟨heq2, ?_⟩
  obtain ⟨d1, h1⟩ := PutChar.draw_returns K (n + 1) g1 f
    (PutChar.index K f (Int.toNat (c - (FontRead f K.FONT_FIRST_CHAR : Int))))
    (PutChar.width K f (Int.toNat (c - (FontRead f K.FONT_FIRST_CHAR : Int))))
    (FontRead f K.FONT_HEIGHT) hh (by omega)
  exact ⟨d1, by rw [heq2, h1]⟩

theorem Puts_cons (K : Config) (fuel : Nat) (g g1 : gText) (c : Int) (cs : List Int) (r : Nat)
    (h : PutChar K fuel g c = some (r, g1)) :
    Puts K fuel g (c :: cs) = Puts K fuel g1 cs := by
  simp [Puts, h]

theorem Puts_append (K : Config) (fuel : Nat) (cs1 cs2 : List Int) :
    ∀ (g : gText), Puts K fuel g (cs1 ++ cs2) = (Puts K fuel g cs1).bind (fun g1 => Puts K fuel g1 cs2) := by
  induction cs1 with
  | nil => intro g; rfl
  | cons c cs ih =>
    intro g
    simp only [List.cons_append, Puts]
    cases PutChar K fuel g c with
    | none => rfl
    | some r => exact ih r.2

/-- In a fixed-width font, a drawable character that fits is drawn where the
cursor is and the cursor x advances by the width plus one. -/
theorem areaState_nowrap (K : Config) (x1 y1 x2 y2 : Nat) (f : Nat → Nat) (fc x y : Nat)
    (d : Device) (c : Int) (n : Nat)
    (hfx : K.isFixedWidtFont f = true) (h20 : 0x20 ≤ c)
    (hlo : (FontRead f K.FONT_FIRST_CHAR : Int) ≤ c)
    (hhi : c < (FontRead f K.FONT_FIRST_CHAR : Int) + (FontRead f K.FONT_CHAR_COUNT : Int))
    (hfit : x + FontRead f K.FONT_FIXED_WIDTH ≤ x2)
    (hh : FontRead f K.FONT_HEIGHT ≤ 247) (hf : 247 < n) :
    PutChar K (n + 2) (areaState x1 y1 x2 y2 f fc x y d) c
        = PutChar.draw K (n + 1) (areaState x1 y1 x2 y2 f fc x y d) f
            (PutChar.index K f (Int.toNat (c - (FontRead f K.FONT_FIRST_CHAR : Int))))
            (FontRead f K.FONT_FIXED_WIDTH) (FontRead f K.FONT_HEIGHT)
      ∧ ∃ d1, PutChar K (n + 2) (areaState x1 y1 x2 y2 f fc x y d) c
        = some (1, areaState x1 y1 x2 y2 f fc ((x + FontRead f K.FONT_FIXED_WIDTH + 1) % 256) y d1) := by
  have hw := PutChar.width_fixed K f (Int.toNat (c - (FontRead f K.FONT_FIRST_CHAR : Int))) hfx
  obtain ⟨h1, d1, h2⟩ := PutChar_nowrap_step K (areaState x1 y1 x2 y2 f fc x y d) f c (n + 1) rfl
    h20 hlo hhi (by rw [hw]; exact hfit) hh (by omega)
  rw [hw] at h1 h2
  exact ⟨h1, d1, h2⟩

/-- In a fixed-width font and scroll-up mode, a drawable character that does
not fit, on a line with room for another line below: the cursor moves to the
start of the next line without a scroll and the character is drawn there. -/
theorem areaState_wrap_simple (K : Config) (x1 y1 x2 y2 : Nat) (f : Nat → Nat) (fc x y : Nat)
    (d : Device) (c : Int) (n : Nat)
    (hfx : K.isFixedWidtFont f = true) (h20 : 0x20 ≤ c)
    (hlo : (FontRead f K.FONT_FIRST_CHAR : Int) ≤ c)
    (hhi : c < (FontRead f K.FONT_FIRST_CHAR : Int) + (FontRead f K.FONT_CHAR_COUNT : Int))
    (hwrap : x + FontRead f K.FONT_FIXED_WIDTH > x2)
    (hroom : y + 2 * FontRead f K.FONT_HEIGHT < y2)
    (hh : FontRead f K.FONT_HEIGHT ≤ 247) (hf : 247 < n) :
    SpecialChar K n (areaState x1 y1 x2 y2 f fc x y d) f 10
        = some (areaState x1 y1 x2 y2 f fc x1 ((y + FontRead f K.FONT_HEIGHT + 1) % 256)
            (eolErased K f fc x y x2 d))
      ∧ PutChar K (n + 2) (areaState x1 y1 x2 y2 f fc x y d) c
        = PutChar.draw K (n + 1)
            (areaState x1 y1 x2 y2 f fc x1 ((y + FontRead f K.FONT_HEIGHT + 1) % 256)
              (eolErased K f fc x y x2 d)) f
            (PutChar.index K f (Int.toNat (c - (FontRead f K.FONT_FIRST_CHAR : Int))))
            (FontRead f K.FONT_FIXED_WIDTH) (FontRead f K.FONT_HEIGHT)
      ∧ ∃ d1, PutChar K (n + 2) (areaState x1 y1 x2 y2 f fc x y d) c
        = some (1, areaState x1 y1 x2 y2 f fc ((x1 + FontRead f K.FONT_FIXED_WIDTH + 1) % 256)
            ((y + FontRead f K.FONT_HEIGHT + 1) % 256) d1) := by
  have hw := PutChar.width_fixed K f (Int.toNat (c - (FontRead f K.FONT_FIRST_CHAR : Int))) hfx
  have hnl : SpecialChar K n (areaState x1 y1 x2 y2 f fc x y d) f 10
      = some (areaState x1 y1 x2 y2 f fc x1 ((y + FontRead f K.FONT_HEIGHT + 1) % 256)
          (eolErased K f fc x y x2 d)) := by
    rw [SpecialChar_newline_up K n _ f rfl]
    show (if y + 2 * FontRead f K.FONT_HEIGHT ≥ y2 then _ else _) = _
    rw [if_neg (by omega)]
    rfl
  obtain ⟨h1, d1, h2⟩ := PutChar_wrap_step K (areaState x1 y1 x2 y2 f fc x y d) _ f c n rfl
    h20 hlo hhi (by rw [hw]; exact hwrap) hnl hh hf
  rw [hw] at h1 h2
  exact ⟨hnl, h1, d1, h2⟩

/-- In a fixed-width font and scroll-up mode, a drawable character that does
not fit, on a line without room for another line below: the newline calls
`ScrollUp` on the area and the character is drawn on the last line. -/
theorem areaState_wrap_scroll (K : Config) (x1 y1 x2 y2 : Nat) (f : Nat → Nat) (fc x y : Nat)
    (d : Device) (c : Int) (n : Nat)
    (hfx : K.isFixedWidtFont f = true) (h20 : 0x20 ≤ c)
    (hlo : (FontRead f K.FONT_FIRST_CHAR : Int) ≤ c)
    (hhi : c < (FontRead f K.FONT_FIRST_CHAR : Int) + (FontRead f K.FONT_CHAR_COUNT : Int))
    (hwrap : x + FontRead f K.FONT_FIXED_WIDTH > x2)
    (hroom : y + 2 * FontRead f K.FONT_HEIGHT ≥ y2)
    (hx2 : x2 < 255) (hy2 : y2 < 255)
    (hh : FontRead f K.FONT_HEIGHT ≤ 247) (hf : 256 < n) :
    ∃ dn, ScrollUp K n (eolErased K f fc x y x2 d) x1 y1 x2 y2
            ((2 * FontRead f K.FONT_HEIGHT + y - y2 + 1) % 256) (bgColor K fc) = some dn
      ∧ SpecialChar K n (areaState x1 y1 x2 y2 f fc x y d) f 10
        = some (areaState x1 y1 x2 y2 f fc x1 ((y2 + 256 - FontRead f K.FONT_HEIGHT) % 256) dn)
      ∧ PutChar K (n + 2) (areaState x1 y1 x2 y2 f fc x y d) c
        = PutChar.draw K (n + 1)
            (areaState x1 y1 x2 y2 f fc x1 ((y2 + 256 - FontRead f K.FONT_HEIGHT) % 256) dn) f
            (PutChar.index K f (Int.toNat (c - (FontRead f K.FONT_FIRST_CHAR : Int))))
            (FontRead f K.FONT_FIXED_WIDTH) (FontRead f K.FONT_HEIGHT)
      ∧ ∃ d1, PutChar K (n + 2) (areaState x1 y1 x2 y2 f fc x y d) c
        = some (1, areaState x1 y1 x2 y2 f fc ((x1 + FontRead f K.FONT_FIXED_WIDTH + 1) % 256)
            ((y2 + 256 - FontRead f K.FONT_HEIGHT) % 256) d1) := by
  have hw := PutChar.width_fixed K f (Int.toNat (c - (FontRead f K.FONT_FIRST_CHAR : Int))) hfx
  obtain ⟨dn, hdn⟩ := ScrollUp_returns K (eolErased K f fc x y x2 d) x1 y1 x2 y2
    ((2 * FontRead f K.FONT_HEIGHT + y - y2 + 1) % 256) (bgColor K fc) n hx2 hy2 hf
  have hnl : SpecialChar K n (areaState x1 y1 x2 y2 f fc x y d) f 10
      = some (areaState x1 y1 x2 y2 f fc x1 ((y2 + 256 - FontRead f K.FONT_HEIGHT) % 256) dn) := by
    rw [SpecialChar_newline_up K n _ f rfl]
    show (if y + 2 * FontRead f K.FONT_HEIGHT ≥ y2 then
      (ScrollUp K n (eolErased K f fc x y x2 d) x1 y1 x2 y2
        ((2 * FontRead f K.FONT_HEIGHT + y - y2 + 1) % 256) (bgColor K fc)).map _ else _) = _
    rw [if_pos hroom, hdn]
    rfl
  obtain ⟨h1, d1, h2⟩ := PutChar_wrap_step K (areaState x1 y1 x2 y2 f fc x y d) _ f c n rfl
    h20 hlo hhi (by rw [hw]; exact hwrap) hnl hh (by omega)
  rw [hw] at h1 h2
  exact ⟨dn, hdn, hnl, h1, d1, h2⟩

set_option maxRecDepth 20000 in
/-- C19, the claim as stated refuted.  The scenario run with the solid 5 by 7
font on the blank display: after "ABC" the cursor is at `(18, 0)`; after
"ABCD" it is at `(6, 6)` and pixel `(0, 5)` is clear, so the wrap before 'D'
has scrolled the first line up by 2 (a wrap without scroll would leave the
cursor on row 8 and the block of 'A' on rows 0..6); after "ABCDEFG" the cursor
is at `(6, 6)`, not `(0, 6)`. -/
theorem Puts_wrap_scrolls_early :
    (Puts ks0108 300 (areaState 0 0 20 13 font5x7solid 255 0 0 blank) [65, 66, 67]).map
        (fun g => (g.x, g.y, pixel g.device 0 5)) = some (18, 0, true)
    ∧ (Puts ks0108 300 (areaState 0 0 20 13 font5x7solid 255 0 0 blank) [65, 66, 67, 68]).map
        (fun g => (g.x, g.y, pixel g.device 0 5)) = some (6, 6, false)
    ∧ (Puts ks0108 300 (areaState 0 0 20 13 font5x7solid 255 0 0 blank)
        [65, 66, 67, 68, 69, 70, 71]).map (fun g => (g.x, g.y)) = some (6, 6) := by
  decide

/-- C19, amended.  Scenario: a fixed-width font of width 5 and height 7 whose
range contains 'A'..'G', the area `(0, 0, 20, 13)` in scroll-up mode, the
cursor at `(0, 0)`, any font colour and display content.  `Puts("ABCDEFG")`
draws 'A', 'B', 'C' on the first line at columns 0, 6, 12.  The wrap before 'D'
erases columns 18..20 of rows 0..7 and calls `ScrollUp` on the area by 2
pixels (the 14 rows of the area are 2 short of two lines of 8); 'D', 'E', 'F'
are drawn on row 6 at columns 0, 6, 12.  The wrap before 'G' erases columns
18..20 of rows 6..13 and calls `ScrollUp` by 8 pixels; 'G' is drawn at `(0, 6)`
and the cursor is left at `(6, 6)`. -/
theorem Puts_scenario (K : Config) (f : Nat → Nat) (fc : Nat) (d : Device) (n : Nat)
    (hfx : K.isFixedWidtFont f = true)
    (hFW : FontRead f K.FONT_FIXED_WIDTH = 5) (hH : FontRead f K.FONT_HEIGHT = 7)
    (hlo : (FontRead f K.FONT_FIRST_CHAR : Int) ≤ 65)
    (hhi : (71 : Int) < (FontRead f K.FONT_FIRST_CHAR : Int) + (FontRead f K.FONT_CHAR_COUNT : Int))
    (hf : 256 < n) :
    ∃ d1 d2 d3 d3n d4 d5 d6 d6n d7,
      PutChar K (n + 2) (areaState 0 0 20 13 f fc 0 0 d) 65
          = some (1, areaState 0 0 20 13 f fc 6 0 d1)
      ∧ PutChar K (n + 2) (areaState 0 0 20 13 f fc 6 0 d1) 66
          = some (1, areaState 0 0 20 13 f fc 12 0 d2)
      ∧ PutChar K (n + 2) (areaState 0 0 20 13 f fc 12 0 d2) 67
          = some (1, areaState 0 0 20 13 f fc 18 0 d3)
      ∧ ScrollUp K n (SetPixels K d3 18 0 20 7 (bgColor K fc)) 0 0 20 13 2 (bgColor K fc)
          = some d3n
      ∧ SpecialChar K n (areaState 0 0 20 13 f fc 18 0 d3) f 10
          = some (areaState 0 0 20 13 f fc 0 6 d3n)
      ∧ PutChar K (n + 2) (areaState 0 0 20 13 f fc 18 0 d3) 68
          = PutChar.draw K (n + 1) (areaState 0 0 20 13 f fc 0 6 d3n) f
              (PutChar.index K f (Int.toNat (68 - (FontRead f K.FONT_FIRST_CHAR : Int)))) 5 7
      ∧ PutChar K (n + 2) (areaState 0 0 20 13 f fc 18 0 d3) 68
          = some (1, areaState 0 0 20 13 f fc 6 6 d4)
      ∧ PutChar K (n + 2) (areaState 0 0 20 13 f fc 6 6 d4) 69
          = some (1, areaState 0 0 20 13 f fc 12 6 d5)
      ∧ PutChar K (n + 2) (areaState 0 0 20 13 f fc 12 6 d5) 70
          = some (1, areaState 0 0 20 13 f fc 18 6 d6)
      ∧ ScrollUp K n (SetPixels K d6 18 6 20 13 (bgColor K fc)) 0 0 20 13 8 (bgColor K fc)
          = some d6n
      ∧ SpecialChar K n (areaState 0 0 20 13 f fc 18 6 d6) f 10
          = some (areaState 0 0 20 13 f fc 0 6 d6n)
      ∧ PutChar K (n + 2) (areaState 0 0 20 13 f fc 18 6 d6) 71
          = PutChar.draw K (n + 1) (areaState 0 0 20 13 f fc 0 6 d6n) f
              (PutChar.index K f (Int.toNat (71 - (FontRead f K.FONT_FIRST_CHAR : Int)))) 5 7
      ∧ PutChar K (n + 2) (areaState 0 0 20 13 f fc 18 6 d6) 71
          = some (1, areaState 0 0 20 13 f fc 6 6 d7)
      ∧ Puts K (n + 2) (areaState 0 0 20 13 f fc 0 0 d) [65, 66, 67, 68, 69, 70, 71]
          = some (areaState 0 0 20 13 f fc 6 6 d7) := by
  have hh : FontRead f K.FONT_HEIGHT ≤ 247 := by omega
  have nowrap : ∀ (x y : Nat) (dev : Device) (c : Int), 65 ≤ c → c ≤ 71 → x + 5 ≤ 20 →
      ∃ d1, PutChar K (n + 2) (areaState 0 0 20 13 f fc x y dev) c
        = some (1, areaState 0 0 20 13 f fc ((x + 5 + 1) % 256) y d1) := by
    intro x y dev c hc1 hc2 hx
    obtain ⟨_, d1, h1⟩ := areaState_nowrap K 0 0 20 13 f fc x y dev c n hfx (by omega) (by omega)
      (by omega) (by omega) hh (by omega)
    rw [hFW] at h1
    exact ⟨d1, h1⟩
  have wrap : ∀ (y : Nat) (dev : Device) (c : Int), 65 ≤ c → c ≤ 71 → y + 14 ≥ 13 → y ≤ 6 →
      ∃ dn d1, ScrollUp K n (SetPixels K dev 18 y 20 (y + 7) (bgColor K fc)) 0 0 20 13
              (y + 2) (bgColor K fc) = some dn
        ∧ SpecialChar K n (areaState 0 0 20 13 f fc 18 y dev) f 10
          = some (areaState 0 0 20 13 f fc 0 6 dn)
        ∧ PutChar K (n + 2) (areaState 0 0 20 13 f fc 18 y dev) c
          = PutChar.draw K (n + 1) (areaState 0 0 20 13 f fc 0 6 dn) f
              (PutChar.index K f (Int.toNat (c - (FontRead f K.FONT_FIRST_CHAR : Int)))) 5 7
        ∧ PutChar K (n + 2) (areaState 0 0 20 13 f fc 18 y dev) c
          = some (1, areaState 0 0 20 13 f fc 6 6 d1) := by
    intro y dev c hc1 hc2 hy hy6
    obtain ⟨dn, h1, h2, h3, d1, h4⟩ := areaState_wrap_scroll K 0 0 20 13 f fc 18 y dev c n hfx
      (by omega) (by omega) (by omega) (by omega) (by omega) (by omega) (by omega) hh hf
    have he : eolErased K f fc 18 y 20 dev = SetPixels K dev 18 y 20 (y + 7) (bgColor K fc) := by
      unfold eolErased
      rw [if_pos (by omega), hH, Nat.mod_eq_of_lt (by omega)]
    have hp : (2 * 7 + y - 13 + 1) % 256 = y + 2 := by omega
    have hy2 : (13 + 256 - 7) % 256 = 6 := by omega
    rw [hFW, hH] at h3 h4
    rw [hH] at h1 h2
    rw [he, hp] at h1
    rw [hy2] at h2 h3 h4
    exact ⟨dn, d1, h1, h2, h3, h4⟩
  obtain ⟨d1, hA⟩ := nowrap 0 0 d 65 (by omega) (by omega) (by omega)
  obtain ⟨d2, hB⟩ := nowrap 6 0 d1 66 (by omega) (by omega) (by omega)
  obtain ⟨d3, hC⟩ := nowrap 12 0 d2 67 (by omega) (by omega) (by omega)
  obtain ⟨d3n, d4, hD1, hD2, hD3, hD4⟩ := wrap 0 d3 68 (by omega) (by omega) (by omega) (by omega)
  obtain ⟨d5, hE⟩ := nowrap 6 6 d4 69 (by omega) (by omega) (by omega)
  obtain ⟨d6, hF⟩ := nowrap 12 6 d5 70 (by omega) (by omega) (by omega)
  obtain ⟨d6n, d7, hG1, hG2, hG3, hG4⟩ := wrap 6 d6 71 (by omega) (by omega) (by omega) (by omega)
  refine ⟨d1, d2, d3, d3n, d4, d5, d6, d6n, d7, hA, hB, hC, hD1, hD2, hD3, hD4, hE, hF, hG1, hG2,
    hG3, hG4, ?_⟩
  rw [Puts_cons K _ _ _ 65 _ 1 hA, Puts_cons K _ _ _ 66 _ 1 hB, Puts_cons K _ _ _ 67 _ 1 hC,
    Puts_cons K _ _ _ 68 _ 1 hD4, Puts_cons K _ _ _ 69 _ 1 hE, Puts_cons K _ _ _ 70 _ 1 hF,
    Puts_cons K _ _ _ 71 _ 1 hG4]
  rfl

/-- The scenario theorem applied to the solid 5 by 7 font in black on the blank
128 by 64 display. -/
theorem Puts_scenario_witness :
    ks0108.isFixedWidtFont font5x7solid = true
      ∧ FontRead font5x7solid ks0108.FONT_FIXED_WIDTH = 5
      ∧ FontRead font5x7solid ks0108.FONT_HEIGHT = 7
      ∧ (FontRead font5x7solid ks0108.FONT_FIRST_CHAR : Int) ≤ 65
      ∧ (71 : Int) < (FontRead font5x7solid ks0108.FONT_FIRST_CHAR : Int)
          + (FontRead font5x7solid ks0108.FONT_CHAR_COUNT : Int)
      ∧ 256 < 298
      ∧ ∃ d7, Puts ks0108 300 (areaState 0 0 20 13 font5x7solid 255 0 0 blank)
            [65, 66, 67, 68, 69, 70, 71]
          = some (areaState 0 0 20 13 font5x7solid 255 6 6 d7) :=
  ⟨by decide, by decide, by decide, by decide, by decide, by decide,
    (Puts_scenario ks0108 font5x7solid 255 blank 298 (by decide) (by decide) (by decide)
      (by decide) (by decide) (by decide)).elim
      fun _ h1 => h1.elim fun _ h2 => h2.elim fun _ h3 => h3.elim fun _ h4 => h4.elim
      fun _ h5 => h5.elim fun _ h6 => h6.elim fun _ h7 => h7.elim fun _ h8 => h8.elim
      fun d7 h => ⟨d7, h.2.2.2.2.2.2.2.2.2.2.2.2.2⟩⟩

/-! ## A grid of character cells -/

theorem succ_div_mod (c k : Nat) (hc : 0 < c) :
    (k % c + 1 < c ∧ (k + 1) % c = k % c + 1 ∧ (k + 1) / c = k / c)
      ∨ (k % c + 1 = c ∧ (k + 1) % c = 0 ∧ (k + 1) / c = k / c + 1) := by
  have hlt := Nat.mod_lt k hc
  have hk := Nat.div_add_mod k c
  rcases Nat.lt_or_ge (k % c + 1) c with h | h
  · left
    have h1 : (k + 1) / c = k / c ∧ (k + 1) % c = k % c + 1 :=
      (Nat.div_mod_unique hc).2 ⟨by omega, h⟩
    exact ⟨h, h1.2, h1.1⟩
  · right
    have he : k % c + 1 = c := by omega
    have h1 : (k + 1) / c = k / c + 1 ∧ (k + 1) % c = 0 :=
      (Nat.div_mod_unique hc).2 ⟨by rw [Nat.mul_add]; omega, hc⟩
    exact ⟨he, h1.2, h1.1⟩

/-- In an area that holds `c` by `r` cells of a fixed-width font exactly, the
first character is drawn at the area origin without a wrap. -/
theorem areaState_grid_first (K : Config) (f : Nat → Nat) (fc x y x2 y2 c w h : Nat)
    (d : Device) (ch : Int) (n : Nat)
    (hfx : K.isFixedWidtFont f = true)
    (hwe : FontRead f K.FONT_FIXED_WIDTH = w) (hhe : FontRead f K.FONT_HEIGHT = h)
    (h20 : 0x20 ≤ ch) (hlo : (FontRead f K.FONT_FIRST_CHAR : Int) ≤ ch)
    (hhi : ch < (FontRead f K.FONT_FIRST_CHAR : Int) + (FontRead f K.FONT_CHAR_COUNT : Int))
    (hh : h ≤ 247) (hx2e : x2 + 1 = x + c * (w + 1)) (hx2 : x2 < 255) (hc : 0 < c)
    (hf : 247 < n) :
    PutChar K (n + 2) (areaState x y x2 y2 f fc x y d) ch
        = PutChar.draw K (n + 1) (areaState x y x2 y2 f fc x y d) f
            (PutChar.index K f (Int.toNat (ch - (FontRead f K.FONT_FIRST_CHAR : Int)))) w h
      ∧ ∃ d1, PutChar K (n + 2) (areaState x y x2 y2 f fc x y d) ch
        = some (1, areaState x y x2 y2 f fc (x + (0 % c + 1) * (w + 1)) (y + 0 / c * (h + 1)) d1) := by
  subst hwe hhe
  have hm : 1 * (FontRead f K.FONT_FIXED_WIDTH + 1) ≤ c * (FontRead f K.FONT_FIXED_WIDTH + 1) :=
    Nat.mul_le_mul_right _ hc
  rw [Nat.one_mul] at hm
  obtain ⟨e1, d1, e2⟩ := areaState_nowrap K x y x2 y2 f fc x y d ch n hfx h20 hlo hhi
    (by omega) hh hf
  refine ⟨e1, d1, ?_⟩
  rw [e2, Nat.mod_eq_of_lt (by omega), Nat.zero_mod, Nat.zero_div, Nat.zero_mul, Nat.zero_add,
    Nat.one_mul, Nat.add_assoc]
  rfl

/-- In an area that holds `c` by `r` cells of a fixed-width font exactly, with
the cursor behind cell number `k`, the character for cell `k + 1 < c * r` is
drawn in that cell on the same device content: after a wrap that neither scrolls
nor erases when the cell starts a line, without a wrap otherwise. -/
theorem areaState_grid_step (K : Config) (f : Nat → Nat) (fc x y x2 y2 c r w h : Nat)
    (d : Device) (ch : Int) (n k : Nat)
    (hfx : K.isFixedWidtFont f = true)
    (hwe : FontRead f K.FONT_FIXED_WIDTH = w) (hhe : FontRead f K.FONT_HEIGHT = h)
    (h20 : 0x20 ≤ ch) (hlo : (FontRead f K.FONT_FIRST_CHAR : Int) ≤ ch)
    (hhi : ch < (FontRead f K.FONT_FIRST_CHAR : Int) + (FontRead f K.FONT_CHAR_COUNT : Int))
    (hh : h ≤ 247) (hx2e : x2 + 1 = x + c * (w + 1)) (hy2e : y2 + 1 = y + r * (h + 1))
    (hx2 : x2 < 255) (hy2 : y2 < 255) (hc : 0 < c) (hk : k + 1 < c * r) (hf : 247 < n) :
    PutChar K (n + 2)
          (areaState x y x2 y2 f fc (x + (k % c + 1) * (w + 1)) (y + k / c * (h + 1)) d) ch
        = PutChar.draw K (n + 1)
            (areaState x y x2 y2 f fc (x + (k + 1) % c * (w + 1)) (y + (k + 1) / c * (h + 1)) d) f
            (PutChar.index K f (Int.toNat (ch - (FontRead f K.FONT_FIRST_CHAR : Int)))) w h
      ∧ ∃ d1, PutChar K (n + 2)
          (areaState x y x2 y2 f fc (x + (k % c + 1) * (w + 1)) (y + k / c * (h + 1)) d) ch
        = some (1, areaState x y x2 y2 f fc (x + ((k + 1) % c + 1) * (w + 1))
            (y + (k + 1) / c * (h + 1)) d1) := by
  subst hwe hhe
  rcases succ_div_mod c k hc with ⟨h1, h2, h3⟩ | ⟨h1, h2, h3⟩
  · rw [h2, h3]
    have hm : (k % c + 1 + 1) * (FontRead f K.FONT_FIXED_WIDTH + 1)
        ≤ c * (FontRead f K.FONT_FIXED_WIDTH + 1) := Nat.mul_le_mul_right _ h1
    have hm2 : (k % c + 1 + 1) * (FontRead f K.FONT_FIXED_WIDTH + 1)
        = (k % c + 1) * (FontRead f K.FONT_FIXED_WIDTH + 1)
          + (FontRead f K.FONT_FIXED_WIDTH + 1) := Nat.succ_mul _ _
    obtain ⟨e1, d1, e2⟩ := areaState_nowrap K x y x2 y2 f fc
      (x + (k % c + 1) * (FontRead f K.FONT_FIXED_WIDTH + 1))
      (y + k / c * (FontRead f K.FONT_HEIGHT + 1)) d ch n hfx h20 hlo hhi (by omega) hh hf
    have hx' : (x + (k % c + 1) * (FontRead f K.FONT_FIXED_WIDTH + 1)
        + FontRead f K.FONT_FIXED_WIDTH + 1) % 256
        = x + (k % c + 1 + 1) * (FontRead f K.FONT_FIXED_WIDTH + 1) := by
      rw [Nat.mod_eq_of_lt (by omega)]; omega
    rw [hx'] at e2
    exact ⟨e1, d1, e2⟩
  · rw [h2, h3, h1, Nat.zero_mul, Nat.add_zero, Nat.zero_add, Nat.one_mul]
    have hj : (k + 1) / c < r := Nat.div_lt_of_lt_mul hk
    have hm : (k / c + 1 + 1) * (FontRead f K.FONT_HEIGHT + 1)
        ≤ r * (FontRead f K.FONT_HEIGHT + 1) := Nat.mul_le_mul_right _ (by omega)
    have hm2 : (k / c + 1 + 1) * (FontRead f K.FONT_HEIGHT + 1)
        = (k / c + 1) * (FontRead f K.FONT_HEIGHT + 1) + (FontRead f K.FONT_HEIGHT + 1) :=
      Nat.succ_mul _ _
    have hm3 : (k / c + 1) * (FontRead f K.FONT_HEIGHT + 1)
        = k / c * (FontRead f K.FONT_HEIGHT + 1) + (FontRead f K.FONT_HEIGHT + 1) :=
      Nat.succ_mul _ _
    have hm4 : 1 * (FontRead f K.FONT_FIXED_WIDTH + 1) ≤ c * (FontRead f K.FONT_FIXED_WIDTH + 1) :=
      Nat.mul_le_mul_right _ hc
    rw [Nat.one_mul] at hm4
    obtain ⟨_, e1, d1, e2⟩ := areaState_wrap_simple K x y x2 y2 f fc
      (x + c * (FontRead f K.FONT_FIXED_WIDTH + 1))
      (y + k / c * (FontRead f K.FONT_HEIGHT + 1)) d ch n hfx h20 hlo hhi (by omega) (by omega)
      hh hf
    have he : eolErased K f fc (x + c * (FontRead f K.FONT_FIXED_WIDTH + 1))
        (y + k / c * (FontRead f K.FONT_HEIGHT + 1)) x2 d = d := by
      unfold eolErased
      rw [if_neg (by omega)]
    have hy' : (y + k / c * (FontRead f K.FONT_HEIGHT + 1) + FontRead f K.FONT_HEIGHT + 1) % 256
        = y + (k / c + 1) * (FontRead f K.FONT_HEIGHT + 1) := by
      rw [Nat.mod_eq_of_lt (by omega)]; omega
    have hx' : (x + FontRead f K.FONT_FIXED_WIDTH + 1) % 256
        = x + (FontRead f K.FONT_FIXED_WIDTH + 1) := by
      rw [Nat.mod_eq_of_lt (by omega)]; omega
    rw [he, hy'] at e1
    rw [hy', hx'] at e2
    exact ⟨e1, d1, e2⟩

/-- In an area that holds `c` by `r` cells of a fixed-width font exactly, with
the cursor behind the last cell, the next character wraps with a scroll of the
area by `h + 1` pixels and is drawn at the start of the last row. -/
theorem areaState_grid_scroll (K : Config) (f : Nat → Nat) (fc x y x2 y2 c r w h : Nat)
    (d : Device) (ch : Int) (n : Nat)
    (hfx : K.isFixedWidtFont f = true)
    (hwe : FontRead f K.FONT_FIXED_WIDTH = w) (hhe : FontRead f K.FONT_HEIGHT = h)
    (h20 : 0x20 ≤ ch) (hlo : (FontRead f K.FONT_FIRST_CHAR : Int) ≤ ch)
    (hhi : ch < (FontRead f K.FONT_FIRST_CHAR : Int) + (FontRead f K.FONT_CHAR_COUNT : Int))
    (hh : h ≤ 247) (hx2e : x2 + 1 = x + c * (w + 1)) (hy2e : y2 + 1 = y + r * (h + 1))
    (hx2 : x2 < 255) (hy2 : y2 < 255) (hc : 0 < c) (hr : 0 < r) (hf : 256 < n) :
    ∃ dn, ScrollUp K n d x y x2 y2 (h + 1) (bgColor K fc) = some dn
      ∧ SpecialChar K n
          (areaState x y x2 y2 f fc (x + c * (w + 1)) (y + (r - 1) * (h + 1)) d) f 10
        = some (areaState x y x2 y2 f fc x (y + (r - 1) * (h + 1)) dn)
      ∧ PutChar K (n + 2)
          (areaState x y x2 y2 f fc (x + c * (w + 1)) (y + (r - 1) * (h + 1)) d) ch
        = PutChar.draw K (n + 1) (areaState x y x2 y2 f fc x (y + (r - 1) * (h + 1)) dn) f
            (PutChar.index K f (Int.toNat (ch - (FontRead f K.FONT_FIRST_CHAR : Int)))) w h
      ∧ ∃ d1, PutChar K (n + 2)
          (areaState x y x2 y2 f fc (x + c * (w + 1)) (y + (r - 1) * (h + 1)) d) ch
        = some (1, areaState x y x2 y2 f fc (x + (w + 1)) (y + (r - 1) * (h + 1)) d1) := by
  subst hwe hhe
  have hm : (r - 1 + 1) * (FontRead f K.FONT_HEIGHT + 1)
      = (r - 1) * (FontRead f K.FONT_HEIGHT + 1) + (FontRead f K.FONT_HEIGHT + 1) :=
    Nat.succ_mul _ _
  rw [Nat.sub_add_cancel hr] at hm
  have hm4 : 1 * (FontRead f K.FONT_FIXED_WIDTH + 1) ≤ c * (FontRead f K.FONT_FIXED_WIDTH + 1) :=
    Nat.mul_le_mul_right _ hc
  rw [Nat.one_mul] at hm4
  obtain ⟨dn, e0, e1, e2, d1, e3⟩ := areaState_wrap_scroll K x y x2 y2 f fc
    (x + c * (FontRead f K.FONT_FIXED_WIDTH + 1))
    (y + (r - 1) * (FontRead f K.FONT_HEIGHT + 1)) d ch n hfx h20 hlo hhi (by omega) (by omega)
    hx2 hy2 hh hf
  have he : eolErased K f fc (x + c * (FontRead f K.FONT_FIXED_WIDTH + 1))
      (y + (r - 1) * (FontRead f K.FONT_HEIGHT + 1)) x2 d = d := by
    unfold eolErased
    rw [if_neg (by omega)]
  have hp : (2 * FontRead f K.FONT_HEIGHT + (y + (r - 1) * (FontRead f K.FONT_HEIGHT + 1)) - y2
      + 1) % 256 = FontRead f K.FONT_HEIGHT + 1 := by omega
  have hy' : (y2 + 256 - FontRead f K.FONT_HEIGHT) % 256
      = y + (r - 1) * (FontRead f K.FONT_HEIGHT + 1) := by omega
  have hx' : (x + FontRead f K.FONT_FIXED_WIDTH + 1) % 256
      = x + (FontRead f K.FONT_FIXED_WIDTH + 1) := by
    rw [Nat.mod_eq_of_lt (by omega)]; omega
  rw [he, hp] at e0
  rw [hy'] at e1 e2 e3
  rw [hx'] at e3
  exact ⟨dn, e0, e1, e2, d1, e3⟩

/-- In an area that holds `c` by `r` cells of a fixed-width font exactly,
printing the first `k + 1 <= c * r` characters of a run of drawable characters
returns with the cursor behind cell number `k`. -/
theorem Puts_grid (K : Config) (f : Nat → Nat) (fc x y x2 y2 c r w h : Nat)
    (d : Device) (cs : Nat → Int) (n : Nat)
    (hfx : K.isFixedWidtFont f = true)
    (hwe : FontRead f K.FONT_FIXED_WIDTH = w) (hhe : FontRead f K.FONT_HEIGHT = h)
    (hcs : ∀ k, 0x20 ≤ cs k ∧ (FontRead f K.FONT_FIRST_CHAR : Int) ≤ cs k
      ∧ cs k < (FontRead f K.FONT_FIRST_CHAR : Int) + (FontRead f K.FONT_CHAR_COUNT : Int))
    (hh : h ≤ 247) (hx2e : x2 + 1 = x + c * (w + 1)) (hy2e : y2 + 1 = y + r * (h + 1))
    (hx2 : x2 < 255) (hy2 : y2 < 255) (hc : 0 < c) (hf : 247 < n) :
    ∀ k, k < c * r →
      ∃ dk, Puts K (n + 2) (areaState x y x2 y2 f fc x y d) ((List.range (k + 1)).map cs)
        = some (areaState x y x2 y2 f fc (x + (k % c + 1) * (w + 1)) (y + k / c * (h + 1)) dk) := by
  intro k
  induction k with
  | zero =>
    intro _
    obtain ⟨_, d1, e⟩ := areaState_grid_first K f fc x y x2 y2 c w h d (cs 0) n hfx hwe hhe
      (hcs 0).1 (hcs 0).2.1 (hcs 0).2.2 hh hx2e hx2 hc hf
    refine ⟨d1, ?_⟩
    show Puts K (n + 2) _ [cs 0] = _
    rw [Puts_cons K _ _ _ _ _ 1 e]
    rfl
  | succ k ih =>
    intro hk
    obtain ⟨dk, e⟩ := ih (by omega)
    obtain ⟨_, d1, e2⟩ := areaState_grid_step K f fc x y x2 y2 c r w h dk (cs (k + 1)) n k hfx
      hwe hhe (hcs (k + 1)).1 (hcs (k + 1)).2.1 (hcs (k + 1)).2.2 hh hx2e hy2e hx2 hy2 hc hk hf
    refine ⟨d1, ?_⟩
    rw [List.range_succ, List.map_append, Puts_append, e]
    show Puts K (n + 2) _ [cs (k + 1)] = _
    rw [Puts_cons K _ _ _ _ _ 1 e2]
    rfl

/-- With a font of height 250 and the cursor on row 0, `PutChar` of a drawable
character that fits on the line never returns. -/
theorem PutChar_tall_diverges_on_row_zero (K : Config) (g : gText) (f : Nat → Nat) (c : Int)
    (hF : g.Font = some f) (h20 : 0x20 ≤ c)
    (hlo : (FontRead f K.FONT_FIRST_CHAR : Int) ≤ c)
    (hhi : c < (FontRead f K.FONT_FIRST_CHAR : Int) + (FontRead f K.FONT_CHAR_COUNT : Int))
    (hH : FontRead f K.FONT_HEIGHT = 250)
    (hfit : g.x + PutChar.width K f (Int.toNat (c - (FontRead f K.FONT_FIRST_CHAR : Int)))
      ≤ g.tarea.x2)
    (hy : g.y = 0) (fuel : Nat) :
    PutChar K fuel g c = none := by
  cases fuel with
  | zero => rfl
  | succ fuel =>
    rw [PutChar_drawable K fuel g f c hF h20 hlo hhi, if_neg (by omega)]
    unfold PutChar.draw
    rw [hH, hy]
    simp only [show (250 + 1) % 256 = 251 by decide]
    rw [PutChar.slices_tall_diverges K f g.FontColor _ _ g.x fuel g.device 0 (by decide)
      (by decide)]

/-- C17, the claim as stated refuted.  On a display of 255 by 255 pixels, with
the fixed-width font of width 5 and height 250, `DefineArea(0, 0, 2, 1, font,
SCROLL_UP)` computes `x2 = 11` and `y2 = 250` without overflow and succeeds.
Yet the first `PutChar` of the drawable character `' '` never returns (the
slice counter wraps, whatever the fuel), so character number 1 is never drawn
in the second cell and no wrap with a scroll ever happens. -/
theorem DefineArea_cells_tall_font :
    panel255.isFixedWidtFont font5x250 = true
      ∧ FontRead font5x250 panel255.FONT_FIXED_WIDTH = 5
      ∧ FontRead font5x250 panel255.FONT_HEIGHT = 250
      ∧ 0 + 2 * (5 + 1) - 1 = 11 ∧ 0 + 1 * (250 + 1) - 1 = 250
      ∧ DefineArea.cells panel255 (fullArea none 0 0 blank) 0 0 2 1 font5x250 textMode.SCROLL_UP
          = (1, areaState 0 0 11 250 font5x250 panel255.BLACK 0 0 blank)
      ∧ (∀ fuel, PutChar panel255 fuel
            (areaState 0 0 11 250 font5x250 panel255.BLACK 0 0 blank) 32 = none)
      ∧ ∀ fuel, Puts panel255 fuel
            (areaState 0 0 11 250 font5x250 panel255.BLACK 0 0 blank) [32, 32] = none := by
  have hd : ∀ fuel, PutChar panel255 fuel
      (areaState 0 0 11 250 font5x250 panel255.BLACK 0 0 blank) 32 = none :=
    PutChar_tall_diverges_on_row_zero panel255 _ font5x250 32 rfl (by decide) (by decide)
      (by decide) (by decide) (by decide) rfl
  refine ⟨by decide, by decide, by decide, by decide, by decide, rfl, hd, ?_⟩
  intro fuel
  show (match PutChar panel255 fuel _ 32 with
    | none => none
    | some r => Puts panel255 fuel r.2 [32]) = none
  rw [hd fuel]

/-- C17, amended.  On a display at most 255 pixels wide, for every fixed-width
font of width `w` and height `h <= 247` and every `x`, `y`, `columns >= 1`,
`rows >= 1` for which `x2 = x + columns*(w+1) - 1` and
`y2 = y + rows*(h+1) - 1` fit a byte and `DefineArea(x, y, columns, rows, font,
SCROLL_UP)` succeeds: the call leaves the area `(x, y, x2, y2)` with the cursor
at `(x, y)`.  Printing a run `cs` of drawable characters from there, for every
`k < columns*rows` the first `k` characters are printed and character `k` is
then drawn with the cursor at `(x + (k mod columns)*(w+1),
y + (k div columns)*(h+1))` on the device content the first `k` characters
left (no scroll and no erase before it).  After `columns*rows` characters the
cursor is at `(x + columns*(w+1), y + (rows-1)*(h+1))`; the wrap for the next
character calls `ScrollUp` on the area with exactly `h + 1` pixels, puts the
cursor at `(x, y + (rows-1)*(h+1))`, and the character is drawn there. -/
theorem DefineArea_cells_exact (K : Config) (g : gText) (f : Nat → Nat)
    (x y columns rows : Nat) (cs : Nat → Int) (n : Nat)
    (hW : K.DISPLAY_WIDTH ≤ 255)
    (hfx : K.isFixedWidtFont f = true)
    (hh : FontRead f K.FONT_HEIGHT ≤ 247)
    (hc : 1 ≤ columns) (hr : 1 ≤ rows)
    (hox : x + columns * (FontRead f K.FONT_FIXED_WIDTH + 1) - 1 ≤ 255)
    (hoy : y + rows * (FontRead f K.FONT_HEIGHT + 1) - 1 ≤ 255)
    (hok : (DefineArea.cells K g x y columns rows f textMode.SCROLL_UP).1 = 1)
    (hcs : ∀ k, 0x20 ≤ cs k ∧ (FontRead f K.FONT_FIRST_CHAR : Int) ≤ cs k
      ∧ cs k < (FontRead f K.FONT_FIRST_CHAR : Int) + (FontRead f K.FONT_CHAR_COUNT : Int))
    (hf : 256 < n) :
    DefineArea.cells K g x y columns rows f textMode.SCROLL_UP
        = (1, areaState x y (x + columns * (FontRead f K.FONT_FIXED_WIDTH + 1) - 1)
                (y + rows * (FontRead f K.FONT_HEIGHT + 1) - 1) f K.BLACK x y g.device)
      ∧ (∀ k, k < columns * rows →
          ∃ a b dk,
            Puts K (n + 2)
                (areaState x y (x + columns * (FontRead f K.FONT_FIXED_WIDTH + 1) - 1)
                  (y + rows * (FontRead f K.FONT_HEIGHT + 1) - 1) f K.BLACK x y g.device)
                ((List.range k).map cs)
              = some (areaState x y (x + columns * (FontRead f K.FONT_FIXED_WIDTH + 1) - 1)
                  (y + rows * (FontRead f K.FONT_HEIGHT + 1) - 1) f K.BLACK a b dk)
            ∧ PutChar K (n + 2)
                (areaState x y (x + columns * (FontRead f K.FONT_FIXED_WIDTH + 1) - 1)
                  (y + rows * (FontRead f K.FONT_HEIGHT + 1) - 1) f K.BLACK a b dk) (cs k)
              = PutChar.draw K (n + 1)
                  (areaState x y (x + columns * (FontRead f K.FONT_FIXED_WIDTH + 1) - 1)
                    (y + rows * (FontRead f K.FONT_HEIGHT + 1) - 1) f K.BLACK
                    (x + k % columns * (FontRead f K.FONT_FIXED_WIDTH + 1))
                    (y + k / columns * (FontRead f K.FONT_HEIGHT + 1)) dk) f
                  (PutChar.index K f (Int.toNat (cs k - (FontRead f K.FONT_FIRST_CHAR : Int))))
                  (FontRead f K.FONT_FIXED_WIDTH) (FontRead f K.FONT_HEIGHT))
      ∧ ∃ dk dn,
          Puts K (n + 2)
              (areaState x y (x + columns * (FontRead f K.FONT_FIXED_WIDTH + 1) - 1)
                (y + rows * (FontRead f K.FONT_HEIGHT + 1) - 1) f K.BLACK x y g.device)
              ((List.range (columns * rows)).map cs)
            = some (areaState x y (x + columns * (FontRead f K.FONT_FIXED_WIDTH + 1) - 1)
                (y + rows * (FontRead f K.FONT_HEIGHT + 1) - 1) f K.BLACK
                (x + columns * (FontRead f K.FONT_FIXED_WIDTH + 1))
                (y + (rows - 1) * (FontRead f K.FONT_HEIGHT + 1)) dk)
          ∧ ScrollUp K n dk x y (x + columns * (FontRead f K.FONT_FIXED_WIDTH + 1) - 1)
                (y + rows * (FontRead f K.FONT_HEIGHT + 1) - 1)
                (FontRead f K.FONT_HEIGHT + 1) (bgColor K K.BLACK) = some dn
          ∧ SpecialChar K n
              (areaState x y (x + columns * (FontRead f K.FONT_FIXED_WIDTH + 1) - 1)
                (y + rows * (FontRead f K.FONT_HEIGHT + 1) - 1) f K.BLACK
                (x + columns * (FontRead f K.FONT_FIXED_WIDTH + 1))
                (y + (rows - 1) * (FontRead f K.FONT_HEIGHT + 1)) dk) f 10
            = some (areaState x y (x + columns * (FontRead f K.FONT_FIXED_WIDTH + 1) - 1)
                (y + rows * (FontRead f K.FONT_HEIGHT + 1) - 1) f K.BLACK x
                (y + (rows - 1) * (FontRead f K.FONT_HEIGHT + 1)) dn)
          ∧ PutChar K (n + 2)
              (areaState x y (x + columns * (FontRead f K.FONT_FIXED_WIDTH + 1) - 1)
                (y + rows * (FontRead f K.FONT_HEIGHT + 1) - 1) f K.BLACK
                (x + columns * (FontRead f K.FONT_FIXED_WIDTH + 1))
                (y + (rows - 1) * (FontRead f K.FONT_HEIGHT + 1)) dk) (cs (columns * rows))
            = PutChar.draw K (n + 1)
                (areaState x y (x + columns * (FontRead f K.FONT_FIXED_WIDTH + 1) - 1)
                  (y + rows * (FontRead f K.FONT_HEIGHT + 1) - 1) f K.BLACK x
                  (y + (rows - 1) * (FontRead f K.FONT_HEIGHT + 1)) dn) f
                (PutChar.index K f
                  (Int.toNat (cs (columns * rows) - (FontRead f K.FONT_FIRST_CHAR : Int))))
                (FontRead f K.FONT_FIXED_WIDTH) (FontRead f K.FONT_HEIGHT) := by
  have hm1 : 1 * (FontRead f K.FONT_FIXED_WIDTH + 1)
      ≤ columns * (FontRead f K.FONT_FIXED_WIDTH + 1) := Nat.mul_le_mul_right _ hc
  have hm2 : 1 * (FontRead f K.FONT_HEIGHT + 1)
      ≤ rows * (FontRead f K.FONT_HEIGHT + 1) := Nat.mul_le_mul_right _ hr
  rw [Nat.one_mul] at hm1 hm2
  have hx2m : (x + columns * (FontRead f K.FONT_FIXED_WIDTH + 1) + 255) % 256
      = x + columns * (FontRead f K.FONT_FIXED_WIDTH + 1) - 1 := by omega
  have hy2m : (y + rows * (FontRead f K.FONT_HEIGHT + 1) + 255) % 256
      = y + rows * (FontRead f K.FONT_HEIGHT + 1) - 1 := by omega
  have hcells : DefineArea.cells K g x y columns rows f textMode.SCROLL_UP
      = DefineArea K (SelectFont g f K.BLACK) x y
          (x + columns * (FontRead f K.FONT_FIXED_WIDTH + 1) - 1)
          (y + rows * (FontRead f K.FONT_HEIGHT + 1) - 1) textMode.SCROLL_UP := by
    unfold DefineArea.cells
    simp only [hx2m, hy2m]
  rw [hcells] at hok ⊢
  unfold DefineArea at hok ⊢
  split at hok
  · exact absurd hok Nat.zero_ne_one
  rename_i hcond
  rw [if_neg hcond]
  have hx2 : x + columns * (FontRead f K.FONT_FIXED_WIDTH + 1) - 1 < 255 := by omega
  have hy2 : y + rows * (FontRead f K.FONT_HEIGHT + 1) - 1 < 255 := by omega
  have hx2e : x + columns * (FontRead f K.FONT_FIXED_WIDTH + 1) - 1 + 1
      = x + columns * (FontRead f K.FONT_FIXED_WIDTH + 1) := by omega
  have hy2e : y + rows * (FontRead f K.FONT_HEIGHT + 1) - 1 + 1
      = y + rows * (FontRead f K.FONT_HEIGHT + 1) := by omega
  have hgrid := Puts_grid K f K.BLACK x y _ _ columns rows _ _ g.device cs n hfx rfl rfl hcs hh
    hx2e hy2e hx2 hy2 hc (by omega)
  refine ⟨rfl, ?_, ?_⟩
  · intro k hk
    cases k with
    | zero =>
      refine ⟨x, y, g.device, rfl, ?_⟩
      rw [Nat.zero_mod, Nat.zero_div, Nat.zero_mul, Nat.zero_mul]
      exact (areaState_grid_first K f K.BLACK x y _ _ columns _ _ g.device (cs 0) n hfx rfl rfl
        (hcs 0).1 (hcs 0).2.1 (hcs 0).2.2 hh hx2e hx2 hc (by omega)).1
    | succ k =>
      obtain ⟨dk, e⟩ := hgrid k (by omega)
      exact ⟨_, _, dk, e, (areaState_grid_step K f K.BLACK x y _ _ columns rows _ _ dk
        (cs (k + 1)) n k hfx rfl rfl (hcs (k + 1)).1 (hcs (k + 1)).2.1 (hcs (k + 1)).2.2 hh hx2e
        hy2e hx2 hy2 hc hk (by omega)).1⟩
  · have hpos : 0 < columns * rows := Nat.mul_pos hc hr
    have hsplit : columns * rows = columns * (rows - 1) + columns := by
      rw [← Nat.mul_succ, Nat.succ_eq_add_one, Nat.sub_add_cancel hr]
    have hdm : (columns * rows - 1) / columns = rows - 1
        ∧ (columns * rows - 1) % columns = columns - 1 :=
      (Nat.div_mod_unique hc).2 ⟨by omega, by omega⟩
    obtain ⟨dk, e⟩ := hgrid (columns * rows - 1) (by omega)
    rw [Nat.sub_add_cancel hpos, hdm.1, hdm.2, Nat.sub_add_cancel hc] at e
    obtain ⟨dn, e0, e1, e2, _⟩ := areaState_grid_scroll K f K.BLACK x y _ _ columns rows _ _ dk
      (cs (columns * rows)) n hfx rfl rfl (hcs _).1 (hcs _).2.1 (hcs _).2.2 hh hx2e hy2e hx2 hy2
      hc hr hf
    exact ⟨dk, dn, e, e0, e1, e2⟩

/-- The cell theorem applied to 3 by 2 cells of the 5 by 7 font at the origin of
the blank 128 by 64 display and a run of the letter A. -/
theorem DefineArea_cells_exact_witness :
    ks0108.DISPLAY_WIDTH ≤ 255 ∧ ks0108.isFixedWidtFont font5x7 = true
      ∧ FontRead font5x7 ks0108.FONT_HEIGHT ≤ 247 ∧ 1 ≤ 3 ∧ 1 ≤ 2
      ∧ 0 + 3 * (FontRead font5x7 ks0108.FONT_FIXED_WIDTH + 1) - 1 ≤ 255
      ∧ 0 + 2 * (FontRead font5x7 ks0108.FONT_HEIGHT + 1) - 1 ≤ 255
      ∧ (DefineArea.cells ks0108 (fullArea none 0 0 blank) 0 0 3 2 font5x7
          textMode.SCROLL_UP).1 = 1
      ∧ 256 < 298
      ∧ DefineArea.cells ks0108 (fullArea none 0 0 blank) 0 0 3 2 font5x7 textMode.SCROLL_UP
        = (1, areaState 0 0 17 15 font5x7 ks0108.BLACK 0 0 blank) :=
  ⟨by decide, by decide, by decide, by decide, by decide, by decide, by decide, by decide,
    by decide,
    (DefineArea_cells_exact ks0108 (fullArea none 0 0 blank) font5x7 0 0 3 2 (fun _ => 65) 298
      (by decide) (by decide) (by decide) (by decide) (by decide) (by decide) (by decide)
      (by decide)
      (fun _ => ⟨(by decide : (0x20 : Int) ≤ 65),
        (by decide : (FontRead font5x7 ks0108.FONT_FIRST_CHAR : Int) ≤ 65),
        (by decide : (65 : Int) < (FontRead font5x7 ks0108.FONT_FIRST_CHAR : Int)
          + (FontRead font5x7 ks0108.FONT_CHAR_COUNT : Int))⟩)
      (by decide)).1⟩

/-! ## The glyph renderer: what it leaves alone -/

theorem PutChar.paint_frame (K : Config) (font : Nat → Nat)
    (fontColor index page j width height pixels : Nat) (hp : pixels ≤ 255) :
    ∀ (n dbyte fdata tfp dp i : Nat), i < 8 → (i < dp ∨ dp + (pixels - tfp) ≤ i) →
      (PutChar.paint K font fontColor index page j width height pixels n dbyte fdata tfp
        dp).testBit i = dbyte.testBit i := by
  intro n
  induction n with
  | zero => intro dbyte fdata tfp dp i _ _; rfl
  | succ n ih =>
    intro dbyte fdata tfp dp i hi hout
    rw [PutChar.paint]
    by_cases hc : dp ≤ 7 ∧ tfp < pixels
    · rw [if_pos hc]
      simp only []
      rw [ih _ _ _ _ i hi (by omega)]
      have hne : ¬ i = dp := by omega
      split
      · rw [testBit_or_BV_mod]; simp [hi, hne]
      · rw [testBit_and_bnot_BV]; simp [hi, hne]
    · rw [if_neg hc]

/-- One column of a glyph slice, written directly or read, painted and
written back: the device cursor moves one column on and only the bits
`dy mod 8 .. dy mod 8 + (pixels - p) - 1` of the cell under the cursor can
change. -/
theorem PutChar.column_frame (K : Config) (font : Nat → Nat)
    (fontColor index page width height pixels p dy j : Nat) (hp : pixels ≤ 255) (d : Device) :
    (if dy &&& 7 = 0 ∧ p &&& 7 = 0 ∧ pixels - p ≥ 8 then
        WriteData d (PutChar.fetch K font fontColor index page j height p)
      else WriteData (ReadData d).1
        (PutChar.paint K font fontColor index page j width height pixels 8 (ReadData d).2
          (PutChar.fetch K font fontColor index page j height p) p (dy &&& 7))).col = d.col + 1
    ∧ (if dy &&& 7 = 0 ∧ p &&& 7 = 0 ∧ pixels - p ≥ 8 then
        WriteData d (PutChar.fetch K font fontColor index page j height p)
      else WriteData (ReadData d).1
        (PutChar.paint K font fontColor index page j width height pixels 8 (ReadData d).2
          (PutChar.fetch K font fontColor index page j height p) p (dy &&& 7))).page = d.page
    ∧ ∀ c r, ¬ (c = d.col ∧ r / 8 = d.page ∧ dy % 8 ≤ r % 8 ∧ r % 8 < dy % 8 + (pixels - p)) →
        pixel (if dy &&& 7 = 0 ∧ p &&& 7 = 0 ∧ pixels - p ≥ 8 then
            WriteData d (PutChar.fetch K font fontColor index page j height p)
          else WriteData (ReadData d).1
            (PutChar.paint K font fontColor index page j width height pixels 8 (ReadData d).2
              (PutChar.fetch K font fontColor index page j height p) p (dy &&& 7))) c r
          = pixel d c r := by
  have h8 : ∀ r : Nat, r % 8 < 8 := fun r => Nat.mod_lt _ (by norm_num)
  by_cases hc : dy &&& 7 = 0 ∧ p &&& 7 = 0 ∧ pixels - p ≥ 8
  · rw [if_pos hc]
    refine ⟨rfl, rfl, fun c r hout => ?_⟩
    rw [pixel_WriteData]
    have h0 : dy % 8 = 0 := by rw [← and_seven]; exact hc.1
    have := h8 r
    rw [if_neg (fun hh => hout ⟨hh.1, hh.2, by omega, by omega⟩)]
  · rw [if_neg hc]
    refine ⟨rfl, rfl, fun c r hout => ?_⟩
    rw [pixel_WriteData]
    by_cases hcell : c = (ReadData d).1.col ∧ r / 8 = (ReadData d).1.page
    · rw [if_pos hcell]
      have hcol : c = d.col := hcell.1
      have hpage : r / 8 = d.page := hcell.2
      rw [PutChar.paint_frame K font fontColor index page j width height pixels hp 8 _ _ p
        (dy &&& 7) (r % 8) (h8 r) (by
          rw [and_seven]
          by_cases hlt : r % 8 < dy % 8
          · exact Or.inl hlt
          · exact Or.inr (Nat.le_of_not_lt (fun hh => hout ⟨hcol, hpage, by omega, hh⟩)))]
      rw [testBit_ReadData]
      simp only [h8 r, decide_True, Bool.true_and, pixel, hcol, hpage]
    · rw [if_neg hcell, pixel_ReadData]

/-- The column loop of a glyph slice moves the device cursor `n` columns on and
can change only the bits `dy mod 8 .. dy mod 8 + (pixels - p) - 1` of the `n`
cells from the cursor on. -/
theorem PutChar.cols_frame (K : Config) (font : Nat → Nat)
    (fontColor index page width height pixels p dy : Nat) (hp : pixels ≤ 255) :
    ∀ (n j : Nat) (d : Device),
      (PutChar.cols K font fontColor index page width height pixels p dy n j d).col = d.col + n
      ∧ (PutChar.cols K font fontColor index page width height pixels p dy n j d).page = d.page
      ∧ ∀ c r, ¬ (d.col ≤ c ∧ c < d.col + n ∧ r / 8 = d.page
                    ∧ dy % 8 ≤ r % 8 ∧ r % 8 < dy % 8 + (pixels - p)) →
          pixel (PutChar.cols K font fontColor index page width height pixels p dy n j d) c r
            = pixel d c r := by
  intro n
  induction n with
  | zero => intro j d; exact ⟨rfl, rfl, fun _ _ _ => rfl⟩
  | succ n ih =>
    intro j d
    rw [PutChar.cols]
    simp only []
    obtain ⟨hcol, hpage, hpix⟩ := PutChar.column_frame K font fontColor index page width height
      pixels p dy j hp d
    obtain ⟨icol, ipage, ipix⟩ := ih (j + 1)
      (if dy &&& 7 = 0 ∧ p &&& 7 = 0 ∧ pixels - p ≥ 8 then
        WriteData d (PutChar.fetch K font fontColor index page j height p)
      else WriteData (ReadData d).1
        (PutChar.paint K font fontColor index page j width height pixels 8 (ReadData d).2
          (PutChar.fetch K font fontColor index page j height p) p (dy &&& 7)))
    refine ⟨by rw [icol, hcol]; omega, by rw [ipage, hpage], fun c r hout => ?_⟩
    rw [ipix c r (by rw [hcol, hpage]; intro hh; exact hout ⟨by omega, by omega, hh.2.2⟩),
      hpix c r (fun hh => hout ⟨by omega, by omega, hh.2⟩)]

/-- The gap column of a glyph slice moves the device cursor one column on and
can change only the bits `dy mod 8 .. dy mod 8 + (pixels - p) - 1` of the cell
under the cursor. -/
theorem PutChar.gap_frame (K : Config) (fontColor pixels p dy : Nat) (d : Device) :
    (PutChar.gap K fontColor pixels p dy d).col = d.col + 1
      ∧ (PutChar.gap K fontColor pixels p dy d).page = d.page
      ∧ ∀ c r, ¬ (c = d.col ∧ r / 8 = d.page ∧ dy % 8 ≤ r % 8 ∧ r % 8 < dy % 8 + (pixels - p)) →
          pixel (PutChar.gap K fontColor pixels p dy d) c r = pixel d c r := by
  have h8 : ∀ r : Nat, r % 8 < 8 := fun r => Nat.mod_lt _ (by norm_num)
  unfold PutChar.gap
  simp only [and_seven]
  by_cases hc : dy % 8 ≠ 0 ∨ pixels - p < 8
  · rw [if_pos hc]
    refine ⟨rfl, rfl, fun c r hout => ?_⟩
    rw [pixel_WriteData]
    by_cases hcell : c = (ReadData d).1.col ∧ r / 8 = (ReadData d).1.page
    · rw [if_pos hcell]
      have hcol : c = d.col := hcell.1
      have hpage : r / 8 = d.page := hcell.2
      have hrange : r % 8 < dy % 8 ∨ dy % 8 + (pixels - p) ≤ r % 8 := by
        by_cases hlt : r % 8 < dy % 8
        · exact Or.inl hlt
        · exact Or.inr (Nat.le_of_not_lt (fun hh => hout ⟨hcol, hpage, by omega, hh⟩))
      have hm0 : (if dy % 8 ≠ 0 then BV (dy % 8) - 1 else 0).testBit (r % 8)
          = decide (r % 8 < dy % 8) := by
        split
        · rw [testBit_BV_sub_one]
        · rename_i h0
          have : dy % 8 = 0 := by omega
          simp [this]
      have hmask : (if pixels - p < 8 then
            (if dy % 8 ≠ 0 then BV (dy % 8) - 1 else 0) ||| bnot (BV (pixels - p) - 1)
          else (if dy % 8 ≠ 0 then BV (dy % 8) - 1 else 0)).testBit (r % 8) = true := by
        split
        · rw [Nat.testBit_or, hm0, testBit_bnot, testBit_BV_sub_one]
          have := h8 r
          rcases hrange with h | h
          · simp [h]
          · have h2 : ¬ r % 8 < pixels - p := by omega
            simp [this, h2]
        · rw [hm0]
          have := h8 r
          rcases hrange with h | h
          · simp [h]
          · omega
      have hrd : (ReadData d).2.testBit (r % 8) = pixel d c r := by
        rw [testBit_ReadData]
        simp only [h8 r, decide_True, Bool.true_and, pixel, hcol, hpage]
      split
      · rw [Nat.testBit_or, testBit_bnot, hmask, hrd]; simp
      · rw [Nat.testBit_and, hmask, hrd]; simp
    · rw [if_neg hcell, pixel_ReadData]
  · rw [if_neg hc]
    refine ⟨rfl, rfl, fun c r hout => ?_⟩
    rw [pixel_WriteData]
    have := h8 r
    rw [if_neg (fun hh => hout ⟨hh.1, hh.2, by omega, by omega⟩)]

/-- The slice loop can change only the pixels of columns `x .. x + width` and
rows `y .. y + pixels - 1`, as long as these rows stay below 256. -/
theorem PutChar.slices_frame (K : Config) (font : Nat → Nat)
    (fontColor index width height pixels x y : Nat) (hp : pixels ≤ 255) (hy : y + pixels ≤ 256) :
    ∀ (fuel : Nat) (d : Device) (p : Nat) (d1 : Device),
      PutChar.slices K font fontColor index width height pixels x y fuel d p = some d1 →
      ∀ c r, ¬ (x ≤ c ∧ c ≤ x + width ∧ y ≤ r ∧ r < y + pixels) → pixel d1 c r = pixel d c r := by
  intro fuel
  induction fuel with
  | zero => intro d p d1 h; simp [PutChar.slices] at h
  | succ fuel ih =>
    intro d p d1 h c r hout
    rw [PutChar.slices] at h
    by_cases hc : p < pixels
    · rw [if_pos hc] at h
      have hdy : (y + p) % 256 = y + p := Nat.mod_eq_of_lt (by omega)
      simp only [hdy] at h
      rw [ih _ _ _ h c r hout]
      obtain ⟨ccol, cpage, cpix⟩ := PutChar.cols_frame K font fontColor index
        (p / 8 * width % 256) width height pixels p (y + p) hp width 0
        (GotoXY d x ((y + p) &&& bnot 7))
      obtain ⟨_, _, gpix⟩ := PutChar.gap_frame K fontColor pixels p (y + p)
        (PutChar.cols K font fontColor index (p / 8 * width % 256) width height pixels p (y + p)
          width 0 (GotoXY d x ((y + p) &&& bnot 7)))
      have hpg : (GotoXY d x ((y + p) &&& bnot 7)).page = (y + p) / 8 :=
        and_bnot_seven_div (y + p) (by omega)
      have hcl : (GotoXY d x ((y + p) &&& bnot 7)).col = x := rfl
      rw [gpix c r (by
          rw [ccol, cpage, hpg, hcl]
          intro hh
          exact hout ⟨by omega, by omega, by omega, by omega⟩),
        cpix c r (by
          rw [hpg, hcl]
          intro hh
          exact hout ⟨by omega, by omega, by omega, by omega⟩),
        pixel_GotoXY]
    · rw [if_neg hc] at h
      cases h
      rfl

/-- The glyph drawing returns for a font height of at most 247, and when the
glyph rows stay below 256 it changes only pixels of columns `x .. x + width`,
rows `y .. y + height`. -/
theorem PutChar.draw_frame (K : Config) (fuel : Nat) (g : gText) (font : Nat → Nat)
    (index width height : Nat) (hh : height ≤ 247) (hy : g.y + height ≤ 255) (hf : 248 < fuel) :
    ∃ d1, PutChar.draw K fuel g font index width height
        = some (1, { g with device := d1, x := (g.x + width + 1) % 256 })
      ∧ ∀ c r, ¬ (g.x ≤ c ∧ c ≤ g.x + width ∧ g.y ≤ r ∧ r ≤ g.y + height) →
          pixel d1 c r = pixel g.device c r := by
  unfold PutChar.draw
  have hp : (height + 1) % 256 = height + 1 := Nat.mod_eq_of_lt (by omega)
  rw [hp]
  obtain ⟨d1, h1⟩ := PutChar.slices_returns K font g.FontColor index width height
    (height + 1) g.x g.y (by omega) fuel g.device 0 (by omega)
  simp only [h1]
  refine ⟨d1, rfl, fun c r hout => ?_⟩
  exact PutChar.slices_frame K font g.FontColor index width height (height + 1) g.x g.y
    (by omega) (by omega) fuel g.device 0 d1 h1 c r (fun hh => hout ⟨hh.1, hh.2.1, hh.2.2.1, by omega⟩)

/-! ## Render, then erase the line -/

theorem writesAt_append (a b : List DevOp) (c p : Nat) :
    writesAt (a ++ b) c p = writesAt a c p + writesAt b c p := by
  simp only [writesAt, List.countP_append]

theorem readsAt_append (a b : List DevOp) (c p : Nat) :
    readsAt (a ++ b) c p = readsAt a c p + readsAt b c p := by
  simp only [readsAt, List.countP_append]

theorem fillsIn_append (a b : List DevOp) : fillsIn (a ++ b) = fillsIn a + fillsIn b := by
  simp only [fillsIn, List.countP_append]

theorem CellsOnce.nil (R : Nat → Nat → Prop) (hR : ∀ c p, ¬ R c p) : CellsOnce [] R :=
  ⟨fun c p h => absurd h (hR c p), fun _ _ _ => rfl, fun _ _ => Nat.le_refl _, rfl⟩

theorem CellsOnce.write (c0 p0 v : Nat) :
    CellsOnce [DevOp.write c0 p0 v] (fun c p => c = c0 ∧ p = p0) := by
  refine ⟨fun c p h => ?_, fun c p h => ?_, fun c p => ?_, rfl⟩
  · obtain ⟨h1, h2⟩ := h
    subst h1 h2
    simp [writesAt]
  · have : ¬ (c0 = c ∧ p0 = p) := fun hh => h ⟨hh.1.symm, hh.2.symm⟩
    simp [writesAt, this]
  · simp [readsAt]

theorem CellsOnce.read_write (c0 p0 v : Nat) :
    CellsOnce [DevOp.read c0 p0, DevOp.write c0 p0 v] (fun c p => c = c0 ∧ p = p0) := by
  refine ⟨fun c p h => ?_, fun c p h => ?_, fun c p => ?_, rfl⟩
  · obtain ⟨h1, h2⟩ := h
    subst h1 h2
    simp [writesAt]
  · have : ¬ (c0 = c ∧ p0 = p) := fun hh => h ⟨hh.1.symm, hh.2.symm⟩
    simp [writesAt, this]
  · by_cases h : c0 = c ∧ p0 = p
    · simp [readsAt, writesAt, h]
    · simp [readsAt, writesAt, h]

theorem CellsOnce.append {t1 t2 : List DevOp} {R1 R2 R : Nat → Nat → Prop}
    (h1 : CellsOnce t1 R1) (h2 : CellsOnce t2 R2) (hd : ∀ c p, R1 c p → R2 c p → False)
    (hR : ∀ c p, R c p ↔ R1 c p ∨ R2 c p) : CellsOnce (t1 ++ t2) R := by
  refine ⟨fun c p h => ?_, fun c p h => ?_, fun c p => ?_, ?_⟩
  · rw [writesAt_append]
    rcases (hR c p).1 h with h | h
    · rw [h1.inside c p h, h2.outside c p (fun hh => hd c p h hh)]
    · rw [h2.inside c p h, h1.outside c p (fun hh => hd c p hh h)]
  · rw [writesAt_append, h1.outside c p (fun hh => h ((hR c p).2 (Or.inl hh))),
      h2.outside c p (fun hh => h ((hR c p).2 (Or.inr hh)))]
  · rw [writesAt_append, readsAt_append]
    exact Nat.add_le_add (h1.reads c p) (h2.reads c p)
  · rw [fillsIn_append, h1.fills, h2.fills]

theorem log_read_write (d : Device) (v : Nat) :
    (WriteData (ReadData d).1 v).log
      = d.log ++ [DevOp.read d.col d.page, DevOp.write d.col d.page (v % 256)] := by
  simp only [WriteData, ReadData, List.append_assoc, List.singleton_append]

/-- Log of one glyph column: one write of the cell under the cursor, after at
most one read of it. -/
theorem PutChar.column_log (K : Config) (font : Nat → Nat)
    (fontColor index page width height pixels p dy j : Nat) (d : Device) :
    ∃ tr, (if dy &&& 7 = 0 ∧ p &&& 7 = 0 ∧ pixels - p ≥ 8 then
          WriteData d (PutChar.fetch K font fontColor index page j height p)
        else WriteData (ReadData d).1
          (PutChar.paint K font fontColor index page j width height pixels 8 (ReadData d).2
            (PutChar.fetch K font fontColor index page j height p) p (dy &&& 7))).log
        = d.log ++ tr
      ∧ CellsOnce tr (fun c pg => c = d.col ∧ pg = d.page) := by
  by_cases hc : dy &&& 7 = 0 ∧ p &&& 7 = 0 ∧ pixels - p ≥ 8
  · rw [if_pos hc]
    exact ⟨_, rfl, CellsOnce.write d.col d.page _⟩
  · rw [if_neg hc]
    exact ⟨_, log_read_write d _, CellsOnce.read_write d.col d.page _⟩

/-- Log of the column loop: the `n` cells from the cursor on, each written once
after at most one read. -/
theorem PutChar.cols_log (K : Config) (font : Nat → Nat)
    (fontColor index page width height pixels p dy : Nat) (hp : pixels ≤ 255) :
    ∀ (n j : Nat) (d : Device),
      ∃ tr, (PutChar.cols K font fontColor index page width height pixels p dy n j d).log
          = d.log ++ tr
        ∧ CellsOnce tr (fun c pg => d.col ≤ c ∧ c < d.col + n ∧ pg = d.page) := by
  intro n
  induction n with
  | zero =>
    intro j d
    exact ⟨[], (List.append_nil _).symm, CellsOnce.nil _ (fun c p h => by omega)⟩
  | succ n ih =>
    intro j d
    rw [PutChar.cols]
    simp only []
    obtain ⟨hcol, hpage, _⟩ := PutChar.column_frame K font fontColor index page width height
      pixels p dy j hp d
    obtain ⟨t1, hl1, ht1⟩ := PutChar.column_log K font fontColor index page width height
      pixels p dy j d
    obtain ⟨t2, hl2, ht2⟩ := ih (j + 1)
      (if dy &&& 7 = 0 ∧ p &&& 7 = 0 ∧ pixels - p ≥ 8 then
        WriteData d (PutChar.fetch K font fontColor index page j height p)
      else WriteData (ReadData d).1
        (PutChar.paint K font fontColor index page j width height pixels 8 (ReadData d).2
          (PutChar.fetch K font fontColor index page j height p) p (dy &&& 7)))
    rw [hcol, hpage] at ht2
    refine ⟨t1 ++ t2, by rw [hl2, hl1, List.append_assoc], ?_⟩
    exact CellsOnce.append ht1 ht2 (fun c pg h1 h2 => by omega)
      (fun c pg => ⟨fun h => by omega, fun h => by omega⟩)

/-- Log of the gap column: one write of the cell under the cursor, after at
most one read of it. -/
theorem PutChar.gap_log (K : Config) (fontColor pixels p dy : Nat) (d : Device) :
    ∃ tr, (PutChar.gap K fontColor pixels p dy d).log = d.log ++ tr
      ∧ CellsOnce tr (fun c pg => c = d.col ∧ pg = d.page) := by
  unfold PutChar.gap
  by_cases hc : dy &&& 7 ≠ 0 ∨ pixels - p < 8
  · rw [if_pos hc]
    exact ⟨_, log_read_write d _, CellsOnce.read_write d.col d.page _⟩
  · rw [if_neg hc]
    exact ⟨_, rfl, CellsOnce.write d.col d.page _⟩

/-- Log of the slice loop from the glyph row `p` on, where `p` is 0 or starts a
page: the cells of columns `x .. x + width` on the pages from that of row
`y + p` to that of row `y + pixels - 1`, each written once after at most one
read. -/
theorem PutChar.slices_log (K : Config) (font : Nat → Nat)
    (fontColor index width height pixels x y : Nat) (hp1 : 1 ≤ pixels) (hp : pixels ≤ 248)
    (hy : y + pixels ≤ 256) :
    ∀ (fuel : Nat) (d : Device) (p : Nat) (d1 : Device),
      PutChar.slices K font fontColor index width height pixels x y fuel d p = some d1 →
      (p = 0 ∨ (y + p) % 8 = 0) →
      ∃ tr, d1.log = d.log ++ tr
        ∧ CellsOnce tr (fun c pg => x ≤ c ∧ c ≤ x + width ∧ (y + p) / 8 ≤ pg
            ∧ pg ≤ (y + pixels - 1) / 8) := by
  intro fuel
  induction fuel with
  | zero => intro d p d1 h; simp [PutChar.slices] at h
  | succ fuel ih =>
    intro d p d1 h hinv
    rw [PutChar.slices] at h
    by_cases hc : p < pixels
    · rw [if_pos hc] at h
      have hdy : (y + p) % 256 = y + p := Nat.mod_eq_of_lt (by omega)
      have hm : (p + (8 - (y + p) % 8)) % 256 = p + (8 - (y + p) % 8) :=
        Nat.mod_eq_of_lt (by omega)
      simp only [hdy, and_seven, hm] at h
      obtain ⟨t3, hl3, ht3⟩ := ih _ _ _ h (Or.inr (by omega))
      obtain ⟨ccol, cpage, _⟩ := PutChar.cols_frame K font fontColor index
        (p / 8 * width % 256) width height pixels p (y + p) (by omega) width 0
        (GotoXY d x ((y + p) &&& bnot 7))
      obtain ⟨t1, hl1, ht1⟩ := PutChar.cols_log K font fontColor index
        (p / 8 * width % 256) width height pixels p (y + p) (by omega) width 0
        (GotoXY d x ((y + p) &&& bnot 7))
      obtain ⟨t2, hl2, ht2⟩ := PutChar.gap_log K fontColor pixels p (y + p)
        (PutChar.cols K font fontColor index (p / 8 * width % 256) width height pixels p (y + p)
          width 0 (GotoXY d x ((y + p) &&& bnot 7)))
      have hpg : (GotoXY d x ((y + p) &&& bnot 7)).page = (y + p) / 8 :=
        and_bnot_seven_div (y + p) (by omega)
      have hcl : (GotoXY d x ((y + p) &&& bnot 7)).col = x := rfl
      have hlg : (GotoXY d x ((y + p) &&& bnot 7)).log = d.log := rfl
      rw [ccol, cpage, hpg, hcl] at ht2
      rw [hpg, hcl] at ht1
      rw [hlg] at hl1
      refine ⟨(t1 ++ t2) ++ t3, by rw [hl3, hl2, hl1, List.append_assoc, List.append_assoc,
        List.append_assoc], ?_⟩
      have h12 : CellsOnce (t1 ++ t2)
          (fun c pg => x ≤ c ∧ c ≤ x + width ∧ pg = (y + p) / 8) :=
        CellsOnce.append ht1 ht2 (fun c pg h1 h2 => by omega)
          (fun c pg => ⟨fun h => by omega, fun h => by omega⟩)
      exact CellsOnce.append h12 ht3 (fun c pg h1 h2 => by omega)
        (fun c pg => ⟨fun h => by omega, fun h => by omega⟩)
    · rw [if_neg hc] at h
      cases h
      exact ⟨[], (List.append_nil _).symm, CellsOnce.nil _ (fun c pg hh => by omega)⟩

set_option maxRecDepth 20000 in
/-- C13, the claim as stated refuted.  On a display of 255 by 255 pixels, area
`(0, 0, 127, 254)`, solid 5 by 7 font, blank display with an empty log, cursor
at `(0, 250)`: the glyph and its gap row cover rows 250..257, that is pages
`250 div 8 = 31` to `257 div 8 = 32`.  The render (no wrap, returns 1) never
writes the cell of column 0 on page 32, and it reads and writes the cell of
column 0 on page 0, which the glyph does not cover: the row counter `dy` is a
byte and wraps from 255 to 0. -/
theorem PutChar_io_wraps_to_page_zero :
    (areaState 0 0 127 254 font5x7solid 255 0 250 blank).x + 5
        ≤ (areaState 0 0 127 254 font5x7solid 255 0 250 blank).tarea.x2
      ∧ (areaState 0 0 127 254 font5x7solid 255 0 250 blank).device.log = []
      ∧ 250 / 8 = 31 ∧ (250 + 7) / 8 = 32
      ∧ (PutChar panel255 300 (areaState 0 0 127 254 font5x7solid 255 0 250 blank) 65).map
          (fun r => (r.1, writesAt r.2.device.log 0 31, writesAt r.2.device.log 0 32,
            writesAt r.2.device.log 0 0, readsAt r.2.device.log 0 0))
        = some (1, 1, 0, 1, 1) := by
  decide

/-- C13, amended.  For every selected font of height `h <= 247`, every drawable
character `c` of width `w` and every state with `x + w <= areaX2` (no wrap) and
`y + h <= 255`: `PutChar(c)` returns 1 (given fuel above 249) and the device
operations `tr` it appends to the log write every cell of columns `x..x+w`,
pages `(y div 8)..((y+h) div 8)` exactly once and read it at most once, neither
read nor write any other cell, and hold no `SetPixels`. -/
theorem PutChar_minimal_io (K : Config) (g : gText) (f : Nat → Nat) (c : Int) (fuel : Nat)
    (hF : g.Font = some f) (h20 : 0x20 ≤ c)
    (hlo : (FontRead f K.FONT_FIRST_CHAR : Int) ≤ c)
    (hhi : c < (FontRead f K.FONT_FIRST_CHAR : Int) + (FontRead f K.FONT_CHAR_COUNT : Int))
    (hfit : g.x + PutChar.width K f (Int.toNat (c - (FontRead f K.FONT_FIRST_CHAR : Int)))
      ≤ g.tarea.x2)
    (hh : FontRead f K.FONT_HEIGHT ≤ 247) (hy : g.y + FontRead f K.FONT_HEIGHT ≤ 255)
    (hf : 249 < fuel) :
    ∃ g1 tr, PutChar K fuel g c = some (1, g1)
      ∧ g1.device.log = g.device.log ++ tr
      ∧ (∀ col pg,
          (g.x ≤ col
            ∧ col ≤ g.x + PutChar.width K f (Int.toNat (c - (FontRead f K.FONT_FIRST_CHAR : Int)))
            ∧ g.y / 8 ≤ pg ∧ pg ≤ (g.y + FontRead f K.FONT_HEIGHT) / 8) →
          writesAt tr col pg = 1 ∧ readsAt tr col pg ≤ 1)
      ∧ (∀ col pg,
          ¬ (g.x ≤ col
            ∧ col ≤ g.x + PutChar.width K f (Int.toNat (c - (FontRead f K.FONT_FIRST_CHAR : Int)))
            ∧ g.y / 8 ≤ pg ∧ pg ≤ (g.y + FontRead f K.FONT_HEIGHT) / 8) →
          writesAt tr col pg = 0 ∧ readsAt tr col pg = 0)
      ∧ fillsIn tr = 0 := by
  obtain ⟨n, rfl⟩ : ∃ n, fuel = n + 1 := ⟨fuel - 1, by omega⟩
  rw [PutChar_drawable K n g f c hF h20 hlo hhi, if_neg (by omega)]
  unfold PutChar.draw
  have hp : (FontRead f K.FONT_HEIGHT + 1) % 256 = FontRead f K.FONT_HEIGHT + 1 :=
    Nat.mod_eq_of_lt (by omega)
  rw [hp]
  obtain ⟨d1, h1⟩ := PutChar.slices_returns K f g.FontColor
    (PutChar.index K f (Int.toNat (c - (FontRead f K.FONT_FIRST_CHAR : Int))))
    (PutChar.width K f (Int.toNat (c - (FontRead f K.FONT_FIRST_CHAR : Int))))
    (FontRead f K.FONT_HEIGHT) (FontRead f K.FONT_HEIGHT + 1) g.x g.y (by omega) n g.device 0
    (by omega)
  obtain ⟨tr, hl, ht⟩ := PutChar.slices_log K f g.FontColor
    (PutChar.index K f (Int.toNat (c - (FontRead f K.FONT_FIRST_CHAR : Int))))
    (PutChar.width K f (Int.toNat (c - (FontRead f K.FONT_FIRST_CHAR : Int))))
    (FontRead f K.FONT_HEIGHT) (FontRead f K.FONT_HEIGHT + 1) g.x g.y (by omega) (by omega)
    (by omega) n g.device 0 d1 h1 (Or.inl rfl)
  simp only [h1]
  refine ⟨_, tr, rfl, hl, fun col pg hin => ?_, fun col pg hout => ?_, ht.fills⟩
  · have hw := ht.inside col pg ⟨hin.1, hin.2.1, hin.2.2.1, hin.2.2.2⟩
    have hr := ht.reads col pg
    exact ⟨hw, by omega⟩
  · have hw := ht.outside col pg (fun hh2 => hout ⟨hh2.1, hh2.2.1, hh2.2.2.1, hh2.2.2.2⟩)
    have hr := ht.reads col pg
    exact ⟨hw, by omega⟩

/-- The minimal I/O theorem applied to `'A'` in the 5 by 7 font with the cursor
at `(40, 13)` of the speckled display: the cells of columns 40..45 on pages 1
and 2. -/
theorem PutChar_minimal_io_witness :
    (fullArea (some font5x7) 40 13 speckled).Font = some font5x7 ∧ (0x20 : Int) ≤ 65
      ∧ (FontRead font5x7 ks0108.FONT_FIRST_CHAR : Int) ≤ 65
      ∧ (65 : Int) < (FontRead font5x7 ks0108.FONT_FIRST_CHAR : Int)
          + (FontRead font5x7 ks0108.FONT_CHAR_COUNT : Int)
      ∧ (fullArea (some font5x7) 40 13 speckled).x
          + PutChar.width ks0108 font5x7
              (Int.toNat (65 - (FontRead font5x7 ks0108.FONT_FIRST_CHAR : Int)))
          ≤ (fullArea (some font5x7) 40 13 speckled).tarea.x2
      ∧ FontRead font5x7 ks0108.FONT_HEIGHT ≤ 247
      ∧ (fullArea (some font5x7) 40 13 speckled).y + FontRead font5x7 ks0108.FONT_HEIGHT ≤ 255
      ∧ 249 < 300
      ∧ ∃ g1 tr, PutChar ks0108 300 (fullArea (some font5x7) 40 13 speckled) 65 = some (1, g1)
        ∧ g1.device.log = (fullArea (some font5x7) 40 13 speckled).device.log ++ tr
        ∧ writesAt tr 45 2 = 1 ∧ readsAt tr 45 2 ≤ 1
        ∧ writesAt tr 46 2 = 0 ∧ readsAt tr 46 2 = 0 :=
  ⟨rfl, by decide, by decide, by decide, by decide, by decide, by decide, by decide,
    (PutChar_minimal_io ks0108 (fullArea (some font5x7) 40 13 speckled) font5x7 65 300 rfl
      (by decide) (by decide) (by decide) (by decide) (by decide) (by decide)
      (by decide)).elim fun g1 h => h.elim fun tr h2 =>
        ⟨g1, tr, h2.1, h2.2.1, (h2.2.2.1 45 2 (by decide)).1, (h2.2.2.1 45 2 (by decide)).2,
          (h2.2.2.2.1 46 2 (by decide)).1, (h2.2.2.2.1 46 2 (by decide)).2⟩⟩

/-! ## Newline: where the cursor goes -/

/-- `SpecialChar('\\n')` in scroll-down mode, lines 503 and 578-617, in one
piece: the erase to the end of the line, then the cursor one line up when
`y > areaY1 + h`, the scroll and the cursor on the first line otherwise. -/
theorem SpecialChar_newline_down (K : Config) (fuel : Nat) (g : gText) (f : Nat → Nat)
    (hmode : g.tarea.mode = textMode.SCROLL_DOWN) :
    SpecialChar K fuel g f 10
      = if g.y > g.tarea.y1 + FontRead f K.FONT_HEIGHT then
          some { g with
            device := (if g.x < g.tarea.x2 then SetPixels K g.device g.x g.y g.tarea.x2
              ((g.y + FontRead f K.FONT_HEIGHT) % 256) (bgColor K g.FontColor) else g.device)
            x := g.tarea.x1, y := (g.y + 256 - (FontRead f K.FONT_HEIGHT + 1)) % 256 }
        else
          (ScrollDown K fuel
            (if g.x < g.tarea.x2 then SetPixels K g.device g.x g.y g.tarea.x2
              ((g.y + FontRead f K.FONT_HEIGHT) % 256) (bgColor K g.FontColor) else g.device)
            g.tarea.x1 g.tarea.y1 g.tarea.x2 g.tarea.y2
            (Int.toNat (((FontRead f K.FONT_HEIGHT : Int) + 1
              - ((g.tarea.y1 : Int) - (g.y : Int))) % 256))
            (bgColor K g.FontColor)).map
            (fun d2 => { g with device := d2, x := g.tarea.x1, y := g.tarea.y1 }) := by
  unfold SpecialChar
  rw [if_pos rfl]
  simp only [hmode]
  split
  · rfl
  · cases ScrollDown K fuel
      (if g.x < g.tarea.x2 then SetPixels K g.device g.x g.y g.tarea.x2
        ((g.y + FontRead f K.FONT_HEIGHT) % 256) (bgColor K g.FontColor) else g.device)
      g.tarea.x1 g.tarea.y1 g.tarea.x2 g.tarea.y2
      (Int.toNat (((FontRead f K.FONT_HEIGHT : Int) + 1
        - ((g.tarea.y1 : Int) - (g.y : Int))) % 256))
      (bgColor K g.FontColor) <;> rfl

/-- After a newline the cursor is at the left edge of the area on a row that
holds a whole text line, for an area at least one line tall that ends before
column and row 255 and a cursor row inside it; the row is computed without
wrap-around. -/
theorem SpecialChar_newline_cursor (K : Config) (fuel : Nat) (g : gText) (f : Nat → Nat)
    (hx2 : g.tarea.x2 < 255) (hy2 : g.tarea.y2 < 255)
    (hcy1 : g.tarea.y1 ≤ g.y) (hcy2 : g.y ≤ g.tarea.y2)
    (hroom : g.tarea.y1 + FontRead f K.FONT_HEIGHT ≤ g.tarea.y2) (hf : 257 < fuel) :
    ∃ g1, SpecialChar K fuel g f 10 = some g1
      ∧ g1.tarea = g.tarea ∧ g1.Font = g.Font ∧ g1.FontColor = g.FontColor
      ∧ g1.x = g.tarea.x1
      ∧ g.tarea.y1 ≤ g1.y ∧ g1.y + FontRead f K.FONT_HEIGHT ≤ g.tarea.y2
      ∧ g1.y = (match g.tarea.mode with
          | textMode.SCROLL_UP =>
            if g.y + 2 * FontRead f K.FONT_HEIGHT ≥ g.tarea.y2
            then g.tarea.y2 - FontRead f K.FONT_HEIGHT else g.y + FontRead f K.FONT_HEIGHT + 1
          | textMode.SCROLL_DOWN =>
            if g.y > g.tarea.y1 + FontRead f K.FONT_HEIGHT
            then g.y - (FontRead f K.FONT_HEIGHT + 1) else g.tarea.y1) := by
  cases hmode : g.tarea.mode with
  | SCROLL_UP =>
    rw [SpecialChar_newline_up K fuel g f hmode]
    by_cases hs : g.y + 2 * FontRead f K.FONT_HEIGHT ≥ g.tarea.y2
    · rw [if_pos hs]
      obtain ⟨d1, h1⟩ := ScrollUp_returns K
        (if g.x < g.tarea.x2 then SetPixels K g.device g.x g.y g.tarea.x2
          ((g.y + FontRead f K.FONT_HEIGHT) % 256) (bgColor K g.FontColor) else g.device)
        g.tarea.x1 g.tarea.y1 g.tarea.x2 g.tarea.y2
        ((2 * FontRead f K.FONT_HEIGHT + g.y - g.tarea.y2 + 1) % 256)
        (bgColor K g.FontColor) fuel hx2 hy2 (by omega)
      rw [h1]
      have hy : (g.tarea.y2 + 256 - FontRead f K.FONT_HEIGHT) % 256
          = g.tarea.y2 - FontRead f K.FONT_HEIGHT := by omega
      refine ⟨_, rfl, rfl, rfl, rfl, rfl, ?_, ?_, ?_⟩
      · show g.tarea.y1 ≤ (g.tarea.y2 + 256 - FontRead f K.FONT_HEIGHT) % 256
        omega
      · show (g.tarea.y2 + 256 - FontRead f K.FONT_HEIGHT) % 256 + FontRead f K.FONT_HEIGHT
          ≤ g.tarea.y2
        omega
      · show (g.tarea.y2 + 256 - FontRead f K.FONT_HEIGHT) % 256 = _
        simp only [if_pos hs]
        exact hy
    · rw [if_neg hs]
      refine ⟨_, rfl, rfl, rfl, rfl, rfl, ?_, ?_, ?_⟩
      · show g.tarea.y1 ≤ (g.y + FontRead f K.FONT_HEIGHT + 1) % 256
        omega
      · show (g.y + FontRead f K.FONT_HEIGHT + 1) % 256 + FontRead f K.FONT_HEIGHT ≤ g.tarea.y2
        omega
      · show (g.y + FontRead f K.FONT_HEIGHT + 1) % 256 = _
        simp only [if_neg hs]
        omega
  | SCROLL_DOWN =>
    rw [SpecialChar_newline_down K fuel g f hmode]
    by_cases hs : g.y > g.tarea.y1 + FontRead f K.FONT_HEIGHT
    · rw [if_pos hs]
      refine ⟨_, rfl, rfl, rfl, rfl, rfl, ?_, ?_, ?_⟩
      · show g.tarea.y1 ≤ (g.y + 256 - (FontRead f K.FONT_HEIGHT + 1)) % 256
        omega
      · show (g.y + 256 - (FontRead f K.FONT_HEIGHT + 1)) % 256 + FontRead f K.FONT_HEIGHT
          ≤ g.tarea.y2
        omega
      · show (g.y + 256 - (FontRead f K.FONT_HEIGHT + 1)) % 256 = _
        simp only [if_pos hs]
        omega
    · rw [if_neg hs]
      obtain ⟨d1, h1⟩ := ScrollDown_returns K
        (if g.x < g.tarea.x2 then SetPixels K g.device g.x g.y g.tarea.x2
          ((g.y + FontRead f K.FONT_HEIGHT) % 256) (bgColor K g.FontColor) else g.device)
        g.tarea.x1 g.tarea.y1 g.tarea.x2 g.tarea.y2
        (Int.toNat (((FontRead f K.FONT_HEIGHT : Int) + 1
          - ((g.tarea.y1 : Int) - (g.y : Int))) % 256))
        (bgColor K g.FontColor) fuel hx2 hf
      rw [h1]
      refine ⟨_, rfl, rfl, rfl, rfl, rfl, Nat.le_refl _, hroom, ?_⟩
      show g.tarea.y1 = _
      simp only [if_neg hs]

set_option maxRecDepth 20000 in
/-- C21, evaluated at a failing input.  Scroll-down area `(0, 8, 3, 63)`, font
height 7, cursor at `(2, 11)`, so `areaY1 <= y <= areaY1 + h`, on a display
whose only set pixel is `(0, 11)`, in the top row of the current line.  The
claimed scroll count is `(h+1) - (y - areaY1) = 5`.  The code calls
`ScrollDown` with 11 pixels, `height+1 - (tarea.y1 - y)` of line 608, and sets
the cursor to `(0, 8)`: the marked pixel ends up on row 22, not on row
`8 + h + 1 = 16`. -/
theorem SpecialChar_scroll_down_count :
    (areaDown 0 8 3 63 font5x7 255 2 11 (dotAt 0 11)).tarea.mode = textMode.SCROLL_DOWN
      ∧ FontRead font5x7 ks0108.FONT_HEIGHT = 7
      ∧ 8 ≤ 11 ∧ 11 ≤ 8 + 7 ∧ (7 + 1) - (11 - 8) = 5
      ∧ SpecialChar ks0108 300 (areaDown 0 8 3 63 font5x7 255 2 11 (dotAt 0 11)) font5x7 10
          = (ScrollDown ks0108 300 (SetPixels ks0108 (dotAt 0 11) 2 11 3 18 0) 0 8 3 63 11 0).map
              (fun d2 => areaDown 0 8 3 63 font5x7 255 0 8 d2)
      ∧ (SpecialChar ks0108 300 (areaDown 0 8 3 63 font5x7 255 2 11 (dotAt 0 11)) font5x7 10).map
          (fun g => (g.x, g.y, pixel g.device 0 16, pixel g.device 0 22))
        = some (0, 8, false, true) := by
  refine ⟨rfl, by decide, by decide, by decide, by decide, ?_, by decide⟩
  rw [SpecialChar_newline_down ks0108 300 _ font5x7 rfl]
  rfl

/-- C22. Newline keeps the cursor in bounds.  On a display of at most 255
columns and rows, for every font height `h`, every area inside the display with
`areaY1 + h <= areaY2`, every cursor row inside the area and either scroll
mode, `SpecialChar('\\n')` returns (given fuel above 257) and afterwards the
cursor has `x == areaX1`, `areaY1 <= y` and `y + h <= areaY2`.  The new row is
`areaY2 - h` or `y + h + 1` in scroll-up mode and `y - (h+1)` or `areaY1` in
scroll-down mode, as natural numbers: the byte arithmetic of the cursor does
not wrap. -/
theorem SpecialChar_newline_in_bounds (K : Config) (fuel : Nat) (g : gText) (f : Nat → Nat)
    (hW : K.DISPLAY_WIDTH ≤ 255) (hH : K.DISPLAY_HEIGHT ≤ 255)
    (hx2 : g.tarea.x2 < K.DISPLAY_WIDTH) (hy2 : g.tarea.y2 < K.DISPLAY_HEIGHT)
    (hcy1 : g.tarea.y1 ≤ g.y) (hcy2 : g.y ≤ g.tarea.y2)
    (hroom : g.tarea.y1 + FontRead f K.FONT_HEIGHT ≤ g.tarea.y2) (hf : 257 < fuel) :
    ∃ g1, SpecialChar K fuel g f 10 = some g1
      ∧ g1.tarea = g.tarea
      ∧ g1.x = g.tarea.x1
      ∧ g.tarea.y1 ≤ g1.y ∧ g1.y + FontRead f K.FONT_HEIGHT ≤ g.tarea.y2
      ∧ g1.y = (match g.tarea.mode with
          | textMode.SCROLL_UP =>
            if g.y + 2 * FontRead f K.FONT_HEIGHT ≥ g.tarea.y2
            then g.tarea.y2 - FontRead f K.FONT_HEIGHT else g.y + FontRead f K.FONT_HEIGHT + 1
          | textMode.SCROLL_DOWN =>
            if g.y > g.tarea.y1 + FontRead f K.FONT_HEIGHT
            then g.y - (FontRead f K.FONT_HEIGHT + 1) else g.tarea.y1) := by
  obtain ⟨g1, h1, h2, _, _, h3, h4, h5, h6⟩ := SpecialChar_newline_cursor K fuel g f
    (by omega) (by omega) hcy1 hcy2 hroom hf
  exact ⟨g1, h1, h2, h3, h4, h5, h6⟩

/-- The in-bounds theorem applied to a newline on the first line of the
scroll-down area `(0, 8, 3, 63)` with the 5 by 7 font. -/
theorem SpecialChar_newline_in_bounds_witness :
    ks0108.DISPLAY_WIDTH ≤ 255 ∧ ks0108.DISPLAY_HEIGHT ≤ 255
      ∧ (areaDown 0 8 3 63 font5x7 255 2 11 (dotAt 0 11)).tarea.x2 < ks0108.DISPLAY_WIDTH
      ∧ (areaDown 0 8 3 63 font5x7 255 2 11 (dotAt 0 11)).tarea.y2 < ks0108.DISPLAY_HEIGHT
      ∧ (areaDown 0 8 3 63 font5x7 255 2 11 (dotAt 0 11)).tarea.y1
          ≤ (areaDown 0 8 3 63 font5x7 255 2 11 (dotAt 0 11)).y
      ∧ (areaDown 0 8 3 63 font5x7 255 2 11 (dotAt 0 11)).y
          ≤ (areaDown 0 8 3 63 font5x7 255 2 11 (dotAt 0 11)).tarea.y2
      ∧ (areaDown 0 8 3 63 font5x7 255 2 11 (dotAt 0 11)).tarea.y1
          + FontRead font5x7 ks0108.FONT_HEIGHT
          ≤ (areaDown 0 8 3 63 font5x7 255 2 11 (dotAt 0 11)).tarea.y2
      ∧ 257 < 300
      ∧ ∃ g1, SpecialChar ks0108 300 (areaDown 0 8 3 63 font5x7 255 2 11 (dotAt 0 11)) font5x7 10
            = some g1
          ∧ g1.x = 0 ∧ 8 ≤ g1.y ∧ g1.y + FontRead font5x7 ks0108.FONT_HEIGHT ≤ 63 :=
  ⟨by decide, by decide, by decide, by decide, by decide, by decide, by decide, by decide,
    (SpecialChar_newline_in_bounds ks0108 300 (areaDown 0 8 3 63 font5x7 255 2 11 (dotAt 0 11))
      font5x7 (by decide) (by decide) (by decide) (by decide) (by decide) (by decide)
      (by decide) (by decide)).elim fun g1 h => ⟨g1, h.1, h.2.2.1, h.2.2.2.1, h.2.2.2.2.1⟩⟩

set_option maxRecDepth 20000 in
/-- C29. The partial-scroll defect exists.  Scroll-up area `(0, 0, 3, 13)` of
the speckled display, font height 7, black font (clear background), cursor at
`(0, 0)` inside the area: `SpecialChar('\\n')` calls `ScrollUp` with
`y + 2h + 1 - areaY2 = 2` pixels, fewer than `h + 1 = 8`, and puts the cursor
at `(0, areaY2 - h) = (0, 6)`; afterwards the pixel `(1, 6)` of the new text
line band (columns 0..3, rows 6..13) is set, which is not the background
colour. -/
theorem SpecialChar_partial_scroll_stale_pixel :
    ∃ (x1 y1 x2 y2 x y fc : Nat) (f : Nat → Nat) (dev : Device) (c r : Nat),
      x1 ≤ x ∧ x ≤ x2 ∧ y1 ≤ y ∧ y ≤ y2
      ∧ y + 2 * FontRead f ks0108.FONT_HEIGHT ≥ y2
      ∧ y + 2 * FontRead f ks0108.FONT_HEIGHT + 1 - y2 < FontRead f ks0108.FONT_HEIGHT + 1
      ∧ SpecialChar ks0108 300 (areaState x1 y1 x2 y2 f fc x y dev) f 10
          = (ScrollUp ks0108 300 (eolErased ks0108 f fc x y x2 dev) x1 y1 x2 y2
              (y + 2 * FontRead f ks0108.FONT_HEIGHT + 1 - y2) (bgColor ks0108 fc)).map
              (fun d2 => areaState x1 y1 x2 y2 f fc x1 (y2 - FontRead f ks0108.FONT_HEIGHT) d2)
      ∧ x1 ≤ c ∧ c ≤ x2 ∧ y2 - FontRead f ks0108.FONT_HEIGHT ≤ r ∧ r ≤ y2
      ∧ (SpecialChar ks0108 300 (areaState x1 y1 x2 y2 f fc x y dev) f 10).map
            (fun g1 => pixel g1.device c r)
          = some (!decide (bgColor ks0108 fc = ks0108.BLACK)) := by
  refine ⟨0, 0, 3, 13, 0, 0, 255, font5x7, speckled, 1, 6, by decide, by decide, by decide,
    by decide, by decide, by decide, ?_, by decide, by decide, by decide, by decide, by decide⟩
  rw [SpecialChar_newline_up ks0108 300 _ font5x7 rfl]
  rfl

/-! ## The cursor and the area under character output -/

/-- C23, the claim as stated refuted.  Area `(0, 0, 17, 15)` of the 128 by 64
display, three cells of the 5 by 7 font wide and two tall, cursor at `(12, 0)`
inside it.  `PutChar('A')` fits (`x + width = 17 = areaX2`), so it draws without
a wrap and advances the cursor to `x = 18`, which is outside the area: the wrap
is left to the next character. -/
theorem PutChar_cursor_leaves_area :
    (areaState 0 0 17 15 font5x7 255 12 0 blank).Font = some font5x7
      ∧ 17 - 0 ≥ FontRead font5x7 ks0108.FONT_FIXED_WIDTH + 1
      ∧ 15 - 0 ≥ FontRead font5x7 ks0108.FONT_HEIGHT
      ∧ 0 ≤ 12 ∧ 12 ≤ 17 ∧ 0 ≤ 0 ∧ 0 ≤ 15
      ∧ (PutChar ks0108 300 (areaState 0 0 17 15 font5x7 255 12 0 blank) 65).map
          (fun r => (r.1, r.2.x, r.2.y, decide (r.2.x ≤ r.2.tarea.x2))) = some (1, 18, 0, false) :=
  ⟨rfl, by decide, by decide, by decide, by decide, by decide, by decide, by decide⟩

/-- C23, amended.  On a display of at most 255 columns and rows, for every
state with a font of height `h <= 247` selected, the area inside the display
and at least one text line tall (`areaY1 + h <= areaY2`), and the cursor with
`areaX1 <= x <= areaX2 + 1` and `areaY1 <= y <= areaY2`: for every character
`c`, where the area is at least one cell of `c` wide when `c` is drawable
(`areaX1 + width(c) + 1 <= areaX2`), `PutChar(c)` returns (given fuel above
259), leaves the area as it is, and afterwards again
`areaX1 <= x <= areaX2 + 1` and `areaY1 <= y <= areaY2`. -/
theorem PutChar_cursor_stays (K : Config) (g : gText) (f : Nat → Nat) (c : Int) (fuel : Nat)
    (hW : K.DISPLAY_WIDTH ≤ 255) (hH : K.DISPLAY_HEIGHT ≤ 255)
    (hF : g.Font = some f) (hh : FontRead f K.FONT_HEIGHT ≤ 247)
    (hx2 : g.tarea.x2 < K.DISPLAY_WIDTH) (hy2 : g.tarea.y2 < K.DISPLAY_HEIGHT)
    (hroom : g.tarea.y1 + FontRead f K.FONT_HEIGHT ≤ g.tarea.y2)
    (hwid : 0x20 ≤ c → (FontRead f K.FONT_FIRST_CHAR : Int) ≤ c →
      c < (FontRead f K.FONT_FIRST_CHAR : Int) + (FontRead f K.FONT_CHAR_COUNT : Int) →
      g.tarea.x1 + PutChar.width K f (Int.toNat (c - (FontRead f K.FONT_FIRST_CHAR : Int))) + 1
        ≤ g.tarea.x2)
    (hcx1 : g.tarea.x1 ≤ g.x) (hcx2 : g.x ≤ g.tarea.x2 + 1)
    (hcy1 : g.tarea.y1 ≤ g.y) (hcy2 : g.y ≤ g.tarea.y2)
    (hf : 259 < fuel) :
    ∃ r g1, PutChar K fuel g c = some (r, g1)
      ∧ g1.tarea = g.tarea
      ∧ g.tarea.x1 ≤ g1.x ∧ g1.x ≤ g.tarea.x2 + 1
      ∧ g.tarea.y1 ≤ g1.y ∧ g1.y ≤ g.tarea.y2 := by
  obtain ⟨n, rfl⟩ : ∃ n, fuel = n + 2 := ⟨fuel - 2, by omega⟩
  by_cases hc : c < 0x20
  · rw [PutChar_control K (n + 1) g f c hF hc]
    by_cases h10 : c = 10
    · subst h10
      obtain ⟨g1, h1, h2, _, _, h3, h4, h5, _⟩ := SpecialChar_newline_cursor K (n + 1) g f
        (by omega) (by omega) hcy1 hcy2 hroom (by omega)
      rw [h1]
      exact ⟨1, g1, rfl, h2, by omega, by omega, h4, by omega⟩
    · have hs : SpecialChar K (n + 1) g f c = some g := by
        unfold SpecialChar
        rw [if_neg h10]
      rw [hs]
      exact ⟨1, g, rfl, rfl, hcx1, hcx2, hcy1, hcy2⟩
  · by_cases hr : (FontRead f K.FONT_FIRST_CHAR : Int) ≤ c
        ∧ c < (FontRead f K.FONT_FIRST_CHAR : Int) + (FontRead f K.FONT_CHAR_COUNT : Int)
    · have hw := hwid (by omega) hr.1 hr.2
      by_cases hfit : g.x + PutChar.width K f
          (Int.toNat (c - (FontRead f K.FONT_FIRST_CHAR : Int))) ≤ g.tarea.x2
      · obtain ⟨_, d1, e⟩ := PutChar_nowrap_step K g f c (n + 1) hF (by omega) hr.1 hr.2 hfit
          hh (by omega)
        rw [e]
        refine ⟨1, _, rfl, rfl, ?_, ?_, hcy1, hcy2⟩
        · show g.tarea.x1 ≤ (g.x + PutChar.width K f
            (Int.toNat (c - (FontRead f K.FONT_FIRST_CHAR : Int))) + 1) % 256
          omega
        · show (g.x + PutChar.width K f
            (Int.toNat (c - (FontRead f K.FONT_FIRST_CHAR : Int))) + 1) % 256 ≤ g.tarea.x2 + 1
          omega
      · obtain ⟨g1, h1, h2, _, _, h3, h4, h5, _⟩ := SpecialChar_newline_cursor K n g f
          (by omega) (by omega) hcy1 hcy2 hroom (by omega)
        obtain ⟨_, d1, e⟩ := PutChar_wrap_step K g g1 f c n hF (by omega) hr.1 hr.2
          (by omega) h1 hh (by omega)
        rw [e]
        refine ⟨1, _, rfl, h2, ?_, ?_, h4, (show g1.y ≤ g.tarea.y2 by omega)⟩
        · show g.tarea.x1 ≤ (g1.x + PutChar.width K f
            (Int.toNat (c - (FontRead f K.FONT_FIRST_CHAR : Int))) + 1) % 256
          omega
        · show (g1.x + PutChar.width K f
            (Int.toNat (c - (FontRead f K.FONT_FIRST_CHAR : Int))) + 1) % 256 ≤ g.tarea.x2 + 1
          omega
    · refine ⟨0, g, ?_, rfl, hcx1, hcx2, hcy1, hcy2⟩
      rw [PutChar]
      simp only [hF]
      rw [if_neg hc, if_pos (by omega)]

/-- The cursor theorem applied to `'A'` at the last cell of the first line of
the area `(0, 0, 17, 15)`. -/
theorem PutChar_cursor_stays_witness :
    ks0108.DISPLAY_WIDTH ≤ 255 ∧ ks0108.DISPLAY_HEIGHT ≤ 255
      ∧ (areaState 0 0 17 15 font5x7 255 12 0 blank).Font = some font5x7
      ∧ FontRead font5x7 ks0108.FONT_HEIGHT ≤ 247
      ∧ 17 < ks0108.DISPLAY_WIDTH ∧ 15 < ks0108.DISPLAY_HEIGHT
      ∧ 0 + FontRead font5x7 ks0108.FONT_HEIGHT ≤ 15
      ∧ 0 + PutChar.width ks0108 font5x7
            (Int.toNat (65 - (FontRead font5x7 ks0108.FONT_FIRST_CHAR : Int))) + 1 ≤ 17
      ∧ 0 ≤ 12 ∧ 12 ≤ 17 + 1 ∧ 0 ≤ 0 ∧ 0 ≤ 15 ∧ 259 < 300
      ∧ ∃ r g1, PutChar ks0108 300 (areaState 0 0 17 15 font5x7 255 12 0 blank) 65 = some (r, g1)
          ∧ 0 ≤ g1.x ∧ g1.x ≤ 17 + 1 ∧ 0 ≤ g1.y ∧ g1.y ≤ 15 :=
  ⟨by decide, by decide, rfl, by decide, by decide, by decide, by decide, by decide, by decide,
    by decide, by decide, by decide, by decide,
    (PutChar_cursor_stays ks0108 (areaState 0 0 17 15 font5x7 255 12 0 blank) font5x7 65 300
      (by decide) (by decide) rfl (by decide) (by decide) (by decide) (by decide)
      (fun _ _ _ => by decide) (by decide) (by decide) (by decide) (by decide)
      (by decide)).elim fun r h => h.elim fun g1 h2 =>
        ⟨r, g1, h2.1, h2.2.2.1, h2.2.2.2.1, h2.2.2.2.2.1, h2.2.2.2.2.2⟩⟩

/-! ## The glyph cell: frame, gap column, gap row and page reads -/

/-- C24, the claim as stated refuted.  On a display of 255 by 255 pixels, area
`(0, 0, 127, 254)`, fixed-width font of width 5 and height 250, cursor at
`(0, 0)`: `x + w <= areaX2` and the cell, columns 0..5 and rows 0..250, is
inside the display.  `PutChar(' ')` never returns (the slice counter `p` is a
byte and wraps before reaching 251), so it leaves no display to compare. -/
theorem PutChar_cell_tall_font :
    (areaState 0 0 127 254 font5x250 255 0 0 blank).Font = some font5x250
      ∧ (FontRead font5x250 panel255.FONT_FIRST_CHAR : Int) ≤ 32
      ∧ (32 : Int) < (FontRead font5x250 panel255.FONT_FIRST_CHAR : Int)
          + (FontRead font5x250 panel255.FONT_CHAR_COUNT : Int)
      ∧ FontRead font5x250 panel255.FONT_HEIGHT = 250
      ∧ 0 + PutChar.width panel255 font5x250
            (Int.toNat (32 - (FontRead font5x250 panel255.FONT_FIRST_CHAR : Int))) ≤ 127
      ∧ 0 + 5 < panel255.DISPLAY_WIDTH ∧ 0 + 250 < panel255.DISPLAY_HEIGHT
      ∧ ∀ fuel, PutChar panel255 fuel (areaState 0 0 127 254 font5x250 255 0 0 blank) 32 = none :=
  ⟨rfl, by decide, by decide, by decide, by decide, by decide, by decide,
    PutChar_tall_diverges_on_row_zero panel255 _ font5x250 32 rfl (by decide) (by decide)
      (by decide) (by decide) (by decide) rfl⟩

/-- C24, amended.  On a display of at most 255 rows, for every selected font of
height `h <= 247`, every drawable character `c` of width `w`, every font colour,
every cursor with `x + w <= areaX2` (no wrap) and the glyph rows inside the
display (`y + h < DISPLAY_HEIGHT`), and every memory content: `PutChar(c)`
returns 1 (given fuel above 249) and leaves unchanged every pixel outside
columns `x..x+w` and rows `y..y+h`, the pixels sharing a page with the glyph
included. -/
theorem PutChar_confined_to_cell (K : Config) (g : gText) (f : Nat → Nat) (c : Int)
    (fuel : Nat)
    (hH : K.DISPLAY_HEIGHT ≤ 255)
    (hF : g.Font = some f) (h20 : 0x20 ≤ c)
    (hlo : (FontRead f K.FONT_FIRST_CHAR : Int) ≤ c)
    (hhi : c < (FontRead f K.FONT_FIRST_CHAR : Int) + (FontRead f K.FONT_CHAR_COUNT : Int))
    (hfit : g.x + PutChar.width K f (Int.toNat (c - (FontRead f K.FONT_FIRST_CHAR : Int)))
      ≤ g.tarea.x2)
    (hcell : g.y + FontRead f K.FONT_HEIGHT < K.DISPLAY_HEIGHT)
    (hh : FontRead f K.FONT_HEIGHT ≤ 247) (hf : 249 < fuel) :
    ∃ g1, PutChar K fuel g c = some (1, g1)
      ∧ ∀ col r,
          ¬ (g.x ≤ col
            ∧ col ≤ g.x + PutChar.width K f (Int.toNat (c - (FontRead f K.FONT_FIRST_CHAR : Int)))
            ∧ g.y ≤ r ∧ r ≤ g.y + FontRead f K.FONT_HEIGHT) →
          pixel g1.device col r = pixel g.device col r := by
  obtain ⟨n, rfl⟩ : ∃ n, fuel = n + 1 := ⟨fuel - 1, by omega⟩
  rw [PutChar_drawable K n g f c hF h20 hlo hhi, if_neg (by omega)]
  obtain ⟨d1, e, hfr⟩ := PutChar.draw_frame K n g f
    (PutChar.index K f (Int.toNat (c - (FontRead f K.FONT_FIRST_CHAR : Int))))
    (PutChar.width K f (Int.toNat (c - (FontRead f K.FONT_FIRST_CHAR : Int))))
    (FontRead f K.FONT_HEIGHT) hh (by omega) (by omega)
  exact ⟨_, e, hfr⟩

/-- The frame theorem applied to `'A'` in the 5 by 7 font with the cursor at
`(40, 13)` of the speckled display: the pixels just above and just below the
cell, in the pages it shares, are unchanged. -/
theorem PutChar_confined_to_cell_witness :
    ks0108.DISPLAY_HEIGHT ≤ 255
      ∧ (fullArea (some font5x7) 40 13 speckled).Font = some font5x7 ∧ (0x20 : Int) ≤ 65
      ∧ (FontRead font5x7 ks0108.FONT_FIRST_CHAR : Int) ≤ 65
      ∧ (65 : Int) < (FontRead font5x7 ks0108.FONT_FIRST_CHAR : Int)
          + (FontRead font5x7 ks0108.FONT_CHAR_COUNT : Int)
      ∧ (fullArea (some font5x7) 40 13 speckled).x
          + PutChar.width ks0108 font5x7
              (Int.toNat (65 - (FontRead font5x7 ks0108.FONT_FIRST_CHAR : Int)))
          ≤ (fullArea (some font5x7) 40 13 speckled).tarea.x2
      ∧ (fullArea (some font5x7) 40 13 speckled).y + FontRead font5x7 ks0108.FONT_HEIGHT
          < ks0108.DISPLAY_HEIGHT
      ∧ FontRead font5x7 ks0108.FONT_HEIGHT ≤ 247 ∧ 249 < 300
      ∧ ∃ g1, PutChar ks0108 300 (fullArea (some font5x7) 40 13 speckled) 65 = some (1, g1)
        ∧ pixel g1.device 40 12 = pixel speckled 40 12
        ∧ pixel g1.device 45 21 = pixel speckled 45 21 :=
  ⟨by decide, rfl, by decide, by decide, by decide, by decide, by decide, by decide, by decide,
    (PutChar_confined_to_cell ks0108 (fullArea (some font5x7) 40 13 speckled) font5x7 65 300
      (by decide) rfl (by decide) (by decide) (by decide) (by decide) (by decide) (by decide)
      (by decide)).elim fun g1 h => ⟨g1, h.1, h.2 40 12 (by decide), h.2 45 21 (by decide)⟩⟩

set_option maxRecDepth 20000 in
/-- C25, evaluated at a failing input.  Fixed-width font of width 3 and height
5 in black, every pixel of the display set, no wrap.  With the cursor at
`(0, 2)` the gap column is column 3 and its rows `y..y+h` are 2..7:
`PutChar(' ')` clears rows 2..5 of it and leaves rows 6 and 7 set, because the
bottom mask `~(_BV(pixels - p) - 1)` of line 990 is not moved down by `dy & 7`.
With the cursor at `(0, 0)` rows 0..5 of the gap column are all cleared. -/
theorem PutChar_gap_column_unpainted :
    FontRead font3x5 ks0108.FONT_FIXED_WIDTH = 3 ∧ FontRead font3x5 ks0108.FONT_HEIGHT = 5
      ∧ (areaState 0 0 127 63 font3x5 255 0 2 lit).FontColor = ks0108.BLACK
      ∧ (PutChar ks0108 300 (areaState 0 0 127 63 font3x5 255 0 2 lit) 32).map
          (fun r => (r.1, (List.range 6).map (fun i => pixel r.2.device (0 + 3) (2 + i))))
        = some (1, [false, false, false, false, true, true])
      ∧ (PutChar ks0108 300 (areaState 0 0 127 63 font3x5 255 0 0 lit) 32).map
          (fun r => (r.1, (List.range 6).map (fun i => pixel r.2.device (0 + 3) (0 + i))))
        = some (1, [false, false, false, false, false, false]) := by
  decide

set_option maxRecDepth 20000 in
/-- C26, evaluated at a failing input.  Two fixed-width fonts of width 1 and
height 8 with the same all-zero glyph for `' '` (its one byte has no pad bit);
they differ only in the byte of the next glyph `'!'`, 1 or 0.  `PutChar(' ')`
in black on the blank display with the cursor at `(0, 3)`: the gap row is
display row `y + h = 11`.  With the first font pixel `(0, 11)` is set, with the
second it is clear: at the byte crossing of line 929 the loop fetched the byte
of `'!'` and painted its bit 0 as the gap row.  With the cursor at `(0, 0)` the
gap row is clear. -/
theorem PutChar_gap_row_from_next_glyph :
    FontRead (font1x8 1) ks0108.FONT_HEIGHT = 8
      ∧ PutChar.index ks0108 (font1x8 1) 0 = 6 ∧ FontRead (font1x8 1) 6 = 0
      ∧ PutChar.index ks0108 (font1x8 1) 1 = 7 ∧ FontRead (font1x8 1) 7 = 1
      ∧ FontRead (font1x8 0) 6 = 0 ∧ FontRead (font1x8 0) 7 = 0
      ∧ (PutChar ks0108 300 (areaState 0 0 127 63 (font1x8 1) 255 0 3 blank) 32).map
          (fun r => (r.1, pixel r.2.device 0 (3 + 8))) = some (1, true)
      ∧ (PutChar ks0108 300 (areaState 0 0 127 63 (font1x8 0) 255 0 3 blank) 32).map
          (fun r => (r.1, pixel r.2.device 0 (3 + 8))) = some (1, false)
      ∧ (PutChar ks0108 300 (areaState 0 0 127 63 (font1x8 1) 255 0 0 blank) 32).map
          (fun r => (r.1, pixel r.2.device 0 (0 + 8))) = some (1, false) := by
  decide

set_option maxRecDepth 20000 in
/-- C27, evaluated at a failing input.  Font of width 1 and height 15 (16 rows
to paint), blank display with an empty log.  With the cursor at `(0, 3)` the
second slice starts at glyph row `p = 5` on display row `dy = 8`: `dy mod 8 == 0`
and `16 - 5 = 11 >= 8` rows remain, a full page in the middle of the glyph.
Yet its glyph column is read before it is written (one read and one write of
column 0, page 1): the quick write of line 878 also requires `p mod 8 == 0`.
With the cursor at `(0, 0)` the render reads nothing. -/
theorem PutChar_reads_aligned_full_page :
    FontRead font1x15 ks0108.FONT_HEIGHT = 15
      ∧ (3 + 5) % 8 = 0 ∧ (15 + 1) - 5 ≥ 8 ∧ (3 + 5) / 8 = 1
      ∧ 3 < 8 * 1 ∧ 8 * 1 + 7 < 3 + 15
      ∧ (PutChar ks0108 300 (areaState 0 0 127 63 font1x15 255 0 3 blank) 32).map
          (fun r => (r.1, readsAt r.2.device.log 0 1, writesAt r.2.device.log 0 1))
        = some (1, 1, 1)
      ∧ (PutChar ks0108 300 (areaState 0 0 127 63 font1x15 255 0 0 blank) 32).map
          (fun r => (r.1, (List.range 3).map (fun p => readsAt r.2.device.log 0 p)))
        = some (1, [0, 0, 0]) := by
  decide

/-! ## Scrolling: the device operations -/

theorem noReadAfterWrite_append (a b : List DevOp)
    (ha : noReadAfterWrite a = true) (hb : noReadAfterWrite b = true)
    (h : ∀ c p, writesAt a c p ≠ 0 → readsAt b c p = 0) :
    noReadAfterWrite (a ++ b) = true := by
  induction a with
  | nil => exact hb
  | cons op rest ih =>
    cases op with
    | read c p =>
      have h1 : noReadAfterWrite rest = true := ha
      exact ih h1 (fun c1 p1 hw => h c1 p1 (by
        simp only [writesAt, List.countP_cons] at hw ⊢
        simpa using hw))
    | fill x1 y1 x2 y2 color =>
      have h1 : noReadAfterWrite rest = true := ha
      exact ih h1 (fun c1 p1 hw => h c1 p1 (by
        simp only [writesAt, List.countP_cons] at hw ⊢
        simpa using hw))
    | write c p v =>
      have h0 : (decide (readsAt rest c p = 0) && noReadAfterWrite rest) = true := ha
      rw [Bool.and_eq_true, decide_eq_true_eq] at h0
      have hr : readsAt b c p = 0 := h c p (by simp [writesAt, List.countP_cons])
      have ih1 := ih h0.2 (fun c1 p1 hw => h c1 p1 (by
        simp only [writesAt, List.countP_cons] at hw ⊢
        omega))
      show (decide (readsAt (rest ++ b) c p = 0) && noReadAfterWrite (rest ++ b)) = true
      rw [Bool.and_eq_true, decide_eq_true_eq, readsAt_append]
      exact ⟨by omega, ih1⟩

theorem WriteOnce.no_ops (W R : Nat → Nat → Prop) (hW : ∀ c p, ¬ W c p) : WriteOnce [] W R :=
  ⟨fun c p h => absurd h (hW c p), fun _ _ _ => rfl, fun _ _ h => absurd rfl h, rfl, rfl⟩

theorem WriteOnce.read (c0 p0 : Nat) (W R : Nat → Nat → Prop) (hW : ∀ c p, ¬ W c p)
    (hR : R c0 p0) : WriteOnce [DevOp.read c0 p0] W R := by
  refine ⟨fun c p h => absurd h (hW c p), fun _ _ _ => rfl, fun c p h => ?_, rfl, rfl⟩
  by_cases hc : c0 = c ∧ p0 = p
  · obtain ⟨h1, h2⟩ := hc
    subst h1 h2
    exact hR
  · exact absurd (by simp [readsAt, hc]) h

theorem WriteOnce.one_write (c0 p0 v : Nat) (W R : Nat → Nat → Prop)
    (hW : ∀ c p, W c p ↔ (c = c0 ∧ p = p0)) : WriteOnce [DevOp.write c0 p0 v] W R := by
  refine ⟨fun c p h => ?_, fun c p h => ?_, fun c p h => ?_, rfl, rfl⟩
  · obtain ⟨h1, h2⟩ := (hW c p).1 h
    subst h1 h2
    simp [writesAt]
  · have : ¬ (c0 = c ∧ p0 = p) := fun hh => h ((hW c p).2 ⟨hh.1.symm, hh.2.symm⟩)
    simp [writesAt, this]
  · exact absurd (by simp [readsAt]) h

theorem WriteOnce.read_then_write (c0 p0 v : Nat) (W R : Nat → Nat → Prop)
    (hW : ∀ c p, W c p ↔ (c = c0 ∧ p = p0)) (hR : R c0 p0) :
    WriteOnce [DevOp.read c0 p0, DevOp.write c0 p0 v] W R := by
  refine ⟨fun c p h => ?_, fun c p h => ?_, fun c p h => ?_, rfl, rfl⟩
  · obtain ⟨h1, h2⟩ := (hW c p).1 h
    subst h1 h2
    simp [writesAt]
  · have : ¬ (c0 = c ∧ p0 = p) := fun hh => h ((hW c p).2 ⟨hh.1.symm, hh.2.symm⟩)
    simp [writesAt, this]
  · by_cases hc : c0 = c ∧ p0 = p
    · obtain ⟨h1, h2⟩ := hc
      subst h1 h2
      exact hR
    · exact absurd (by simp [readsAt, hc]) h

theorem WriteOnce.concat {t1 t2 : List DevOp} {W1 R1 W2 R2 W R : Nat → Nat → Prop}
    (h1 : WriteOnce t1 W1 R1) (h2 : WriteOnce t2 W2 R2)
    (hd : ∀ c p, W1 c p → W2 c p → False) (ho : ∀ c p, W1 c p → R2 c p → False)
    (hW : ∀ c p, W c p ↔ W1 c p ∨ W2 c p) (hR : ∀ c p, R1 c p ∨ R2 c p → R c p) :
    WriteOnce (t1 ++ t2) W R := by
  refine ⟨fun c p h => ?_, fun c p h => ?_, fun c p h => ?_, ?_, ?_⟩
  · rw [writesAt_append]
    rcases (hW c p).1 h with h | h
    · rw [h1.inside c p h, h2.outside c p (fun hh => hd c p h hh)]
    · rw [h2.inside c p h, h1.outside c p (fun hh => hd c p hh h)]
  · rw [writesAt_append, h1.outside c p (fun hh => h ((hW c p).2 (Or.inl hh))),
      h2.outside c p (fun hh => h ((hW c p).2 (Or.inr hh)))]
  · rw [readsAt_append] at h
    by_cases hr : readsAt t1 c p = 0
    · exact hR c p (Or.inr (h2.reads c p (by omega)))
    · exact hR c p (Or.inl (h1.reads c p hr))
  · apply noReadAfterWrite_append t1 t2 h1.ordered h2.ordered
    intro c p hw
    by_contra hr
    have hw1 : W1 c p := by
      by_contra hn
      exact hw (h1.outside c p hn)
    exact ho c p hw1 (h2.reads c p hr)
  · rw [fillsIn_append, h1.fills, h2.fills]

theorem WriteOnce.weaken {t : List DevOp} {W R W1 R1 : Nat → Nat → Prop}
    (h : WriteOnce t W R) (hW : ∀ c p, W1 c p ↔ W c p) (hR : ∀ c p, R c p → R1 c p) :
    WriteOnce t W1 R1 :=
  ⟨fun c p hh => h.inside c p ((hW c p).1 hh),
    fun c p hh => h.outside c p (fun hw => hh ((hW c p).2 hw)),
    fun c p hh => hR c p (h.reads c p hh), h.ordered, h.fills⟩

/-- Log of an optional page read after `GotoXY`. -/
theorem read_step_log (cond : Prop) [Decidable cond] (d : Device) (col y sbyte : Nat)
    (hy : y < 256) (R : Nat → Nat → Prop) (hR : R col (y / 8)) :
    ∃ t, (if cond then ReadData (GotoXY d col (y &&& bnot 7)) else (d, sbyte)).1.log = d.log ++ t
      ∧ WriteOnce t (fun _ _ => False) R
      ∧ (cond → readsAt t col (y / 8) ≠ 0) := by
  by_cases hc : cond
  · rw [if_pos hc]
    refine ⟨[DevOp.read col (y / 8)], ?_, WriteOnce.read _ _ _ _ (fun _ _ h => h) hR, fun _ => ?_⟩
    · show d.log ++ [DevOp.read col ((y &&& bnot 7) / 8)] = _
      rw [and_bnot_seven_div y hy]
    · simp [readsAt]
  · rw [if_neg hc]
    exact ⟨[], (List.append_nil _).symm, WriteOnce.no_ops _ _ (fun _ _ h => h),
      fun h => absurd h hc⟩

/-- Log of an optional page write after `GotoXY`. -/
theorem write_step_log (cond : Prop) [Decidable cond] (d : Device) (col y v dbyte : Nat)
    (hy : y < 256) (W R : Nat → Nat → Prop)
    (hW : ∀ c p, W c p ↔ (cond ∧ c = col ∧ p = y / 8)) :
    ∃ t, (if cond then (WriteData (GotoXY d col (y &&& bnot 7)) v, 0) else (d, dbyte)).1.log
        = d.log ++ t
      ∧ WriteOnce t W R := by
  by_cases hc : cond
  · rw [if_pos hc]
    refine ⟨[DevOp.write col (y / 8) (v % 256)], ?_,
      WriteOnce.one_write _ _ _ _ _ (fun c p => by rw [hW]; exact ⟨fun h => h.2, fun h => ⟨hc, h⟩⟩)⟩
    show d.log ++ [DevOp.write col ((y &&& bnot 7) / 8) (v % 256)] = _
    rw [and_bnot_seven_div y hy]
  · rw [if_neg hc]
    exact ⟨[], (List.append_nil _).symm,
      WriteOnce.no_ops _ _ (fun c p h => hc ((hW c p).1 h).1)⟩

/-- Log of the copy loop of `ScrollUp`: the destination pages completed between
row `dy` and the final row are written once each, in ascending order; every
read is of a page not yet written; every source page entered by the loop is
read. -/
theorem ScrollUp_copy_log (K : Config) (col y2 : Nat) (hy2 : y2 < 255)
    (hH : y2 < K.DISPLAY_HEIGHT) :
    ∀ (fuel : Nat) (d : Device) (dy dbyte sy sbyte : Nat) (r : Device × Nat × Nat),
      ScrollUp.copy K col y2 fuel d dy dbyte sy sbyte = some r → dy ≤ sy → sy ≤ y2 + 1 →
      r.2.1 = dy + (y2 + 1 - sy)
      ∧ ∃ tr, r.1.log = d.log ++ tr
        ∧ WriteOnce tr (fun c p => c = col ∧ dy / 8 ≤ p ∧ p < (dy + (y2 + 1 - sy)) / 8)
            (fun c p => c = col ∧ dy / 8 ≤ p)
        ∧ ∀ q, sy < 8 * q → 8 * q ≤ y2 → readsAt tr col q ≠ 0 := by
  intro fuel
  induction fuel with
  | zero => intro d dy dbyte sy sbyte r h; simp [ScrollUp.copy] at h
  | succ fuel ih =>
    intro d dy dbyte sy sbyte r h hds hsy
    rw [ScrollUp.copy] at h
    by_cases hc : sy ≤ y2
    · rw [if_pos hc] at h
      have hsy1 : (sy + 1) % 256 = sy + 1 := Nat.mod_eq_of_lt (by omega)
      have hdy1 : (dy + 1) % 256 = dy + 1 := Nat.mod_eq_of_lt (by omega)
      simp only [hsy1, hdy1] at h
      obtain ⟨t1, hl1, ht1, hr1⟩ := read_step_log
        ((sy + 1) &&& 7 = 0 ∧ sy + 1 < K.DISPLAY_HEIGHT) d col (sy + 1) sbyte (by omega)
        (fun c p => c = col ∧ dy / 8 ≤ p) ⟨rfl, by omega⟩
      obtain ⟨t2, hl2, ht2⟩ := write_step_log (dy &&& 7 = 7)
        (if (sy + 1) &&& 7 = 0 ∧ sy + 1 < K.DISPLAY_HEIGHT
          then ReadData (GotoXY d col ((sy + 1) &&& bnot 7)) else (d, sbyte)).1
        col dy
        (if sbyte &&& BV (sy &&& 7) ≠ 0 then (dbyte ||| BV (dy &&& 7)) % 256 else dbyte)
        (if sbyte &&& BV (sy &&& 7) ≠ 0 then (dbyte ||| BV (dy &&& 7)) % 256 else dbyte)
        (by omega)
        (fun c p => c = col ∧ dy / 8 ≤ p ∧ p < (dy + 1) / 8) (fun _ _ => False)
        (fun c p => by rw [and_seven]; constructor <;> intro hh <;> omega)
      obtain ⟨he, t3, hl3, ht3, hr3⟩ := ih _ _ _ _ _ r h (by omega) (by omega)
      refine ⟨by rw [he]; omega, (t1 ++ t2) ++ t3, by
        rw [hl3, hl2, hl1, List.append_assoc, List.append_assoc, List.append_assoc], ?_, ?_⟩
      · have h12 : WriteOnce (t1 ++ t2) (fun c p => c = col ∧ dy / 8 ≤ p ∧ p < (dy + 1) / 8)
            (fun c p => c = col ∧ dy / 8 ≤ p) :=
          WriteOnce.concat ht1 ht2 (fun _ _ hh _ => hh) (fun _ _ hh _ => hh)
            (fun c p => ⟨fun hh => Or.inr hh, fun hh => hh.elim (fun f => f.elim) id⟩)
            (fun c p hh => hh.elim id (fun f => f.elim))
        exact WriteOnce.concat h12 ht3 (fun c p ha hb => by omega) (fun c p ha hb => by omega)
          (fun c p => ⟨fun hh => by omega, fun hh => by omega⟩)
          (fun c p hh => by omega)
      · intro q hq1 hq2
        rw [readsAt_append, readsAt_append]
        by_cases hq : sy + 1 = 8 * q
        · have := hr1 ⟨by rw [and_seven]; omega, by omega⟩
          have hq8 : (sy + 1) / 8 = q := by omega
          rw [hq8] at this
          omega
        · have := hr3 q (by omega) hq2
          omega
    · rw [if_neg hc] at h
      cases h
      refine ⟨by show dy = _; omega, [], (List.append_nil _).symm,
        WriteOnce.no_ops _ _ (fun c p hh => by omega), fun q hq1 hq2 => by omega⟩

/-- Log of the fill loop of `ScrollUp`: the pages completed by the `p` filled
rows are written once each; nothing is read. -/
theorem ScrollUp_fill_log (K : Config) (col color : Nat) :
    ∀ (p : Nat) (d : Device) (dy dbyte : Nat), dy + p ≤ 255 →
      (ScrollUp.fill K col color p d dy dbyte).2.1 = dy + p
      ∧ ∃ tr, (ScrollUp.fill K col color p d dy dbyte).1.log = d.log ++ tr
        ∧ WriteOnce tr (fun c q => c = col ∧ dy / 8 ≤ q ∧ q < (dy + p) / 8) (fun _ _ => False) := by
  intro p
  induction p with
  | zero =>
    intro d dy dbyte _
    exact ⟨rfl, [], (List.append_nil _).symm, WriteOnce.no_ops _ _ (fun c q hh => by omega)⟩
  | succ p ih =>
    intro d dy dbyte hb
    rw [ScrollUp.fill]
    have hdy1 : (dy + 1) % 256 = dy + 1 := Nat.mod_eq_of_lt (by omega)
    simp only [hdy1]
    obtain ⟨t2, hl2, ht2⟩ := write_step_log (dy &&& 7 = 7) d col dy
      (if color = K.BLACK then (dbyte ||| BV (dy &&& 7)) % 256
        else dbyte &&& bnot (BV (dy &&& 7)))
      (if color = K.BLACK then (dbyte ||| BV (dy &&& 7)) % 256
        else dbyte &&& bnot (BV (dy &&& 7)))
      (by omega)
      (fun c q => c = col ∧ dy / 8 ≤ q ∧ q < (dy + 1) / 8) (fun _ _ => False)
      (fun c q => by rw [and_seven]; constructor <;> intro hh <;> omega)
    obtain ⟨he, t3, hl3, ht3⟩ := ih
      (if dy &&& 7 = 7 then (WriteData (GotoXY d col (dy &&& bnot 7))
          (if color = K.BLACK then (dbyte ||| BV (dy &&& 7)) % 256
            else dbyte &&& bnot (BV (dy &&& 7))), 0)
        else (d, if color = K.BLACK then (dbyte ||| BV (dy &&& 7)) % 256
            else dbyte &&& bnot (BV (dy &&& 7)))).1
      (dy + 1)
      (if dy &&& 7 = 7 then (WriteData (GotoXY d col (dy &&& bnot 7))
          (if color = K.BLACK then (dbyte ||| BV (dy &&& 7)) % 256
            else dbyte &&& bnot (BV (dy &&& 7))), 0)
        else (d, if color = K.BLACK then (dbyte ||| BV (dy &&& 7)) % 256
            else dbyte &&& bnot (BV (dy &&& 7)))).2
      (by omega)
    refine ⟨by rw [he]; omega, t2 ++ t3, by rw [hl3, hl2, List.append_assoc], ?_⟩
    exact WriteOnce.concat ht2 ht3 (fun c q ha hb => by omega) (fun _ _ _ hb => hb)
      (fun c q => ⟨fun hh => by omega, fun hh => by omega⟩)
      (fun c q hh => hh.elim id id)

theorem log_goto_read_write (d : Device) (col y v : Nat) (hy : y < 256) :
    (WriteData (ReadData (GotoXY d col (y &&& bnot 7))).1 v).log
      = d.log ++ [DevOp.read col (y / 8), DevOp.write col (y / 8) (v % 256)] := by
  rw [log_read_write]
  show d.log ++ [DevOp.read col ((y &&& bnot 7) / 8), DevOp.write col ((y &&& bnot 7) / 8) (v % 256)]
    = _
  rw [and_bnot_seven_div y hy]

/-- Log of the final flush of `ScrollUp`: a page left unfinished is read and
written once. -/
theorem ScrollUp_flush_log (d : Device) (col dy dbyte : Nat) (h1 : 1 ≤ dy) (h2 : dy ≤ 255) :
    ∃ tr, (ScrollUp.flush d col dy dbyte).log = d.log ++ tr
      ∧ WriteOnce tr (fun c q => c = col ∧ dy / 8 ≤ q ∧ q < (dy + 7) / 8)
          (fun c q => c = col ∧ dy / 8 ≤ q) := by
  unfold ScrollUp.flush
  rw [and_seven]
  by_cases hc : dy % 8 ≠ 0
  · rw [if_pos hc]
    have hd1 : (dy + 255) % 256 = dy - 1 := by omega
    simp only [hd1]
    exact ⟨_, log_goto_read_write d col (dy - 1) _ (by omega),
      WriteOnce.read_then_write col ((dy - 1) / 8) _ _ _
        (fun c q => ⟨fun hh => by omega, fun hh => by omega⟩) ⟨rfl, by omega⟩⟩
  · rw [if_neg hc]
    exact ⟨[], (List.append_nil _).symm, WriteOnce.no_ops _ _ (fun c q hh => by omega)⟩

theorem log_goto_read (d : Device) (col y : Nat) (hy : y < 256) :
    (ReadData (GotoXY d col (y &&& bnot 7))).1.log = d.log ++ [DevOp.read col (y / 8)] := by
  show d.log ++ [DevOp.read col ((y &&& bnot 7) / 8)] = _
  rw [and_bnot_seven_div y hy]

/-- Log of one column pass of `ScrollUp`: every page of the column between
those of rows `y1` and `y2` is written exactly once, no cell is read after it
was written, and every source page is read. -/
theorem ScrollUp_column_log (K : Config) (fuel : Nat) (d : Device)
    (col y1 y2 N color : Nat) (d1 : Device)
    (hy2 : y2 < 255) (hH : y2 < K.DISPLAY_HEIGHT) (hN : y1 + N ≤ y2)
    (h : ScrollUp.column K fuel d col y1 y2 N color = some d1) :
    ∃ tr, d1.log = d.log ++ tr
      ∧ WriteOnce tr (fun c p => c = col ∧ y1 / 8 ≤ p ∧ p ≤ y2 / 8) (fun c _ => c = col)
      ∧ ∀ q, (y1 + N) / 8 ≤ q → q ≤ y2 / 8 → readsAt tr col q ≠ 0 := by
  unfold ScrollUp.column at h
  have hsy : (y1 + N) % 256 = y1 + N := Nat.mod_eq_of_lt (by omega)
  simp only [hsy] at h
  split at h
  · cases h
  · rename_i dc dyc dbc heq
    cases h
    obtain ⟨he, t1, hl1, ht1, hr1⟩ := ScrollUp_copy_log K col y2 hy2 hH fuel _ _ _ _ _ _ heq
      (by omega) (by omega)
    have he1 : dyc = y1 + (y2 + 1 - (y1 + N)) := he
    subst he1
    obtain ⟨hf, t2, hl2, ht2⟩ := ScrollUp_fill_log K col color N dc
      (y1 + (y2 + 1 - (y1 + N))) dbc (by omega)
    obtain ⟨t3, hl3, ht3⟩ := ScrollUp_flush_log
      (ScrollUp.fill K col color N dc (y1 + (y2 + 1 - (y1 + N))) dbc).1 col
      (ScrollUp.fill K col color N dc (y1 + (y2 + 1 - (y1 + N))) dbc).2.1
      (ScrollUp.fill K col color N dc (y1 + (y2 + 1 - (y1 + N))) dbc).2.2
      (by rw [hf]; omega) (by rw [hf]; omega)
    rw [hf] at ht3
    have hl0 : (ReadData (GotoXY (ReadData (GotoXY d col (y1 &&& bnot 7))).1 col
        ((y1 + N) &&& bnot 7))).1.log
        = d.log ++ ([DevOp.read col (y1 / 8)] ++ [DevOp.read col ((y1 + N) / 8)]) := by
      rw [log_goto_read _ col (y1 + N) (by omega), log_goto_read d col y1 (by omega),
        List.append_assoc]
    have ht0 : WriteOnce ([DevOp.read col (y1 / 8)] ++ [DevOp.read col ((y1 + N) / 8)])
        (fun _ _ => False) (fun c p => c = col ∧ y1 / 8 ≤ p) :=
      WriteOnce.concat
        (WriteOnce.read col (y1 / 8) (fun _ _ => False) (fun c p => c = col ∧ y1 / 8 ≤ p)
          (fun _ _ hh => hh) ⟨rfl, Nat.le_refl _⟩)
        (WriteOnce.read col ((y1 + N) / 8) (fun _ _ => False) (fun c p => c = col ∧ y1 / 8 ≤ p)
          (fun _ _ hh => hh) ⟨rfl, by omega⟩)
        (fun _ _ hh _ => hh) (fun _ _ hh _ => hh)
        (fun c p => ⟨fun hh => Or.inl hh, fun hh => hh.elim id id⟩)
        (fun c p hh => hh.elim id id)
    have h01 : WriteOnce (([DevOp.read col (y1 / 8)] ++ [DevOp.read col ((y1 + N) / 8)]) ++ t1)
        (fun c p => c = col ∧ y1 / 8 ≤ p ∧ p < (y1 + (y2 + 1 - (y1 + N))) / 8)
        (fun c p => c = col ∧ y1 / 8 ≤ p) :=
      WriteOnce.concat ht0 ht1 (fun _ _ hh _ => hh) (fun _ _ hh _ => hh)
        (fun c p => ⟨fun hh => Or.inr hh, fun hh => hh.elim (fun f => f.elim) id⟩)
        (fun c p hh => hh.elim id id)
    have h012 : WriteOnce
        ((([DevOp.read col (y1 / 8)] ++ [DevOp.read col ((y1 + N) / 8)]) ++ t1) ++ t2)
        (fun c p => c = col ∧ y1 / 8 ≤ p ∧ p < (y2 + 1) / 8)
        (fun c p => c = col ∧ y1 / 8 ≤ p) :=
      WriteOnce.concat h01 ht2 (fun c p ha hb => by omega) (fun _ _ _ hb => hb)
        (fun c p => ⟨fun hh => by omega, fun hh => by omega⟩)
        (fun c p hh => hh.elim id (fun f => f.elim))
    refine ⟨(((([DevOp.read col (y1 / 8)] ++ [DevOp.read col ((y1 + N) / 8)]) ++ t1) ++ t2)
      ++ t3), ?_, ?_, ?_⟩
    · rw [hl3, hl2, hl1, hl0]
      simp only [List.append_assoc]
    · exact WriteOnce.concat h012 ht3 (fun c p ha hb => by omega) (fun c p ha hb => by omega)
        (fun c p => ⟨fun hh => by omega, fun hh => by omega⟩)
        (fun c p hh => hh.elim (fun a => a.1) (fun a => a.1))
    · intro q hq1 hq2
      simp only [readsAt_append]
      by_cases hq : q = (y1 + N) / 8
      · subst hq
        have : readsAt [DevOp.read col ((y1 + N) / 8)] col ((y1 + N) / 8) = 1 := by
          simp [readsAt]
        omega
      · have := hr1 q (by omega) (by omega)
        omega

/-- Log of the column loop of `ScrollUp` from column `col` on. -/
theorem ScrollUp_columns_log (K : Config) (y1 x2 y2 N color inner : Nat)
    (hx2 : x2 < 255) (hy2 : y2 < 255) (hH : y2 < K.DISPLAY_HEIGHT) (hN : y1 + N ≤ y2) :
    ∀ (fuel : Nat) (d : Device) (col : Nat) (d1 : Device),
      ScrollUp.columns K y1 x2 y2 N color inner fuel d col = some d1 →
      ∃ tr, d1.log = d.log ++ tr
        ∧ WriteOnce tr (fun c p => col ≤ c ∧ c ≤ x2 ∧ y1 / 8 ≤ p ∧ p ≤ y2 / 8)
            (fun c _ => col ≤ c)
        ∧ ∀ c q, col ≤ c → c ≤ x2 → (y1 + N) / 8 ≤ q → q ≤ y2 / 8 → readsAt tr c q ≠ 0 := by
  intro fuel
  induction fuel with
  | zero => intro d col d1 h; simp [ScrollUp.columns] at h
  | succ fuel ih =>
    intro d col d1 h
    rw [ScrollUp.columns] at h
    by_cases hc : col ≤ x2
    · rw [if_pos hc] at h
      have hcol : (col + 1) % 256 = col + 1 := Nat.mod_eq_of_lt (by omega)
      simp only [hcol] at h
      split at h
      · cases h
      · rename_i dc heq
        obtain ⟨t1, hl1, ht1, hr1⟩ := ScrollUp_column_log K inner d col y1 y2 N color dc hy2 hH
          hN heq
        obtain ⟨t2, hl2, ht2, hr2⟩ := ih dc (col + 1) d1 h
        refine ⟨t1 ++ t2, by rw [hl2, hl1, List.append_assoc], ?_, ?_⟩
        · exact WriteOnce.concat ht1 ht2 (fun c p ha hb => by omega) (fun c p ha hb => by omega)
            (fun c p => ⟨fun hh => by omega, fun hh => by omega⟩)
            (fun c p hh => by omega)
        · intro c q hc1 hc2 hq1 hq2
          rw [readsAt_append]
          by_cases hcc : c = col
          · subst hcc
            have := hr1 q hq1 hq2
            omega
          · have := hr2 c q (by omega) hc2 hq1 hq2
            omega
    · rw [if_neg hc] at h
      cases h
      exact ⟨[], (List.append_nil _).symm, WriteOnce.no_ops _ _ (fun c p hh => by omega),
        fun c q hc1 hc2 => by omega⟩

/-- Log of the copy loop of `ScrollDown`, with `e = dy + 1` rows still to
produce: the destination pages completed are written once each, in descending
order; every read is of a page not yet written; every source page entered by
the loop is read. -/
theorem ScrollDown_copy_log (col y1 : Nat) :
    ∀ (fuel : Nat) (d : Device) (e dbyte sy sbyte : Nat) (r : Device × Nat × Nat),
      ScrollDown.copy col y1 fuel d (e - 1) dbyte sy sbyte = some r →
      1 ≤ e → e ≤ 255 → sy + 1 ≤ e →
      r.2.1 = (e - (sy + 1 - y1) + 255) % 256
      ∧ ∃ tr, r.1.log = d.log ++ tr
        ∧ WriteOnce tr
            (fun c p => c = col ∧ (e - (sy + 1 - y1) + 7) / 8 ≤ p ∧ p < (e + 7) / 8)
            (fun c p => c = col ∧ p < (e + 7) / 8)
        ∧ ∀ q, y1 ≤ 8 * q + 8 → 8 * q + 7 < sy → readsAt tr col q ≠ 0 := by
  intro fuel
  induction fuel with
  | zero => intro d e dbyte sy sbyte r h; simp [ScrollDown.copy] at h
  | succ fuel ih =>
    intro d e dbyte sy sbyte r h he1 he2 hse
    rw [ScrollDown.copy] at h
    by_cases hc : sy ≥ y1
    · rw [if_pos hc] at h
      obtain ⟨t1, hl1, ht1⟩ := write_step_log ((e - 1) &&& 7 = 0) d col (e - 1)
        (if sbyte &&& BV (sy &&& 7) ≠ 0 then (dbyte ||| BV ((e - 1) &&& 7)) % 256 else dbyte)
        (if sbyte &&& BV (sy &&& 7) ≠ 0 then (dbyte ||| BV ((e - 1) &&& 7)) % 256 else dbyte)
        (by omega)
        (fun c p => c = col ∧ (e - 1 + 7) / 8 ≤ p ∧ p < (e + 7) / 8) (fun _ _ => False)
        (fun c p => by rw [and_seven]; constructor <;> intro hh <;> omega)
      by_cases h0 : sy = 0
      · simp only [h0, if_true] at h
        cases h
        subst h0
        refine ⟨by show (e - 1 + 255) % 256 = _; omega, t1, hl1, ?_, fun q _ hq => by omega⟩
        exact WriteOnce.weaken ht1 (fun c p => ⟨fun hh => by omega, fun hh => by omega⟩)
          (fun c p hh => hh.elim)
      · simp only [h0, if_false] at h
        have hsy1 : (sy + 255) % 256 = sy - 1 := by omega
        have hdy1 : (e - 1 + 255) % 256 = e - 1 - 1 := by omega
        simp only [hsy1, hdy1] at h
        obtain ⟨t2, hl2, ht2, hr2⟩ := read_step_log ((sy - 1) &&& 7 = 7)
          (if (e - 1) &&& 7 = 0 then (WriteData (GotoXY d col ((e - 1) &&& bnot 7))
              (if sbyte &&& BV (sy &&& 7) ≠ 0 then (dbyte ||| BV ((e - 1) &&& 7)) % 256
                else dbyte), 0)
            else (d, if sbyte &&& BV (sy &&& 7) ≠ 0 then (dbyte ||| BV ((e - 1) &&& 7)) % 256
                else dbyte)).1
          col (sy - 1) sbyte (by omega)
          (fun c p => c = col ∧ p < (e - 1 + 7) / 8) ⟨rfl, by omega⟩
        obtain ⟨hres, t3, hl3, ht3, hr3⟩ := ih _ (e - 1) _ (sy - 1) _ r h (by omega) (by omega)
          (by omega)
        refine ⟨by rw [hres]; omega, (t1 ++ t2) ++ t3, by
          rw [hl3, hl2, hl1, List.append_assoc, List.append_assoc, List.append_assoc], ?_, ?_⟩
        · have h12 : WriteOnce (t1 ++ t2)
              (fun c p => c = col ∧ (e - 1 + 7) / 8 ≤ p ∧ p < (e + 7) / 8)
              (fun c p => c = col ∧ p < (e + 7) / 8) :=
            WriteOnce.concat ht1 ht2 (fun _ _ _ hb => hb) (fun c p ha hb => by omega)
              (fun c p => ⟨fun hh => Or.inl hh, fun hh => hh.elim id (fun f => f.elim)⟩)
              (fun c p hh => hh.elim (fun f => f.elim) (fun a => by omega))
          exact WriteOnce.concat h12 ht3 (fun c p ha hb => by omega)
            (fun c p ha hb => by omega)
            (fun c p => ⟨fun hh => by omega, fun hh => by omega⟩)
            (fun c p hh => by omega)
        · intro q hq1 hq2
          rw [readsAt_append, readsAt_append]
          by_cases hq : 8 * q + 7 = sy - 1
          · have := hr2 (by rw [and_seven]; omega)
            have hq8 : (sy - 1) / 8 = q := by omega
            rw [hq8] at this
            omega
          · have := hr3 q hq1 (by omega)
            omega
    · rw [if_neg hc] at h
      cases h
      refine ⟨by show e - 1 = _; omega, [], (List.append_nil _).symm,
        WriteOnce.no_ops _ _ (fun c p hh => by omega), fun q hq1 hq2 => by omega⟩

/-- Log of the fill loop of `ScrollDown`, with `e = dy + 1` rows still to
produce: the pages completed by the `p` filled rows are written once each;
nothing is read. -/
theorem ScrollDown_fill_log (K : Config) (col color : Nat) :
    ∀ (p : Nat) (d : Device) (e dbyte : Nat), p ≤ e → e ≤ 255 →
      (ScrollDown.fill K col color p d ((e + 255) % 256) dbyte).2.1 = (e - p + 255) % 256
      ∧ ∃ tr, (ScrollDown.fill K col color p d ((e + 255) % 256) dbyte).1.log = d.log ++ tr
        ∧ WriteOnce tr (fun c q => c = col ∧ (e - p + 7) / 8 ≤ q ∧ q < (e + 7) / 8)
            (fun _ _ => False) := by
  intro p
  induction p with
  | zero =>
    intro d e dbyte _ _
    exact ⟨rfl, [], (List.append_nil _).symm, WriteOnce.no_ops _ _ (fun c q hh => by omega)⟩
  | succ p ih =>
    intro d e dbyte hpe he
    rw [ScrollDown.fill]
    have hdy : (e + 255) % 256 = e - 1 := by omega
    have hdy1 : (e - 1 + 255) % 256 = (e - 1 + 255) % 256 := rfl
    simp only [hdy]
    obtain ⟨t2, hl2, ht2⟩ := write_step_log ((e - 1) &&& 7 = 0) d col (e - 1)
      (if color = K.BLACK then (dbyte ||| BV ((e - 1) &&& 7)) % 256
        else dbyte &&& bnot (BV ((e - 1) &&& 7)))
      (if color = K.BLACK then (dbyte ||| BV ((e - 1) &&& 7)) % 256
        else dbyte &&& bnot (BV ((e - 1) &&& 7)))
      (by omega)
      (fun c q => c = col ∧ (e - 1 + 7) / 8 ≤ q ∧ q < (e + 7) / 8) (fun _ _ => False)
      (fun c q => by rw [and_seven]; constructor <;> intro hh <;> omega)
    obtain ⟨hres, t3, hl3, ht3⟩ := ih
      (if (e - 1) &&& 7 = 0 then (WriteData (GotoXY d col ((e - 1) &&& bnot 7))
          (if color = K.BLACK then (dbyte ||| BV ((e - 1) &&& 7)) % 256
            else dbyte &&& bnot (BV ((e - 1) &&& 7))), 0)
        else (d, if color = K.BLACK then (dbyte ||| BV ((e - 1) &&& 7)) % 256
            else dbyte &&& bnot (BV ((e - 1) &&& 7)))).1
      (e - 1)
      (if (e - 1) &&& 7 = 0 then (WriteData (GotoXY d col ((e - 1) &&& bnot 7))
          (if color = K.BLACK then (dbyte ||| BV ((e - 1) &&& 7)) % 256
            else dbyte &&& bnot (BV ((e - 1) &&& 7))), 0)
        else (d, if color = K.BLACK then (dbyte ||| BV ((e - 1) &&& 7)) % 256
            else dbyte &&& bnot (BV ((e - 1) &&& 7)))).2
      (by omega) (by omega)
    refine ⟨by rw [hres]; omega, t2 ++ t3, by rw [hl3, hl2, List.append_assoc], ?_⟩
    exact WriteOnce.concat ht2 ht3 (fun c q ha hb => by omega) (fun _ _ _ hb => hb)
      (fun c q => ⟨fun hh => by omega, fun hh => by omega⟩)
      (fun c q hh => hh.elim id id)

/-- Log of the final flush of `ScrollDown`: a page left unfinished is read and
written once. -/
theorem ScrollDown_flush_log (d : Device) (col dy dbyte : Nat) (h2 : dy ≤ 255) :
    ∃ tr, (ScrollDown.flush d col dy dbyte).log = d.log ++ tr
      ∧ WriteOnce tr (fun c q => c = col ∧ dy / 8 ≤ q ∧ q < (dy + 7) / 8)
          (fun c q => c = col ∧ q < (dy + 7) / 8) := by
  unfold ScrollDown.flush
  rw [and_seven]
  by_cases hc : dy % 8 ≠ 0
  · rw [if_pos hc]
    exact ⟨_, log_goto_read_write d col dy _ (by omega),
      WriteOnce.read_then_write col (dy / 8) _ _ _
        (fun c q => ⟨fun hh => by omega, fun hh => by omega⟩) ⟨rfl, by omega⟩⟩
  · rw [if_neg hc]
    exact ⟨[], (List.append_nil _).symm, WriteOnce.no_ops _ _ (fun c q hh => by omega)⟩

/-- Log of one column pass of `ScrollDown`: every page of the column between
those of rows `y1` and `y2` is written exactly once, no cell is read after it
was written, and every source page is read. -/
theorem ScrollDown_column_log (K : Config) (fuel : Nat) (d : Device)
    (col y1 y2 N color : Nat) (d1 : Device)
    (hy2 : y2 < 255) (hN : y1 + N ≤ y2)
    (h : ScrollDown.column K fuel d col y1 y2 N color = some d1) :
    ∃ tr, d1.log = d.log ++ tr
      ∧ WriteOnce tr (fun c p => c = col ∧ y1 / 8 ≤ p ∧ p ≤ y2 / 8) (fun c _ => c = col)
      ∧ ∀ q, y1 / 8 ≤ q → q ≤ (y2 - N) / 8 → readsAt tr col q ≠ 0 := by
  unfold ScrollDown.column at h
  have hsy : (y2 + 256 - N) % 256 = y2 - N := by omega
  simp only [hsy] at h
  split at h
  · cases h
  · rename_i dc dyc dbc heq
    cases h
    obtain ⟨he, t1, hl1, ht1, hr1⟩ := ScrollDown_copy_log col y1 fuel _ (y2 + 1) _ _ _ _ heq
      (by omega) (by omega) (by omega)
    have he1 : dyc = (y2 + 1 - (y2 - N + 1 - y1) + 255) % 256 := he
    subst he1
    obtain ⟨hf, t2, hl2, ht2⟩ := ScrollDown_fill_log K col color N dc
      (y2 + 1 - (y2 - N + 1 - y1)) dbc (by omega) (by omega)
    have hfl : ((ScrollDown.fill K col color N dc
        ((y2 + 1 - (y2 - N + 1 - y1) + 255) % 256) dbc).2.1 + 1) % 256 = y1 := by
      rw [hf]; omega
    rw [hfl]
    obtain ⟨t3, hl3, ht3⟩ := ScrollDown_flush_log
      (ScrollDown.fill K col color N dc ((y2 + 1 - (y2 - N + 1 - y1) + 255) % 256) dbc).1 col
      y1
      (ScrollDown.fill K col color N dc ((y2 + 1 - (y2 - N + 1 - y1) + 255) % 256) dbc).2.2
      (by omega)
    have hl0 : (ReadData (GotoXY (ReadData (GotoXY d col (y2 &&& bnot 7))).1 col
        ((y2 - N) &&& bnot 7))).1.log
        = d.log ++ ([DevOp.read col (y2 / 8)] ++ [DevOp.read col ((y2 - N) / 8)]) := by
      rw [log_goto_read _ col (y2 - N) (by omega), log_goto_read d col y2 (by omega),
        List.append_assoc]
    have ht0 : WriteOnce ([DevOp.read col (y2 / 8)] ++ [DevOp.read col ((y2 - N) / 8)])
        (fun _ _ => False) (fun c p => c = col ∧ p < (y2 + 1 + 7) / 8) :=
      WriteOnce.concat
        (WriteOnce.read col (y2 / 8) (fun _ _ => False)
          (fun c p => c = col ∧ p < (y2 + 1 + 7) / 8) (fun _ _ hh => hh) ⟨rfl, by omega⟩)
        (WriteOnce.read col ((y2 - N) / 8) (fun _ _ => False)
          (fun c p => c = col ∧ p < (y2 + 1 + 7) / 8) (fun _ _ hh => hh) ⟨rfl, by omega⟩)
        (fun _ _ hh _ => hh) (fun _ _ hh _ => hh)
        (fun c p => ⟨fun hh => Or.inl hh, fun hh => hh.elim id id⟩)
        (fun c p hh => hh.elim id id)
    have h01 : WriteOnce (([DevOp.read col (y2 / 8)] ++ [DevOp.read col ((y2 - N) / 8)]) ++ t1)
        (fun c p => c = col ∧ (y2 + 1 - (y2 - N + 1 - y1) + 7) / 8 ≤ p ∧ p < (y2 + 1 + 7) / 8)
        (fun c p => c = col ∧ p < (y2 + 1 + 7) / 8) :=
      WriteOnce.concat ht0 ht1 (fun _ _ hh _ => hh) (fun _ _ hh _ => hh)
        (fun c p => ⟨fun hh => Or.inr hh, fun hh => hh.elim (fun f => f.elim) id⟩)
        (fun c p hh => hh.elim id id)
    have h012 : WriteOnce
        ((([DevOp.read col (y2 / 8)] ++ [DevOp.read col ((y2 - N) / 8)]) ++ t1) ++ t2)
        (fun c p => c = col ∧ (y1 + 7) / 8 ≤ p ∧ p < (y2 + 1 + 7) / 8)
        (fun c p => c = col ∧ p < (y2 + 1 + 7) / 8) :=
      WriteOnce.concat h01 ht2 (fun c p ha hb => by omega) (fun _ _ _ hb => hb)
        (fun c p => ⟨fun hh => by omega, fun hh => by omega⟩)
        (fun c p hh => hh.elim id (fun f => f.elim))
    refine ⟨(((([DevOp.read col (y2 / 8)] ++ [DevOp.read col ((y2 - N) / 8)]) ++ t1) ++ t2)
      ++ t3), ?_, ?_, ?_⟩
    · rw [hl3, hl2, hl1, hl0]
      simp only [List.append_assoc]
    · exact WriteOnce.concat h012 ht3 (fun c p ha hb => by omega) (fun c p ha hb => by omega)
        (fun c p => ⟨fun hh => by omega, fun hh => by omega⟩)
        (fun c p hh => hh.elim (fun a => a.1) (fun a => a.1))
    · intro q hq1 hq2
      simp only [readsAt_append]
      by_cases hq : q = (y2 - N) / 8
      · subst hq
        have : readsAt [DevOp.read col ((y2 - N) / 8)] col ((y2 - N) / 8) = 1 := by
          simp [readsAt]
        omega
      · have := hr1 q (by omega) (by omega)
        omega

/-- Log of the column loop of `ScrollDown` from column `col` on. -/
theorem ScrollDown_columns_log (K : Config) (y1 x2 y2 N color inner : Nat)
    (hx2 : x2 < 255) (hy2 : y2 < 255) (hN : y1 + N ≤ y2) :
    ∀ (fuel : Nat) (d : Device) (col : Nat) (d1 : Device),
      ScrollDown.columns K y1 x2 y2 N color inner fuel d col = some d1 →
      ∃ tr, d1.log = d.log ++ tr
        ∧ WriteOnce tr (fun c p => col ≤ c ∧ c ≤ x2 ∧ y1 / 8 ≤ p ∧ p ≤ y2 / 8)
            (fun c _ => col ≤ c)
        ∧ ∀ c q, col ≤ c → c ≤ x2 → y1 / 8 ≤ q → q ≤ (y2 - N) / 8 → readsAt tr c q ≠ 0 := by
  intro fuel
  induction fuel with
  | zero => intro d col d1 h; simp [ScrollDown.columns] at h
  | succ fuel ih =>
    intro d col d1 h
    rw [ScrollDown.columns] at h
    by_cases hc : col ≤ x2
    · rw [if_pos hc] at h
      have hcol : (col + 1) % 256 = col + 1 := Nat.mod_eq_of_lt (by omega)
      simp only [hcol] at h
      split at h
      · cases h
      · rename_i dc heq
        obtain ⟨t1, hl1, ht1, hr1⟩ := ScrollDown_column_log K inner d col y1 y2 N color dc hy2
          hN heq
        obtain ⟨t2, hl2, ht2, hr2⟩ := ih dc (col + 1) d1 h
        refine ⟨t1 ++ t2, by rw [hl2, hl1, List.append_assoc], ?_, ?_⟩
        · exact WriteOnce.concat ht1 ht2 (fun c p ha hb => by omega) (fun c p ha hb => by omega)
            (fun c p => ⟨fun hh => by omega, fun hh => by omega⟩)
            (fun c p hh => by omega)
        · intro c q hc1 hc2 hq1 hq2
          rw [readsAt_append]
          by_cases hcc : c = col
          · subst hcc
            have := hr1 q hq1 hq2
            omega
          · have := hr2 c q (by omega) hc2 hq1 hq2
            omega
    · rw [if_neg hc] at h
      cases h
      exact ⟨[], (List.append_nil _).symm, WriteOnce.no_ops _ _ (fun c p hh => by omega),
        fun c q hc1 hc2 => by omega⟩

/-- What a write-once log gives about write counts and the written region. -/
theorem WriteOnce.counts {t : List DevOp} {W R : Nat → Nat → Prop} (h : WriteOnce t W R) :
    (∀ c p, writesAt t c p ≤ 1) ∧ (∀ c p, writesAt t c p ≠ 0 → W c p) := by
  constructor
  · intro c p
    by_cases hw : W c p
    · rw [h.inside c p hw]
    · rw [h.outside c p hw]; omega
  · intro c p hne
    by_contra hw
    exact hne (h.outside c p hw)

/-- C28. Scroll write-once discipline.  On a display of at most 255 columns and
rows, for every rectangle with `x2 < DISPLAY_WIDTH` and `y2 < DISPLAY_HEIGHT`,
every pixel count, colour and device state, `ScrollUp` and `ScrollDown` return
(given fuel above 257) and the operations `tr` they append to the log write
every cell at most once, write only cells of columns `x1..x2` and pages
`y1 div 8 .. y2 div 8`, and never read a cell after a write of it.  When rows
are copied (`y1 + N <= y2`) every source page, `(y1+N) div 8 .. y2 div 8` for
`ScrollUp` and `y1 div 8 .. (y2-N) div 8` for `ScrollDown`, of every column is
read; so a source page is read before the write that overwrites it. -/
theorem Scroll_write_once (K : Config) (d : Device) (x1 y1 x2 y2 N color fuel : Nat)
    (hW : K.DISPLAY_WIDTH ≤ 255) (hH : K.DISPLAY_HEIGHT ≤ 255)
    (hx2 : x2 < K.DISPLAY_WIDTH) (hy2 : y2 < K.DISPLAY_HEIGHT) (hf : 257 < fuel) :
    (∃ d1 tr, ScrollUp K fuel d x1 y1 x2 y2 N color = some d1
      ∧ d1.log = d.log ++ tr
      ∧ (∀ c p, writesAt tr c p ≤ 1)
      ∧ (∀ c p, writesAt tr c p ≠ 0 → x1 ≤ c ∧ c ≤ x2 ∧ y1 / 8 ≤ p ∧ p ≤ y2 / 8)
      ∧ noReadAfterWrite tr = true
      ∧ (y1 + N ≤ y2 → ∀ c p, x1 ≤ c → c ≤ x2 → (y1 + N) / 8 ≤ p → p ≤ y2 / 8 →
          readsAt tr c p ≠ 0))
    ∧ (∃ d1 tr, ScrollDown K fuel d x1 y1 x2 y2 N color = some d1
      ∧ d1.log = d.log ++ tr
      ∧ (∀ c p, writesAt tr c p ≤ 1)
      ∧ (∀ c p, writesAt tr c p ≠ 0 → x1 ≤ c ∧ c ≤ x2 ∧ y1 / 8 ≤ p ∧ p ≤ y2 / 8)
      ∧ noReadAfterWrite tr = true
      ∧ (y1 + N ≤ y2 → ∀ c p, x1 ≤ c → c ≤ x2 → y1 / 8 ≤ p → p ≤ (y2 - N) / 8 →
          readsAt tr c p ≠ 0)) := by
  constructor
  · obtain ⟨d1, h1⟩ := ScrollUp_returns K d x1 y1 x2 y2 N color fuel (by omega) (by omega)
      (by omega)
    by_cases hN : y1 + N ≤ y2
    · have h2 := h1
      unfold ScrollUp at h2
      rw [if_neg (by omega)] at h2
      obtain ⟨tr, hl, ht, hr⟩ := ScrollUp_columns_log K y1 x2 y2 N color fuel (by omega)
        (by omega) hy2 hN fuel d x1 d1 h2
      exact ⟨d1, tr, h1, hl, ht.counts.1, ht.counts.2, ht.ordered, fun _ => hr⟩
    · have h2 := h1
      unfold ScrollUp at h2
      rw [if_pos (by omega)] at h2
      cases h2
      exact ⟨_, [DevOp.fill x1 y1 x2 y2 color], h1, rfl, fun c p => by simp [writesAt],
        fun c p hne => absurd (by simp [writesAt]) hne, rfl, fun hh => absurd hh hN⟩
  · obtain ⟨d1, h1⟩ := ScrollDown_returns K d x1 y1 x2 y2 N color fuel (by omega) hf
    by_cases hN : y1 + N ≤ y2
    · have h2 := h1
      unfold ScrollDown at h2
      rw [if_neg (by omega)] at h2
      obtain ⟨tr, hl, ht, hr⟩ := ScrollDown_columns_log K y1 x2 y2 N color fuel (by omega)
        (by omega) hN fuel d x1 d1 h2
      exact ⟨d1, tr, h1, hl, ht.counts.1, ht.counts.2, ht.ordered, fun _ => hr⟩
    · have h2 := h1
      unfold ScrollDown at h2
      rw [if_pos (by omega)] at h2
      cases h2
      exact ⟨_, [DevOp.fill x1 y1 x2 y2 color], h1, rfl, fun c p => by simp [writesAt],
        fun c p hne => absurd (by simp [writesAt]) hne, rfl, fun hh => absurd hh hN⟩

/-- The write-once theorem applied to a rectangle of the speckled display. -/
theorem Scroll_write_once_witness :
    ks0108.DISPLAY_WIDTH ≤ 255 ∧ ks0108.DISPLAY_HEIGHT ≤ 255 ∧ 4 < ks0108.DISPLAY_WIDTH
      ∧ 20 < ks0108.DISPLAY_HEIGHT ∧ 257 < 300
      ∧ (∃ d1 tr, ScrollUp ks0108 300 speckled 2 3 4 20 5 0 = some d1
          ∧ d1.log = speckled.log ++ tr
          ∧ (∀ c p, writesAt tr c p ≤ 1) ∧ noReadAfterWrite tr = true)
      ∧ (∃ d1 tr, ScrollDown ks0108 300 speckled 2 3 4 20 5 0 = some d1
          ∧ d1.log = speckled.log ++ tr
          ∧ (∀ c p, writesAt tr c p ≤ 1) ∧ noReadAfterWrite tr = true) :=
  have h := Scroll_write_once ks0108 speckled 2 3 4 20 5 0 300 (by decide) (by decide)
    (by decide) (by decide) (by decide)
  ⟨by decide, by decide, by decide, by decide, by decide,
    h.1.elim fun d1 h1 => h1.elim fun tr h2 => ⟨d1, tr, h2.1, h2.2.1, h2.2.2.1, h2.2.2.2.2.1⟩,
    h.2.elim fun d1 h1 => h1.elim fun tr h2 => ⟨d1, tr, h2.1, h2.2.1, h2.2.2.1, h2.2.2.2.2.1⟩⟩

end GLCD
